import Mathlib

/-!
Ant Colony Optimization engine (mattianeroni/Picking)

A shallow embedding of `AntColonyOptimization/aco/aco.go`,
`AntColonyOptimization/aco/problem.go` and the `Solve` of `tsp/aco.go`, and theorems
about it.

Modelling conventions

* A Go run-time panic (index or slice bound out of range) is `none`.
* `float64` is `F64`: a finite value, kept as an exact rational, or `nan`, the one
  value standing for every non-finite result (NaN, +Inf, -Inf).  Rounding and
  overflow of finite values are not modelled; dividing by zero gives `nan`, and a
  quotient by +Inf, which is 0 for float64, is `nan` too.  A statement that needs
  the arithmetic to be exact says so.
* `math.Pow` is not part of the repository: every function that calls it takes
  it as the parameter `pow`.  `powNat` is the exact power, `powUnderflow` the power
  with the underflow of float64.
* A `Route` is a value: the sharing of the slice `problem.nodes[1:]` between the
  problem and the solutions stored by `Solve` is not modelled.
* `euclidean` takes the integer square root of the exact squared distance, which is
  what the float computation gives on small coordinates.
* `math/rand` is not part of the repository: `rand.Float64` is a stream
  `rnd : Nat → ℚ` read at an explicit position, `rand.Shuffle` is a function
  `shuffle : Route → Route`.
* Go `int` additions wrap at 64 bits (`wrapInt`).
* Wall-clock time (`computationalTime`) and plotting are left out.
-/

namespace ACO

/-! ## float64 -/

/-- A `float64`: an exact finite value, or `nan` for a non-finite one. -/
inductive F64 where
  | fin (q : ℚ)
  | nan
deriving DecidableEq

/-- Float addition. -/
def fadd : F64 → F64 → F64
  | .fin x, .fin y => .fin (x + y)
  | _, _ => .nan

/-- Float multiplication. -/
def fmul : F64 → F64 → F64
  | .fin x, .fin y => .fin (x * y)
  | _, _ => .nan

/-- Float division; a zero divisor gives a non-finite value. -/
def fdiv : F64 → F64 → F64
  | .fin x, .fin y => if y = 0 then .nan else .fin (x / y)
  | _, _ => .nan

/-- The comparison `x >= y` on floats; false as soon as one side is not finite. -/
def fge : F64 → F64 → Bool
  | .fin x, .fin y => decide (y ≤ x)
  | _, _ => false

/-- The conversion `float64(d)` of a Go `int`. -/
def ofInt (d : Int) : F64 := .fin (d : ℚ)

/-- `math.Pow` at a natural-number exponent and finite base, where it is the exact
power; used only to evaluate the code on concrete inputs. -/
def powNat : F64 → F64 → F64
  | .fin x, .fin y => if y.den = 1 ∧ 0 ≤ y.num then .fin (x ^ y.num.toNat) else .nan
  | _, _ => .nan

/-- `math.Pow` at a natural-number exponent and finite base with the underflow of
float64: a power whose magnitude is at most `2^-1075`, half the least positive
float64, is 0 (round to nearest); a larger one is kept exact. -/
def powUnderflow : F64 → F64 → F64
  | .fin x, .fin y =>
    if y.den = 1 ∧ 0 ≤ y.num then
      if -(1 / 2 ^ 1075) ≤ x ^ y.num.toNat ∧ x ^ y.num.toNat ≤ 1 / 2 ^ 1075 then .fin 0
      else .fin (x ^ y.num.toNat)
    else .nan
  | _, _ => .nan

/-- Two's-complement wrap-around of a 64 bit Go `int`. -/
def wrapInt (x : Int) : Int := (x + 2 ^ 63) % 2 ^ 64 - 2 ^ 63

/-! ## problem.go -/

/-- A node of the graph (`type Node struct { id, x, y int }`); `id` is used as a
slice index only. -/
structure Node where
  id : Nat
  x : Int
  y : Int
deriving DecidableEq

/-- The route type (`type Route []Node`). -/
abbrev Route := List Node

/-- A Travelling Salesman Problem; the first node is the depot. -/
structure TSP where
  space : Int
  nodes : Route

/-- The distance `int(math.Sqrt(dx^2 + dy^2))` between two nodes: the integer
square root of the squared distance. -/
def euclidean (n m : Node) : Int :=
  (Nat.sqrt (((n.x - m.x) ^ 2 + (n.y - m.y) ^ 2).toNat) : Int)

/-- The matrix of distances between the nodes of a problem. -/
def TSP.DistanceMatrix (self : TSP) : List (List Int) :=
  self.nodes.map (fun n => self.nodes.map (fun m => euclidean n m))

/-! ## aco.go: data -/

/-- A solution of the algorithm. -/
structure Solution where
  Route : List Node
  Cost : Int
deriving DecidableEq

/-- The entry `M[i][j]`, `none` when an index is out of range. -/
def at2 {α : Type} (M : List (List α)) (i j : Nat) : Option α :=
  match M[i]? with
  | none => none
  | some row => row[j]?

/-- The in-place update `M[i][j] = f(M[i][j])`. -/
def modifyAt {α : Type} (M : List (List α)) (i j : Nat) (f : α → α) : Option (List (List α)) :=
  match M[i]? with
  | none => none
  | some row =>
    match row[j]? with
    | none => none
    | some v => some (M.set i (row.set j (f v)))

/-- The in-place update `M[i][j] += v`. -/
def addAt (M : List (List F64)) (i j : Nat) (v : F64) : Option (List (List F64)) :=
  modifyAt M i j (fun x => fadd x v)

/-- Go's `copy(dst, src)`: the first `min(len(dst), len(src))` cells of `dst` are
overwritten. -/
def copySlice {α : Type} (dst src : List α) : List α :=
  src.take dst.length ++ dst.drop src.length

/-- The cost of a route, loop part: `for _, node := range route[1:]`. -/
def getCostLoop (dists : List (List Int)) : Route → Int → Node → Option (Int × Node)
  | [], cost, cnode => some (cost, cnode)
  | node :: rest, cost, cnode =>
    match at2 dists cnode.id node.id with
    | none => none
    | some d => getCostLoop dists rest (wrapInt (cost + d)) node

/-- The function `getCost`: the loop runs over `route[1:]`, starting from the
depot, and the way back to the depot is added at the end. -/
def getCost (route : Route) (depot : Node) (dists : List (List Int)) : Option Int :=
  match route with
  | [] => none
  | _ :: tail =>
    match getCostLoop dists tail 0 depot with
    | none => none
    | some (cost, cnode) =>
      match at2 dists cnode.id depot.id with
      | none => none
      | some d => some (wrapInt (cost + d))

/-- The Ant Colony Optimization (ACO) algorithm: the fields of the Go struct,
without `computationalTime`. -/
structure AntColonyOptimization where
  era : Int
  dists : List (List Int)
  ro : F64
  Q : F64
  a : F64
  b : F64
  pheromone : List (List F64)
  initialPheromon : List (List F64)
  wuPheromone : List (List F64)
  best : Solution
  history : List Solution
deriving DecidableEq

/-- Constructor for the ACO. -/
def NewACO (era : Int) (dists : List (List Int)) (ro Q a b pherInit : F64) :
    AntColonyOptimization :=
  { era := era, dists := dists, ro := ro, Q := Q, a := a, b := b
    pheromone := List.replicate dists.length (List.replicate dists.length pherInit)
    initialPheromon := List.replicate dists.length (List.replicate dists.length pherInit)
    wuPheromone := List.replicate dists.length (List.replicate dists.length pherInit)
    best := { Route := [], Cost := 0 }
    history := [] }

/-- The grade of the arc `origin -> destination`:
`math.Pow(pheromone[o][d], a) * (1.0 / math.Pow(float64(dists[o][d]), b))`. -/
def grade (pow : F64 → F64 → F64) (self : AntColonyOptimization) (origin destination : Nat) :
    Option F64 :=
  match at2 self.pheromone origin destination, at2 self.dists origin destination with
  | some p, some d => some (fmul (pow p self.a) (fdiv (.fin 1) (pow (ofInt d) self.b)))
  | _, _ => none

/-! ## aco.go: Warmup -/

/-- First inner loop of `Warmup` for row `i`: the grades and their total. -/
def warmupGrades (pow : F64 → F64 → F64) (self : AntColonyOptimization) (i : Nat) :
    List Nat → List F64 → F64 → Option (List F64 × F64)
  | [], grades, totalGrade => some (grades, totalGrade)
  | j :: js, grades, totalGrade =>
    if i ≠ j then
      match grade pow self i j with
      | none => none
      | some g => warmupGrades pow self i js (grades ++ [g]) (fadd totalGrade g)
    else warmupGrades pow self i js (grades ++ [.fin 0]) totalGrade

/-- Second inner loop of `Warmup` for row `i`: every `j` is visited, `i` included. -/
def warmupUpdate (Q : F64) (dists : List (List Int)) (grades : List F64) (totalGrade : F64)
    (i : Nat) : List Nat → List (List F64) → List (List F64) →
    Option (List (List F64) × List (List F64))
  | [], pheromone, wuPheromone => some (pheromone, wuPheromone)
  | j :: js, pheromone, wuPheromone =>
    match grades[j]?, at2 dists i j with
    | some g, some d =>
      match addAt pheromone i j (fdiv (fmul (fdiv g totalGrade) Q) (ofInt d)) with
      | none => none
      | some pheromone1 =>
        match addAt wuPheromone i j (fdiv (fmul (fdiv g totalGrade) Q) (ofInt d)) with
        | none => none
        | some wuPheromone1 =>
          warmupUpdate Q dists grades totalGrade i js pheromone1 wuPheromone1
    | _, _ => none

/-- The loop over the rows `i` of one warmup round. -/
def warmupRows (pow : F64 → F64 → F64) (size : Nat) :
    List Nat → AntColonyOptimization → Option AntColonyOptimization
  | [], self => some self
  | i :: is, self =>
    match warmupGrades pow self i (List.range size) [] (.fin 0) with
    | none => none
    | some (grades, totalGrade) =>
      match warmupUpdate self.Q self.dists grades totalGrade i (List.range size)
          self.pheromone self.wuPheromone with
      | none => none
      | some (pheromone1, wuPheromone1) =>
        warmupRows pow size is
          { self with pheromone := pheromone1, wuPheromone := wuPheromone1 }

/-- The outer loop of `Warmup`: `iter` rounds. -/
def warmupIters (pow : F64 → F64 → F64) :
    Nat → AntColonyOptimization → Option AntColonyOptimization
  | 0, self => some self
  | n + 1, self =>
    match warmupRows pow self.dists.length (List.range self.dists.length) self with
    | none => none
    | some self1 => warmupIters pow n self1

/-- The warmup procedure. -/
def Warmup (pow : F64 → F64 → F64) (self : AntColonyOptimization) (maxiter : Int) :
    Option AntColonyOptimization :=
  warmupIters pow maxiter.toNat self

/-! ## aco.go: Reset -/

/-- The loop `for i < len(dists) { copy(dst[i], src[i]) }`. -/
def copyRows (src : List (List F64)) : List Nat → List (List F64) → Option (List (List F64))
  | [], dst => some dst
  | i :: is, dst =>
    match dst[i]?, src[i]? with
    | some d, some s => copyRows src is (dst.set i (copySlice d s))
    | _, _ => none

/-- Restores the pheromone: to the initial matrix when `complete`, to the
post-warmup matrix otherwise. -/
def Reset (self : AntColonyOptimization) (complete : Bool) : Option AntColonyOptimization :=
  if complete = true then
    match copyRows self.initialPheromon (List.range self.dists.length) self.pheromone with
    | none => none
    | some p => some { self with pheromone := p }
  else if complete = false then
    match copyRows self.wuPheromone (List.range self.dists.length) self.pheromone with
    | none => none
    | some p => some { self with pheromone := p }
  else some self

/-! ## aco.go: getRoute -/

/-- The loop of `getRoute` that grades the options from the current node. -/
def gradesLoop (pow : F64 → F64 → F64) (self : AntColonyOptimization) (currentNode : Node) :
    List Node → List F64 → F64 → Option (List F64 × F64)
  | [], grades, totalGrade => some (grades, totalGrade)
  | node :: rest, grades, totalGrade =>
    match grade pow self currentNode.id node.id with
    | none => none
    | some g => gradesLoop pow self currentNode rest (grades ++ [g]) (fadd totalGrade g)

/-- The selection loop of `getRoute`, walking `grades` and `options` together from
index `j` with the running `cum`; `none` when the loop ends without a `break`. -/
def selectLoop (r totalGrade : F64) : List F64 → List Node → Nat → F64 → Option (Node × Nat)
  | g :: gs, o :: os, j, cum =>
    if fge (fadd cum (fdiv g totalGrade)) r = true then some (o, j)
    else selectLoop r totalGrade gs os (j + 1) (fadd cum (fdiv g totalGrade))
  | _, _, _, _ => none

/-- The variables of the main loop of `getRoute`. -/
structure RouteState where
  options : List Node
  newRoute : List Node
  currentNode : Node
  nextNode : Node
  nextNodeId : Nat
deriving DecidableEq

/-- One pass of the main loop of `getRoute` with the draw `r`. -/
def getRouteStep (pow : F64 → F64 → F64) (self : AntColonyOptimization) (r : ℚ)
    (s : RouteState) : Option RouteState :=
  match gradesLoop pow self s.currentNode s.options [] (.fin 0) with
  | none => none
  | some (grades, totalGrade) =>
    match selectLoop (.fin r) totalGrade grades s.options 0 (.fin 0) with
    | some (nextNode, nextNodeId) =>
      if nextNodeId + 1 ≤ s.options.length then
        some { options := s.options.take nextNodeId ++ s.options.drop (nextNodeId + 1)
               newRoute := s.newRoute ++ [nextNode]
               currentNode := nextNode
               nextNode := nextNode
               nextNodeId := nextNodeId }
      else none
    | none =>
      if s.nextNodeId + 1 ≤ s.options.length then
        some { options := s.options.take s.nextNodeId ++ s.options.drop (s.nextNodeId + 1)
               newRoute := s.newRoute ++ [s.nextNode]
               currentNode := s.nextNode
               nextNode := s.nextNode
               nextNodeId := s.nextNodeId }
      else none

/-- The main loop of `getRoute`: `n` passes, reading the draws from position `k`. -/
def getRouteLoop (pow : F64 → F64 → F64) (self : AntColonyOptimization) (rnd : Nat → ℚ) :
    Nat → Nat → RouteState → Option RouteState
  | 0, _, s => some s
  | n + 1, k, s =>
    match getRouteStep pow self (rnd k) s with
    | none => none
    | some s1 => getRouteLoop pow self rnd n (k + 1) s1

/-- Create a new solution from scratch. -/
def getRoute (pow : F64 → F64 → F64) (self : AntColonyOptimization) (rnd : Nat → ℚ) (k : Nat)
    (nodes : Route) (depot : Node) : Option Route :=
  match getRouteLoop pow self rnd nodes.length k
      { options := nodes, newRoute := [], currentNode := depot,
        nextNode := { id := 0, x := 0, y := 0 }, nextNodeId := 0 } with
  | none => none
  | some s => some s.newRoute

/-! ## aco.go: pheromone update, evaporation, Solve -/

/-- The loop of `updatePheromone` over the consecutive pairs of the route. -/
def updateLoop (Q : F64) (dists : List (List Int)) :
    Route → List (List F64) → Option (List (List F64))
  | n :: m :: rest, pheromone =>
    match at2 dists n.id m.id with
    | none => none
    | some d =>
      match addAt pheromone n.id m.id (fdiv Q (ofInt d)) with
      | none => none
      | some pheromone1 => updateLoop Q dists (m :: rest) pheromone1
  | _, pheromone => some pheromone

/-- Updates the pheromone on the new best path found; the depot is addressed by
the constant index 0. -/
def updatePheromone (self : AntColonyOptimization) (bestRoute : Route) :
    Option AntColonyOptimization :=
  match updateLoop self.Q self.dists bestRoute self.pheromone with
  | none => none
  | some p1 =>
    match bestRoute.head?, bestRoute.getLast? with
    | some first, some last =>
      match at2 self.dists 0 first.id with
      | none => none
      | some d0 =>
        match addAt p1 0 first.id (fdiv self.Q (ofInt d0)) with
        | none => none
        | some p2 =>
          match at2 self.dists last.id 0 with
          | none => none
          | some d1 =>
            match addAt p2 last.id 0 (fdiv self.Q (ofInt d1)) with
            | none => none
            | some p3 => some { self with pheromone := p3 }
    | _, _ => none

/-- The inner loop of `evaporatePheromone` over the columns of row `i`. -/
def evaporateRow (ro : F64) (i : Nat) : List Nat → List (List F64) → Option (List (List F64))
  | [], pheromone => some pheromone
  | j :: js, pheromone =>
    match modifyAt pheromone i j (fun x => fmul x ro) with
    | none => none
    | some pheromone1 => evaporateRow ro i js pheromone1

/-- The outer loop of `evaporatePheromone` over the rows. -/
def evaporateRows (ro : F64) (size : Nat) : List Nat → List (List F64) → Option (List (List F64))
  | [], pheromone => some pheromone
  | i :: is, pheromone =>
    match evaporateRow ro i (List.range size) pheromone with
    | none => none
    | some pheromone1 => evaporateRows ro size is pheromone1

/-- Evaporate the pheromone. -/
def evaporatePheromone (self : AntColonyOptimization) : Option AntColonyOptimization :=
  match evaporateRows self.ro self.dists.length (List.range self.dists.length)
      self.pheromone with
  | none => none
  | some p => some { self with pheromone := p }

/-- The iterations of `Solve`: `n` of them are left, the draws are read from
position `k`, `ccost` and `csol` are the current best. -/
def solveLoop (pow : F64 → F64 → F64) (rnd : Nat → ℚ) (nodes : Route) (depot : Node) :
    Nat → Nat → AntColonyOptimization → Int → Solution →
    Option (AntColonyOptimization × Solution)
  | 0, _, self, _, csol => some (self, csol)
  | n + 1, k, self, ccost, csol =>
    match getRoute pow self rnd k nodes depot with
    | none => none
    | some newRoute =>
      match getCost newRoute depot self.dists with
      | none => none
      | some newCost =>
        if newCost < ccost then
          match updatePheromone self newRoute with
          | none => none
          | some self1 =>
            match evaporatePheromone self1 with
            | none => none
            | some self2 =>
              solveLoop pow rnd nodes depot n (k + nodes.length)
                { self2 with
                  history := self2.history ++ [{ Route := newRoute, Cost := newCost }] }
                newCost { Route := newRoute, Cost := newCost }
        else solveLoop pow rnd nodes depot n (k + nodes.length) self ccost csol

/-- The method `Solve`; `shuffle` is the effect of `rand.Shuffle` on
`problem.nodes[1:]`. -/
def Solve (pow : F64 → F64 → F64) (self : AntColonyOptimization) (problem : TSP)
    (shuffle : Route → Route) (rnd : Nat → ℚ) : Option (AntColonyOptimization × Solution) :=
  match problem.nodes with
  | [] => none
  | depot :: rest =>
    match getCost (shuffle rest) depot self.dists with
    | none => none
    | some ccost =>
      match solveLoop pow rnd (shuffle rest) depot self.era.toNat 0
          { self with history := self.history ++ [{ Route := shuffle rest, Cost := ccost }] }
          ccost { Route := shuffle rest, Cost := ccost } with
      | none => none
      | some (self1, csol) => some ({ self1 with best := csol }, csol)

/-- Expose the best solution of the algorithm. -/
def Best (self : AntColonyOptimization) : Solution := self.best

/-- Expose the history of the algorithm. -/
def History (self : AntColonyOptimization) : List Solution := self.history

/-- One iteration of the loop of `Solve` (the body of `solveLoop`): the engine, the
best cost and the best solution after it, and the candidate that was built. -/
def solveStep (pow : F64 → F64 → F64) (rnd : Nat → ℚ) (nodes : Route) (depot : Node) (k : Nat)
    (self : AntColonyOptimization) (ccost : Int) (csol : Solution) :
    Option (AntColonyOptimization × Int × Solution × Solution) :=
  match getRoute pow self rnd k nodes depot with
  | none => none
  | some newRoute =>
    match getCost newRoute depot self.dists with
    | none => none
    | some newCost =>
      if newCost < ccost then
        match updatePheromone self newRoute with
        | none => none
        | some self1 =>
          match evaporatePheromone self1 with
          | none => none
          | some self2 =>
            some ({ self2 with
                    history := self2.history ++ [{ Route := newRoute, Cost := newCost }] },
              newCost, { Route := newRoute, Cost := newCost },
              { Route := newRoute, Cost := newCost })
      else some (self, ccost, csol, { Route := newRoute, Cost := newCost })

/-- The iterations of `Solve` seen from outside: for each of the `n` iterations, the
best cost before it and the candidate it built. -/
def solveTrace (pow : F64 → F64 → F64) (rnd : Nat → ℚ) (nodes : Route) (depot : Node) :
    Nat → Nat → AntColonyOptimization → Int → Solution → Option (List (Int × Solution))
  | 0, _, _, _, _ => some []
  | n + 1, k, self, ccost, csol =>
    match solveStep pow rnd nodes depot k self ccost csol with
    | none => none
    | some (self1, ccost1, csol1, cand) =>
      match solveTrace pow rnd nodes depot n (k + nodes.length) self1 ccost1 csol1 with
      | none => none
      | some t => some ((ccost, cand) :: t)

/-- The trace of the iterations of one call of `Solve`. -/
def SolveTrace (pow : F64 → F64 → F64) (self : AntColonyOptimization) (problem : TSP)
    (shuffle : Route → Route) (rnd : Nat → ℚ) : Option (List (Int × Solution)) :=
  match problem.nodes with
  | [] => none
  | depot :: rest =>
    match getCost (shuffle rest) depot self.dists with
    | none => none
    | some ccost =>
      solveTrace pow rnd (shuffle rest) depot self.era.toNat 0
        { self with history := self.history ++ [{ Route := shuffle rest, Cost := ccost }] }
        ccost { Route := shuffle rest, Cost := ccost }

/-! ## tsp/aco.go

The second copy of the engine.  Its `getCost`, `getRoute`, `updatePheromone` and
`evaporatePheromone` are the same text as in `AntColonyOptimization/aco/aco.go`; it has
no `Warmup`, no `Reset` and no `wuPheromone` (the field is carried along untouched),
and its `Solve` resets the pheromone first and appends to the history at every
iteration. -/

namespace Tsp

/-- The reset at the start of `Solve`: a new `size x size` matrix of zeros, row `i`
overwritten by `copy` from `initialPheromon[i]`. -/
def freshRows (size : Nat) (src : List (List F64)) : List Nat → Option (List (List F64))
  | [] => some []
  | i :: is =>
    match src[i]? with
    | none => none
    | some s =>
      match freshRows size src is with
      | none => none
      | some rows => some (copySlice (List.replicate size (.fin 0)) s :: rows)

/-- One iteration of the loop of `Solve`: the history gets the current best whether
the candidate improved or not. -/
def solveStep (pow : F64 → F64 → F64) (rnd : Nat → ℚ) (nodes : Route) (depot : Node) (k : Nat)
    (self : AntColonyOptimization) (ccost : Int) (csol : Solution) :
    Option (AntColonyOptimization × Int × Solution × Solution) :=
  match getRoute pow self rnd k nodes depot with
  | none => none
  | some newRoute =>
    match getCost newRoute depot self.dists with
    | none => none
    | some newCost =>
      if newCost < ccost then
        match updatePheromone self newRoute with
        | none => none
        | some self1 =>
          match evaporatePheromone self1 with
          | none => none
          | some self2 =>
            some ({ self2 with
                    history := self2.history ++ [{ Route := newRoute, Cost := newCost }] },
              newCost, { Route := newRoute, Cost := newCost },
              { Route := newRoute, Cost := newCost })
      else
        some ({ self with history := self.history ++ [csol] }, ccost, csol,
          { Route := newRoute, Cost := newCost })

/-- The iterations of `Solve`. -/
def solveLoop (pow : F64 → F64 → F64) (rnd : Nat → ℚ) (nodes : Route) (depot : Node) :
    Nat → Nat → AntColonyOptimization → Int → Solution →
    Option (AntColonyOptimization × Solution)
  | 0, _, self, _, csol => some (self, csol)
  | n + 1, k, self, ccost, csol =>
    match getRoute pow self rnd k nodes depot with
    | none => none
    | some newRoute =>
      match getCost newRoute depot self.dists with
      | none => none
      | some newCost =>
        if newCost < ccost then
          match updatePheromone self newRoute with
          | none => none
          | some self1 =>
            match evaporatePheromone self1 with
            | none => none
            | some self2 =>
              solveLoop pow rnd nodes depot n (k + nodes.length)
                { self2 with
                  history := self2.history ++ [{ Route := newRoute, Cost := newCost }] }
                newCost { Route := newRoute, Cost := newCost }
        else
          solveLoop pow rnd nodes depot n (k + nodes.length)
            { self with history := self.history ++ [csol] } ccost csol

/-- The iterations seen from outside: the best cost before each iteration and the
candidate it built. -/
def solveTrace (pow : F64 → F64 → F64) (rnd : Nat → ℚ) (nodes : Route) (depot : Node) :
    Nat → Nat → AntColonyOptimization → Int → Solution → Option (List (Int × Solution))
  | 0, _, _, _, _ => some []
  | n + 1, k, self, ccost, csol =>
    match solveStep pow rnd nodes depot k self ccost csol with
    | none => none
    | some (self1, ccost1, csol1, cand) =>
      match solveTrace pow rnd nodes depot n (k + nodes.length) self1 ccost1 csol1 with
      | none => none
      | some t => some ((ccost, cand) :: t)

/-- The method `Solve` of `tsp/aco.go`. -/
def Solve (pow : F64 → F64 → F64) (self : AntColonyOptimization) (problem : TSP)
    (shuffle : Route → Route) (rnd : Nat → ℚ) : Option (AntColonyOptimization × Solution) :=
  match freshRows self.dists.length self.initialPheromon (List.range self.dists.length) with
  | none => none
  | some pheromone =>
    match problem.nodes with
    | [] => none
    | depot :: rest =>
      match getCost (shuffle rest) depot self.dists with
      | none => none
      | some ccost =>
        match solveLoop pow rnd (shuffle rest) depot self.era.toNat 0
            { self with
              pheromone := pheromone
              history := self.history ++ [{ Route := shuffle rest, Cost := ccost }] }
            ccost { Route := shuffle rest, Cost := ccost } with
        | none => none
        | some (self1, csol) => some ({ self1 with best := csol }, csol)

/-- The trace of the iterations of one call of `Solve`. -/
def SolveTrace (pow : F64 → F64 → F64) (self : AntColonyOptimization) (problem : TSP)
    (shuffle : Route → Route) (rnd : Nat → ℚ) : Option (List (Int × Solution)) :=
  match freshRows self.dists.length self.initialPheromon (List.range self.dists.length) with
  | none => none
  | some pheromone =>
    match problem.nodes with
    | [] => none
    | depot :: rest =>
      match getCost (shuffle rest) depot self.dists with
      | none => none
      | some ccost =>
        solveTrace pow rnd (shuffle rest) depot self.era.toNat 0
          { self with
            pheromone := pheromone
            history := self.history ++ [{ Route := shuffle rest, Cost := ccost }] }
          ccost { Route := shuffle rest, Cost := ccost }

end Tsp

/-! ## Sequences of calls on an engine -/

/-- A call of one of the state-changing methods of the engine, with its arguments
and the randomness it will see. -/
inductive Call where
  | warmup (maxiter : Int)
  | solve (problem : TSP) (shuffle : Route → Route) (rnd : Nat → ℚ)
  | reset (complete : Bool)

/-- The engine after one call. -/
def runCall (pow : F64 → F64 → F64) (self : AntColonyOptimization) :
    Call → Option AntColonyOptimization
  | .warmup maxiter => Warmup pow self maxiter
  | .solve problem shuffle rnd =>
    match Solve pow self problem shuffle rnd with
    | none => none
    | some (self1, _) => some self1
  | .reset complete => Reset self complete

/-- The engine after a sequence of calls. -/
def runCalls (pow : F64 → F64 → F64) :
    AntColonyOptimization → List Call → Option AntColonyOptimization
  | self, [] => some self
  | self, c :: cs =>
    match runCall pow self c with
    | none => none
    | some self1 => runCalls pow self1 cs

/-! ## Notions used in the statements -/

/-- The row lengths of a matrix. -/
def shape {α : Type} (M : List (List α)) : List Nat := M.map List.length

/-- What no method of the engine changes once it is built: the distances, the
parameters, the initial snapshot and the shapes of the two other matrices. -/
structure Frame (e e1 : AntColonyOptimization) : Prop where
  era : e1.era = e.era
  dists : e1.dists = e.dists
  ro : e1.ro = e.ro
  Q : e1.Q = e.Q
  a : e1.a = e.a
  b : e1.b = e.b
  initialPheromon : e1.initialPheromon = e.initialPheromon
  shapePheromone : shape e1.pheromone = shape e.pheromone
  shapeWu : shape e1.wuPheromone = shape e.wuPheromone

/-- A call other than `Warmup`. -/
def Call.notWarmup : Call → Bool
  | .warmup _ => false
  | _ => true

/-- The entries of a distance matrix as a function, 0 outside the matrix. -/
def distOf (dists : List (List Int)) (i j : Nat) : Int := (at2 dists i j).getD 0

/-- Three points: the depot (0,0), then (3,4) and (3,0); the distances are 5, 3 and 4. -/
def exTriangle : TSP :=
  { space := 10
    nodes := [{ id := 0, x := 0, y := 0 }, { id := 1, x := 3, y := 4 },
      { id := 2, x := 3, y := 0 }] }

/-- Four points on a unit square, the depot first. -/
def exSquare : TSP :=
  { space := 2
    nodes := [{ id := 0, x := 0, y := 0 }, { id := 1, x := 1, y := 0 },
      { id := 2, x := 1, y := 1 }, { id := 3, x := 0, y := 1 }] }

/-- An engine with the parameters of `main.go` (ro 0.9, Q 100, a 1, b 2, initial
pheromone 0.1) on a given number of iterations and distance matrix. -/
def exEngine (era : Int) (dists : List (List Int)) : AntColonyOptimization :=
  NewACO era dists (.fin (9 / 10)) (.fin 100) (.fin 1) (.fin 2) (.fin (1 / 10))

/-- The cumulative normalized grade after candidate `j`:
`g_0/total + ... + g_j/total`, added term by term from 0. -/
def cumulative (totalGrade : F64) (grades : List F64) (j : Nat) : F64 :=
  ((grades.take (j + 1)).map (fun g => fdiv g totalGrade)).foldl fadd (.fin 0)

/-- An engine on `N` nodes whose off-diagonal live pheromone entries and distances
are finite and strictly positive, with a `pow` that sends a positive base to a
positive finite value at the exponents `a` and `b` of the engine. -/
def PositiveEngine (pow : F64 → F64 → F64) (e : AntColonyOptimization) (N : Nat) : Prop :=
  (∀ i j, i < N → j < N → i ≠ j → ∃ p : ℚ, 0 < p ∧ at2 e.pheromone i j = some (.fin p)) ∧
  (∀ i j, i < N → j < N → i ≠ j → ∃ d : Int, 0 < d ∧ at2 e.dists i j = some d) ∧
  (∀ x : ℚ, 0 < x → ∃ y : ℚ, 0 < y ∧ pow (.fin x) e.a = .fin y) ∧
  (∀ x : ℚ, 0 < x → ∃ y : ℚ, 0 < y ∧ pow (.fin x) e.b = .fin y)

/-- A matrix with an entry at every position of the `N x N` square. -/
def Full {α : Type} (N : Nat) (M : List (List α)) : Prop :=
  ∀ i j, i < N → j < N → (at2 M i j).isSome = true

/-- The grade `g(i,j) = P(i,j)^a * (1 / D(i,j)^b)` of the warmup, on exact values;
`pa` and `pb` are the powers at the exponents `a` and `b`. -/
def warmupGrade (pa pb : ℚ → ℚ) (P : Nat → Nat → ℚ) (D : Nat → Nat → Int) (i j : Nat) : ℚ :=
  pa (P i j) * (1 / pb (D i j))

/-- The row total `total_i`: the sum of `g(i,k)` over the `k < N` other than `i`. -/
def warmupTotal (pa pb : ℚ → ℚ) (P : Nat → Nat → ℚ) (D : Nat → Nat → Int) (N i : Nat) : ℚ :=
  (((List.range N).filter (fun k => i ≠ k)).map (fun k => warmupGrade pa pb P D i k)).sum

/-- The entry `P(i,j) + (g(i,j) / total_i) * Q / D(i,j)` after one warmup round. -/
def warmupEntry (pa pb : ℚ → ℚ) (P : Nat → Nat → ℚ) (D : Nat → Nat → Int) (q : ℚ)
    (N i j : Nat) : ℚ :=
  P i j + warmupGrade pa pb P D i j / warmupTotal pa pb P D N i * q / D i j

/-- A call other than `Solve`. -/
def Call.notSolve : Call → Bool
  | .solve _ _ _ => false
  | _ => true

/-- The directed edges `(from, to)` of the closed tour
`0 -> route[0] -> ... -> route[last] -> 0`, the depot being node 0. -/
def tourEdges (route : Route) : List (Nat × Nat) :=
  List.zip (0 :: route.map Node.id) (route.map Node.id ++ [0])

/-- The deposit `pheromone[a][b] += Q / float64(dists[a][b])` made for each edge
`(a, b)` of a list, in order. -/
def depositAll (Q : F64) (dists : List (List Int)) :
    List (Nat × Nat) → List (List F64) → Option (List (List F64))
  | [], pheromone => some pheromone
  | (a, b) :: es, pheromone =>
    match at2 dists a b with
    | none => none
    | some d =>
      match addAt pheromone a b (fdiv Q (ofInt d)) with
      | none => none
      | some pheromone1 => depositAll Q dists es pheromone1

/-- The triangle engine of `exEngine` with the pheromone exponent `a = 400`. -/
def exUnderflowEngine : AntColonyOptimization :=
  NewACO 1 exTriangle.DistanceMatrix (.fin (9 / 10)) (.fin 100) (.fin 400) (.fin 2)
    (.fin (1 / 10))

/-- The triangle engine built with initial pheromone 0: every grade is 0. -/
def exZeroEngine : AntColonyOptimization :=
  NewACO 1 exTriangle.DistanceMatrix (.fin (9 / 10)) (.fin 100) (.fin 1) (.fin 2) (.fin 0)

/-- The triangle engine with the pheromone of row 2 set to 0: no candidate can be
selected from node 2. -/
def exStaleEngine : AntColonyOptimization :=
  { exEngine 1 exTriangle.DistanceMatrix with
    pheromone := [[.fin (1 / 10), .fin (1 / 10), .fin (1 / 10)],
      [.fin (1 / 10), .fin (1 / 10), .fin (1 / 10)], [.fin 0, .fin 0, .fin 0]] }

/-- The variables of `getRoute` before its first pass: nothing chosen yet, `nextNode`
the zero-valued node and `nextNodeId` 0. -/
def initialRouteState (nodes : Route) (depot : Node) : RouteState :=
  { options := nodes, newRoute := [], currentNode := depot,
    nextNode := { id := 0, x := 0, y := 0 }, nextNodeId := 0 }

/-- The length of the closed tour `depot -> route[0] -> ... -> route[last] -> depot`
(the sum of its `len(route) + 1` directed edges), read off the matrix `dist`. -/
def tourLength (dist : Nat → Nat → Int) (depot : Node) : Route → Int
  | [] => 0
  | n :: rest =>
    dist depot.id n.id +
      ((List.zipWith (fun u v => dist u.id v.id) (n :: rest) rest).sum +
        dist ((n :: rest).getLast (List.cons_ne_nil n rest)).id depot.id)

end ACO

/-! # Theorems -/

namespace ACO

/-! ## Shapes of matrices -/

theorem shape_set {α : Type} (M : List (List α)) (i : Nat) (row row1 : List α)
    (hrow : M[i]? = some row) (hlen : row1.length = row.length) :
    shape (M.set i row1) = shape M := by
  unfold shape
  apply List.ext_getElem?
  intro k
  by_cases hk : i = k
  · subst hk
    obtain ⟨hi, hget⟩ := List.getElem?_eq_some.mp hrow
    simp [List.getElem?_map, List.getElem?_set, hi, hget, hlen]
  · simp [List.getElem?_map, List.getElem?_set, hk]

theorem modifyAt_shape {α : Type} (M M1 : List (List α)) (i j : Nat) (f : α → α)
    (h : modifyAt M i j f = some M1) : shape M1 = shape M := by
  unfold modifyAt at h
  cases hrow : M[i]? with
  | none => simp [hrow] at h
  | some row =>
    cases hv : row[j]? with
    | none => simp [hrow, hv] at h
    | some v =>
      simp [hrow, hv] at h
      subst h
      exact shape_set M i row _ hrow (by simp)

theorem addAt_shape (M M1 : List (List F64)) (i j : Nat) (v : F64)
    (h : addAt M i j v = some M1) : shape M1 = shape M :=
  modifyAt_shape M M1 i j _ h

theorem copySlice_length {α : Type} (dst src : List α) :
    (copySlice dst src).length = dst.length := by
  simp [copySlice]; omega

theorem copySlice_eq {α : Type} (dst src : List α) (h : dst.length = src.length) :
    copySlice dst src = src := by
  simp [copySlice, h]

end ACO

namespace ACO

theorem Frame.rfl1 (e : AntColonyOptimization) : Frame e e :=
  ⟨rfl, rfl, rfl, rfl, rfl, rfl, rfl, rfl, rfl⟩

theorem Frame.trans {e e1 e2 : AntColonyOptimization} (h1 : Frame e e1) (h2 : Frame e1 e2) :
    Frame e e2 :=
  ⟨h2.era.trans h1.era, h2.dists.trans h1.dists, h2.ro.trans h1.ro, h2.Q.trans h1.Q,
    h2.a.trans h1.a, h2.b.trans h1.b, h2.initialPheromon.trans h1.initialPheromon,
    h2.shapePheromone.trans h1.shapePheromone, h2.shapeWu.trans h1.shapeWu⟩

/-! ## Warmup keeps the frame -/

theorem warmupUpdate_shape (Q : F64) (dists : List (List Int)) (grades : List F64)
    (totalGrade : F64) (i : Nat) :
    ∀ (js : List Nat) (ph wu ph1 wu1 : List (List F64)),
      warmupUpdate Q dists grades totalGrade i js ph wu = some (ph1, wu1) →
      shape ph1 = shape ph ∧ shape wu1 = shape wu := by
  intro js
  induction js with
  | nil =>
    intro ph wu ph1 wu1 h
    simp [warmupUpdate] at h
    obtain ⟨h1, h2⟩ := h
    subst h1; subst h2
    exact ⟨rfl, rfl⟩
  | cons j js ih =>
    intro ph wu ph1 wu1 h
    simp only [warmupUpdate] at h
    split at h
    · rename_i g d hg hd
      split at h
      · cases h
      · rename_i p1 hp1
        split at h
        · cases h
        · rename_i w1 hw1
          obtain ⟨h1, h2⟩ := ih p1 w1 ph1 wu1 h
          exact ⟨h1.trans (addAt_shape _ _ _ _ _ hp1), h2.trans (addAt_shape _ _ _ _ _ hw1)⟩
    · cases h

theorem warmupRows_frame (pow : F64 → F64 → F64) (size : Nat) :
    ∀ (is : List Nat) (e e1 : AntColonyOptimization),
      warmupRows pow size is e = some e1 → Frame e e1 ∧ e1.best = e.best ∧ e1.history = e.history := by
  intro is
  induction is with
  | nil =>
    intro e e1 h
    simp [warmupRows] at h
    subst h
    exact ⟨Frame.rfl1 e, rfl, rfl⟩
  | cons i is ih =>
    intro e e1 h
    simp only [warmupRows] at h
    split at h
    · cases h
    · rename_i grades totalGrade hg
      split at h
      · cases h
      · rename_i p1 w1 hu
        obtain ⟨hs1, hs2⟩ := warmupUpdate_shape _ _ _ _ _ _ _ _ _ _ hu
        have hf0 : Frame e { e with pheromone := p1, wuPheromone := w1 } :=
          ⟨rfl, rfl, rfl, rfl, rfl, rfl, rfl, hs1, hs2⟩
        obtain ⟨hf, hb, hh⟩ := ih _ e1 h
        exact ⟨Frame.trans hf0 hf, hb, hh⟩

theorem warmupIters_frame (pow : F64 → F64 → F64) :
    ∀ (n : Nat) (e e1 : AntColonyOptimization),
      warmupIters pow n e = some e1 → Frame e e1 ∧ e1.best = e.best ∧ e1.history = e.history := by
  intro n
  induction n with
  | zero =>
    intro e e1 h
    simp [warmupIters] at h
    subst h
    exact ⟨Frame.rfl1 e, rfl, rfl⟩
  | succ n ih =>
    intro e e1 h
    simp only [warmupIters] at h
    split at h
    · cases h
    · rename_i e2 h2
      obtain ⟨hf, hb, hh⟩ := warmupRows_frame pow _ _ _ _ h2
      obtain ⟨hf1, hb1, hh1⟩ := ih e2 e1 h
      exact ⟨Frame.trans hf hf1, hb1.trans hb, hh1.trans hh⟩

theorem Warmup_frame (pow : F64 → F64 → F64) (e e1 : AntColonyOptimization) (maxiter : Int)
    (h : Warmup pow e maxiter = some e1) : Frame e e1 :=
  (warmupIters_frame pow _ e e1 h).1

/-! ## Reset -/

theorem copyRows_shape (src : List (List F64)) :
    ∀ (is : List Nat) (dst r : List (List F64)),
      copyRows src is dst = some r → shape r = shape dst := by
  intro is
  induction is with
  | nil =>
    intro dst r h
    simp [copyRows] at h
    subst h; rfl
  | cons i is ih =>
    intro dst r h
    simp only [copyRows] at h
    split at h
    · rename_i d s hd hs
      exact (ih _ r h).trans (shape_set dst i d _ hd (copySlice_length d s))
    · cases h

theorem Reset_fields (e e1 : AntColonyOptimization) (complete : Bool)
    (h : Reset e complete = some e1) :
    Frame e e1 ∧ e1.wuPheromone = e.wuPheromone ∧ e1.best = e.best ∧
      e1.history = e.history := by
  unfold Reset at h
  cases complete with
  | true =>
    simp only [if_true] at h
    split at h
    · cases h
    · rename_i p hp
      cases h
      exact ⟨⟨rfl, rfl, rfl, rfl, rfl, rfl, rfl, copyRows_shape _ _ _ _ hp, rfl⟩, rfl, rfl, rfl⟩
  | false =>
    simp only [Bool.false_eq_true, if_false, if_true] at h
    split at h
    · cases h
    · rename_i p hp
      cases h
      exact ⟨⟨rfl, rfl, rfl, rfl, rfl, rfl, rfl, copyRows_shape _ _ _ _ hp, rfl⟩, rfl, rfl, rfl⟩

end ACO

namespace ACO

/-! ## Solve keeps the frame and the post-warmup snapshot -/

theorem updateLoop_shape (Q : F64) (dists : List (List Int)) :
    ∀ (route : Route) (ph ph1 : List (List F64)),
      updateLoop Q dists route ph = some ph1 → shape ph1 = shape ph := by
  intro route
  induction route with
  | nil =>
    intro ph ph1 h
    simp [updateLoop] at h
    subst h; rfl
  | cons n rest ih =>
    intro ph ph1 h
    cases rest with
    | nil =>
      simp [updateLoop] at h
      subst h; rfl
    | cons m rest =>
      simp only [updateLoop] at h
      split at h
      · cases h
      · split at h
        · cases h
        · rename_i p1 hp1
          exact (ih p1 ph1 h).trans (addAt_shape _ _ _ _ _ hp1)

theorem updatePheromone_frame (e e1 : AntColonyOptimization) (route : Route)
    (h : updatePheromone e route = some e1) :
    Frame e e1 ∧ e1.wuPheromone = e.wuPheromone ∧ e1.best = e.best ∧
      e1.history = e.history := by
  unfold updatePheromone at h
  split at h
  · cases h
  · rename_i p1 hp1
    split at h
    · split at h
      · cases h
      · split at h
        · cases h
        · rename_i p2 hp2
          split at h
          · cases h
          · split at h
            · cases h
            · rename_i p3 hp3
              cases h
              refine ⟨⟨rfl, rfl, rfl, rfl, rfl, rfl, rfl, ?_, rfl⟩, rfl, rfl, rfl⟩
              exact ((addAt_shape _ _ _ _ _ hp3).trans (addAt_shape _ _ _ _ _ hp2)).trans
                (updateLoop_shape _ _ _ _ _ hp1)
    · cases h

theorem evaporateRow_shape (ro : F64) (i : Nat) :
    ∀ (js : List Nat) (ph ph1 : List (List F64)),
      evaporateRow ro i js ph = some ph1 → shape ph1 = shape ph := by
  intro js
  induction js with
  | nil =>
    intro ph ph1 h
    simp [evaporateRow] at h
    subst h; rfl
  | cons j js ih =>
    intro ph ph1 h
    simp only [evaporateRow] at h
    split at h
    · cases h
    · rename_i p1 hp1
      exact (ih p1 ph1 h).trans (modifyAt_shape _ _ _ _ _ hp1)

theorem evaporateRows_shape (ro : F64) (size : Nat) :
    ∀ (is : List Nat) (ph ph1 : List (List F64)),
      evaporateRows ro size is ph = some ph1 → shape ph1 = shape ph := by
  intro is
  induction is with
  | nil =>
    intro ph ph1 h
    simp [evaporateRows] at h
    subst h; rfl
  | cons i is ih =>
    intro ph ph1 h
    simp only [evaporateRows] at h
    split at h
    · cases h
    · rename_i p1 hp1
      exact (ih p1 ph1 h).trans (evaporateRow_shape _ _ _ _ _ hp1)

theorem evaporatePheromone_frame (e e1 : AntColonyOptimization)
    (h : evaporatePheromone e = some e1) :
    Frame e e1 ∧ e1.wuPheromone = e.wuPheromone ∧ e1.best = e.best ∧
      e1.history = e.history := by
  unfold evaporatePheromone at h
  split at h
  · cases h
  · rename_i p hp
    cases h
    exact ⟨⟨rfl, rfl, rfl, rfl, rfl, rfl, rfl, evaporateRows_shape _ _ _ _ _ hp, rfl⟩,
      rfl, rfl, rfl⟩

theorem Frame.withHistory (e : AntColonyOptimization) (h : List Solution) :
    Frame e { e with history := h } :=
  ⟨rfl, rfl, rfl, rfl, rfl, rfl, rfl, rfl, rfl⟩

theorem solveLoop_frame (pow : F64 → F64 → F64) (rnd : Nat → ℚ) (nodes : Route) (depot : Node) :
    ∀ (n k : Nat) (e : AntColonyOptimization) (ccost : Int) (csol : Solution)
      (e1 : AntColonyOptimization) (sol : Solution),
      solveLoop pow rnd nodes depot n k e ccost csol = some (e1, sol) →
      Frame e e1 ∧ e1.wuPheromone = e.wuPheromone := by
  intro n
  induction n with
  | zero =>
    intro k e ccost csol e1 sol h
    simp [solveLoop] at h
    obtain ⟨h1, _⟩ := h
    subst h1
    exact ⟨Frame.rfl1 e, rfl⟩
  | succ n ih =>
    intro k e ccost csol e1 sol h
    simp only [solveLoop] at h
    split at h
    · cases h
    · split at h
      · cases h
      · split at h
        · split at h
          · cases h
          · rename_i s1 hs1
            split at h
            · cases h
            · rename_i s2 hs2
              obtain ⟨hf1, hw1, _, _⟩ := updatePheromone_frame _ _ _ hs1
              obtain ⟨hf2, hw2, _, _⟩ := evaporatePheromone_frame _ _ hs2
              obtain ⟨hf3, hw3⟩ := ih _ _ _ _ _ _ h
              exact ⟨(hf1.trans hf2).trans ((Frame.withHistory s2 _).trans hf3),
                (hw3.trans hw2).trans hw1⟩
        · exact ih _ _ _ _ _ _ h

theorem Solve_frame (pow : F64 → F64 → F64) (e e1 : AntColonyOptimization) (problem : TSP)
    (shuffle : Route → Route) (rnd : Nat → ℚ) (sol : Solution)
    (h : Solve pow e problem shuffle rnd = some (e1, sol)) :
    Frame e e1 ∧ e1.wuPheromone = e.wuPheromone := by
  unfold Solve at h
  split at h
  · cases h
  · split at h
    · cases h
    · split at h
      · cases h
      · rename_i s1 csol hs
        cases h
        obtain ⟨hf, hw⟩ := solveLoop_frame _ _ _ _ _ _ _ _ _ _ _ hs
        exact ⟨⟨hf.era, hf.dists, hf.ro, hf.Q, hf.a, hf.b, hf.initialPheromon,
          hf.shapePheromone, hf.shapeWu⟩, hw⟩

theorem runCall_frame (pow : F64 → F64 → F64) (e e1 : AntColonyOptimization) (c : Call)
    (h : runCall pow e c = some e1) :
    Frame e e1 ∧ (c.notWarmup = true → e1.wuPheromone = e.wuPheromone) := by
  cases c with
  | warmup maxiter =>
    exact ⟨Warmup_frame pow e e1 maxiter h, by intro hc; cases hc⟩
  | solve problem shuffle rnd =>
    simp only [runCall] at h
    split at h
    · cases h
    · rename_i s1 sol hs
      cases h
      obtain ⟨hf, hw⟩ := Solve_frame _ _ _ _ _ _ _ hs
      exact ⟨hf, fun _ => hw⟩
  | reset complete =>
    obtain ⟨hf, hw, _, _⟩ := Reset_fields e e1 complete h
    exact ⟨hf, fun _ => hw⟩

theorem runCalls_frame (pow : F64 → F64 → F64) :
    ∀ (cs : List Call) (e e1 : AntColonyOptimization),
      runCalls pow e cs = some e1 →
      Frame e e1 ∧ ((∀ c ∈ cs, c.notWarmup = true) → e1.wuPheromone = e.wuPheromone) := by
  intro cs
  induction cs with
  | nil =>
    intro e e1 h
    simp [runCalls] at h
    subst h
    exact ⟨Frame.rfl1 e, fun _ => rfl⟩
  | cons c cs ih =>
    intro e e1 h
    simp only [runCalls] at h
    split at h
    · cases h
    · rename_i e2 h2
      obtain ⟨hf, hw⟩ := runCall_frame pow e e2 c h2
      obtain ⟨hf1, hw1⟩ := ih e2 e1 h
      refine ⟨hf.trans hf1, fun hall => ?_⟩
      rw [hw1 (fun c1 hc1 => hall c1 (List.mem_cons_of_mem _ hc1)),
        hw (hall c (List.mem_cons_self _ _))]

/-! ## Reset copies a whole snapshot -/

theorem copyRows_spec (src : List (List F64)) :
    ∀ (is : List Nat) (dst : List (List F64)), shape dst = shape src →
      (∀ i ∈ is, i < src.length) →
      ∃ r, copyRows src is dst = some r ∧ shape r = shape src ∧
        (∀ i ∈ is, r[i]? = src[i]?) ∧ (∀ i, i ∉ is → r[i]? = dst[i]?) := by
  intro is
  induction is with
  | nil =>
    intro dst hs _
    exact ⟨dst, rfl, hs, by simp, fun _ _ => rfl⟩
  | cons i is ih =>
    intro dst hs hlt
    have hi : i < src.length := hlt i (List.mem_cons_self _ _)
    have hlen : dst.length = src.length := by
      have := congrArg List.length hs
      simpa [shape] using this
    have hid : i < dst.length := by omega
    have hrow : (dst[i]).length = (src[i]).length := by
      have h1 : (shape dst)[i]? = (shape src)[i]? := by rw [hs]
      simpa [shape, List.getElem?_map, List.getElem?_eq_getElem hi,
        List.getElem?_eq_getElem hid] using h1
    have hstep : dst.set i (copySlice dst[i] src[i]) = dst.set i src[i] := by
      rw [copySlice_eq _ _ hrow]
    have hs1 : shape (dst.set i src[i]) = shape src := by
      rw [shape_set dst i dst[i] src[i] (List.getElem?_eq_getElem hid) hrow.symm]
      exact hs
    obtain ⟨r, hr, hsr, hin, hout⟩ := ih (dst.set i src[i]) hs1
      (fun k hk => hlt k (List.mem_cons_of_mem _ hk))
    refine ⟨r, ?_, hsr, ?_, ?_⟩
    · simp only [copyRows, List.getElem?_eq_getElem hid, List.getElem?_eq_getElem hi]
      rw [hstep]
      exact hr
    · intro k hk
      by_cases hmem : k ∈ is
      · exact hin k hmem
      · have hki : k = i := by
          rcases List.mem_cons.mp hk with h | h
          · exact h
          · exact absurd h hmem
        subst hki
        rw [hout k hmem]
        simp [List.getElem?_set, hid, List.getElem?_eq_getElem hi]
    · intro k hk
      have hne : i ≠ k := fun h => hk (h ▸ List.mem_cons_self _ _)
      have hnm : k ∉ is := fun h => hk (List.mem_cons_of_mem _ h)
      rw [hout k hnm]
      simp [List.getElem?_set, hne]

theorem copyRows_all (src dst : List (List F64)) (h : shape dst = shape src) :
    copyRows src (List.range src.length) dst = some src := by
  obtain ⟨r, hr, hsr, hin, _⟩ := copyRows_spec src (List.range src.length) dst h
    (fun i hi => List.mem_range.mp hi)
  rw [hr]
  congr 1
  apply List.ext_getElem?
  intro k
  by_cases hk : k < src.length
  · exact hin k (List.mem_range.mpr hk)
  · have hlen : r.length = src.length := by
      have := congrArg List.length hsr
      simpa [shape] using this
    rw [List.getElem?_eq_none (by omega), List.getElem?_eq_none (by omega)]

end ACO

namespace ACO

/-! ## Claims on cost, reset and warmup -/

/-- C1 (code defect): `getCost` ranges over `route[1:]`, so the edges
`depot -> route[0]` and `route[0] -> route[1]` are replaced by the single edge
`depot -> route[1]`.  On the triangle (0,0), (3,4), (3,0) the route `[1, 2]` has
closed-tour length 5 + 4 + 3 = 12 while `getCost` returns 3 + 3 = 6. -/
theorem getCost_misses_first_node :
    exTriangle.DistanceMatrix = [[0, 5, 3], [5, 0, 4], [3, 4, 0]] ∧
    getCost [{ id := 1, x := 3, y := 4 }, { id := 2, x := 3, y := 0 }]
      { id := 0, x := 0, y := 0 } exTriangle.DistanceMatrix = some 6 ∧
    tourLength (distOf exTriangle.DistanceMatrix) { id := 0, x := 0, y := 0 }
      [{ id := 1, x := 3, y := 4 }, { id := 2, x := 3, y := 0 }] = 12 := by
  decide!

/-- C2 (code defect, the one of C1): on the unit square with era 50, ro 0.9, Q 100,
a 1, b 2 and initial pheromone 0.1, `Solve` returns cost 3, while every closed tour
through the three non-depot nodes has length 4. -/
theorem Solve_cost_below_optimum :
    (Solve powNat (exEngine 50 exSquare.DistanceMatrix) exSquare id (fun _ => 1 / 2)).map
      (fun r => r.2.Cost) = some 3 ∧
    ∀ p ∈ List.permutations exSquare.nodes.tail,
      tourLength (distOf exSquare.DistanceMatrix) { id := 0, x := 0, y := 0 } p = 4 := by
  decide!

/-- C5: after any sequence of `Warmup`, `Solve` and `Reset` calls that returns on an
engine built by `NewACO`, `Reset(true)` returns and the live pheromone matrix is the
`N x N` matrix with every entry `pherInit`, `N = len(dists)`. -/
theorem Reset_true_restores_initial (pow : F64 → F64 → F64) (era : Int)
    (dists : List (List Int)) (ro Q a b pherInit : F64) (calls : List Call)
    (h : (runCalls pow (NewACO era dists ro Q a b pherInit) calls).isSome = true) :
    ∃ e e1, runCalls pow (NewACO era dists ro Q a b pherInit) calls = some e ∧
      Reset e true = some e1 ∧
      e1.pheromone = List.replicate dists.length (List.replicate dists.length pherInit) := by
  obtain ⟨e, he⟩ := Option.isSome_iff_exists.mp h
  obtain ⟨hf, _⟩ := runCalls_frame pow calls _ e he
  have hd : e.dists = dists := hf.dists
  have hi : e.initialPheromon =
      List.replicate dists.length (List.replicate dists.length pherInit) := hf.initialPheromon
  have hs : shape e.pheromone = shape e.initialPheromon := by
    rw [hi]; exact hf.shapePheromone
  have hlen : e.initialPheromon.length = e.dists.length := by rw [hi, hd]; simp
  have hcopy := copyRows_all e.initialPheromon e.pheromone hs
  rw [hlen] at hcopy
  refine ⟨e, { e with pheromone := e.initialPheromon }, he, ?_, hi⟩
  simp [Reset, hcopy]

/-- C7: when `Warmup` is never called, after any sequence of `Solve` and `Reset`
calls that returns, `Reset(false)` returns and the live pheromone matrix is the
initial one, every entry `pherInit`. -/
theorem Reset_false_without_warmup (pow : F64 → F64 → F64) (era : Int)
    (dists : List (List Int)) (ro Q a b pherInit : F64) (calls : List Call)
    (hnw : ∀ c ∈ calls, c.notWarmup = true)
    (h : (runCalls pow (NewACO era dists ro Q a b pherInit) calls).isSome = true) :
    ∃ e e1, runCalls pow (NewACO era dists ro Q a b pherInit) calls = some e ∧
      Reset e false = some e1 ∧
      e1.pheromone = List.replicate dists.length (List.replicate dists.length pherInit) := by
  obtain ⟨e, he⟩ := Option.isSome_iff_exists.mp h
  obtain ⟨hf, hw⟩ := runCalls_frame pow calls _ e he
  have hd : e.dists = dists := hf.dists
  have hi : e.wuPheromone =
      List.replicate dists.length (List.replicate dists.length pherInit) := hw hnw
  have hs : shape e.pheromone = shape e.wuPheromone := by
    rw [hi]; exact hf.shapePheromone
  have hlen : e.wuPheromone.length = e.dists.length := by rw [hi, hd]; simp
  have hcopy := copyRows_all e.wuPheromone e.pheromone hs
  rw [hlen] at hcopy
  refine ⟨e, { e with pheromone := e.wuPheromone }, he, ?_, hi⟩
  simp [Reset, hcopy]

/-- C8: `Reset(complete)` changes the live pheromone matrix only: both snapshots, the
distance matrix, the parameters, the best solution and the history are kept. -/
theorem Reset_changes_live_only (e e1 : AntColonyOptimization) (complete : Bool)
    (h : Reset e complete = some e1) :
    e1.initialPheromon = e.initialPheromon ∧ e1.wuPheromone = e.wuPheromone ∧
      e1.dists = e.dists ∧ e1.era = e.era ∧ e1.ro = e.ro ∧ e1.Q = e.Q ∧ e1.a = e.a ∧
      e1.b = e.b ∧ e1.best = e.best ∧ e1.history = e.history := by
  obtain ⟨hf, hw, hb, hh⟩ := Reset_fields e e1 complete h
  exact ⟨hf.initialPheromon, hw, hf.dists, hf.era, hf.ro, hf.Q, hf.a, hf.b, hb, hh⟩

end ACO

namespace ACO

theorem Reset_true_restores_initial_witness :
    (runCalls powNat
      (NewACO 1 exTriangle.DistanceMatrix (.fin (9 / 10)) (.fin 100) (.fin 1) (.fin 2)
        (.fin (1 / 10)))
      [.warmup 2, .solve exTriangle List.reverse (fun _ => 9 / 10), .reset false]).isSome
      = true ∧
    ∃ e e1, runCalls powNat
      (NewACO 1 exTriangle.DistanceMatrix (.fin (9 / 10)) (.fin 100) (.fin 1) (.fin 2)
        (.fin (1 / 10)))
      [.warmup 2, .solve exTriangle List.reverse (fun _ => 9 / 10), .reset false] = some e ∧
      Reset e true = some e1 ∧
      e1.pheromone = List.replicate exTriangle.DistanceMatrix.length
        (List.replicate exTriangle.DistanceMatrix.length (.fin (1 / 10))) :=
  ⟨by decide!, Reset_true_restores_initial powNat 1 exTriangle.DistanceMatrix (.fin (9 / 10))
    (.fin 100) (.fin 1) (.fin 2) (.fin (1 / 10))
    [.warmup 2, .solve exTriangle List.reverse (fun _ => 9 / 10), .reset false] (by decide!)⟩

theorem Reset_false_without_warmup_witness :
    (∀ c ∈ [Call.solve exTriangle List.reverse (fun _ => 9 / 10), Call.reset true,
        Call.solve exTriangle id (fun _ => 1 / 2)], c.notWarmup = true) ∧
    (runCalls powNat
      (NewACO 1 exTriangle.DistanceMatrix (.fin (9 / 10)) (.fin 100) (.fin 1) (.fin 2)
        (.fin (1 / 10)))
      [.solve exTriangle List.reverse (fun _ => 9 / 10), .reset true,
        .solve exTriangle id (fun _ => 1 / 2)]).isSome = true ∧
    ∃ e e1, runCalls powNat
      (NewACO 1 exTriangle.DistanceMatrix (.fin (9 / 10)) (.fin 100) (.fin 1) (.fin 2)
        (.fin (1 / 10)))
      [.solve exTriangle List.reverse (fun _ => 9 / 10), .reset true,
        .solve exTriangle id (fun _ => 1 / 2)] = some e ∧
      Reset e false = some e1 ∧
      e1.pheromone = List.replicate exTriangle.DistanceMatrix.length
        (List.replicate exTriangle.DistanceMatrix.length (.fin (1 / 10))) :=
  ⟨by simp [Call.notWarmup], by decide!,
    Reset_false_without_warmup powNat 1 exTriangle.DistanceMatrix (.fin (9 / 10))
      (.fin 100) (.fin 1) (.fin 2) (.fin (1 / 10))
      [.solve exTriangle List.reverse (fun _ => 9 / 10), .reset true,
        .solve exTriangle id (fun _ => 1 / 2)]
      (by simp [Call.notWarmup]) (by decide!)⟩

theorem Reset_changes_live_only_witness :
    Reset { exEngine 1 [[0, 5], [5, 0]] with
        pheromone := [[.fin 1, .fin 2], [.fin 3, .fin 4]] } true
      = some (exEngine 1 [[0, 5], [5, 0]]) ∧
    ((exEngine 1 [[0, 5], [5, 0]]).initialPheromon =
        ({ exEngine 1 [[0, 5], [5, 0]] with
          pheromone := [[.fin 1, .fin 2], [.fin 3, .fin 4]] }).initialPheromon ∧
      (exEngine 1 [[0, 5], [5, 0]]).wuPheromone =
        ({ exEngine 1 [[0, 5], [5, 0]] with
          pheromone := [[.fin 1, .fin 2], [.fin 3, .fin 4]] }).wuPheromone ∧
      (exEngine 1 [[0, 5], [5, 0]]).dists =
        ({ exEngine 1 [[0, 5], [5, 0]] with
          pheromone := [[.fin 1, .fin 2], [.fin 3, .fin 4]] }).dists ∧
      (exEngine 1 [[0, 5], [5, 0]]).era =
        ({ exEngine 1 [[0, 5], [5, 0]] with
          pheromone := [[.fin 1, .fin 2], [.fin 3, .fin 4]] }).era ∧
      (exEngine 1 [[0, 5], [5, 0]]).ro =
        ({ exEngine 1 [[0, 5], [5, 0]] with
          pheromone := [[.fin 1, .fin 2], [.fin 3, .fin 4]] }).ro ∧
      (exEngine 1 [[0, 5], [5, 0]]).Q =
        ({ exEngine 1 [[0, 5], [5, 0]] with
          pheromone := [[.fin 1, .fin 2], [.fin 3, .fin 4]] }).Q ∧
      (exEngine 1 [[0, 5], [5, 0]]).a =
        ({ exEngine 1 [[0, 5], [5, 0]] with
          pheromone := [[.fin 1, .fin 2], [.fin 3, .fin 4]] }).a ∧
      (exEngine 1 [[0, 5], [5, 0]]).b =
        ({ exEngine 1 [[0, 5], [5, 0]] with
          pheromone := [[.fin 1, .fin 2], [.fin 3, .fin 4]] }).b ∧
      (exEngine 1 [[0, 5], [5, 0]]).best =
        ({ exEngine 1 [[0, 5], [5, 0]] with
          pheromone := [[.fin 1, .fin 2], [.fin 3, .fin 4]] }).best ∧
      (exEngine 1 [[0, 5], [5, 0]]).history =
        ({ exEngine 1 [[0, 5], [5, 0]] with
          pheromone := [[.fin 1, .fin 2], [.fin 3, .fin 4]] }).history) :=
  ⟨by decide!, Reset_changes_live_only _ _ true (by decide!)⟩

/-- C6 (code defect): `Warmup` adds its increments to `wuPheromone` instead of
copying the live matrix into it.  After a `Solve` whose candidate improved (the live
matrix was reinforced and evaporated), `Warmup(1)` returns with a post-warmup
snapshot that differs from the live matrix, and a later `Reset(false)` does not give
back the live matrix as it was right after that warmup. -/
theorem Warmup_snapshot_differs_after_Solve :
    ((Solve powNat (exEngine 1 exTriangle.DistanceMatrix) exTriangle List.reverse
        (fun _ => 9 / 10)).map (fun r => r.1.history.map (fun s => s.Cost))) = some [10, 6] ∧
    ((runCalls powNat (exEngine 1 exTriangle.DistanceMatrix)
        [.solve exTriangle List.reverse (fun _ => 9 / 10), .warmup 1]).map
      (fun e => (at2 e.pheromone 1 2, at2 e.wuPheromone 1 2)))
      = some (some (.fin (29898869 / 629100)), some (.fin (1575041 / 62910))) ∧
    ((runCalls powNat (exEngine 1 exTriangle.DistanceMatrix)
        [.solve exTriangle List.reverse (fun _ => 9 / 10), .warmup 1]).bind
      (fun e => (Reset e false).map (fun e1 => decide (e1.pheromone = e.pheromone))))
      = some false := by
  decide!

/-- C10 (code defect): the update loop of `Warmup` visits `j = i` as well and
divides by `dists[i][i]`.  With the zero diagonal of a matrix from `DistanceMatrix`
the update is 0 * Q / 0, not finite, and it is added to the diagonal cell of the live
matrix and of the post-warmup snapshot: the value 0.1 is lost. -/
theorem Warmup_overwrites_diagonal :
    at2 (exEngine 1 exTriangle.DistanceMatrix).pheromone 0 0 = some (.fin (1 / 10)) ∧
    at2 exTriangle.DistanceMatrix 0 0 = some 0 ∧
    (Warmup powNat (exEngine 1 exTriangle.DistanceMatrix) 1).map
      (fun e => (at2 e.pheromone 0 0, at2 e.wuPheromone 0 0)) = some (some .nan, some .nan) := by
  decide!

end ACO

namespace ACO

/-! ## Route construction: the selection rule -/

theorem gradesLoop_eq (pow : F64 → F64 → F64) (e : AntColonyOptimization) (c : Node) :
    ∀ (options : List Node) (gs acc : List F64) (tot : F64),
      options.map (fun o => grade pow e c.id o.id) = gs.map some →
      gradesLoop pow e c options acc tot = some (acc ++ gs, gs.foldl fadd tot) := by
  intro options
  induction options with
  | nil =>
    intro gs acc tot h
    cases gs with
    | nil => simp [gradesLoop]
    | cons g gs => simp at h
  | cons o os ih =>
    intro gs acc tot h
    cases gs with
    | nil => simp at h
    | cons g gs =>
      simp only [List.map_cons, List.cons.injEq] at h
      obtain ⟨h1, h2⟩ := h
      simp only [gradesLoop, h1]
      rw [ih gs (acc ++ [g]) (fadd tot g) h2]
      simp

theorem selectLoop_first (r totalGrade : F64) :
    ∀ (gs : List F64) (os : List Node) (j0 : Nat) (cum : F64) (j : Nat) (hj : j < os.length),
      gs.length = os.length →
      fge (((gs.take (j + 1)).map (fun g => fdiv g totalGrade)).foldl fadd cum) r = true →
      (∀ i, i < j →
        fge (((gs.take (i + 1)).map (fun g => fdiv g totalGrade)).foldl fadd cum) r = false) →
      selectLoop r totalGrade gs os j0 cum = some (os[j], j0 + j) := by
  intro gs
  induction gs with
  | nil =>
    intro os j0 cum j hj hlen _ _
    simp at hlen
    rw [← hlen] at hj
    cases hj
  | cons g gs ih =>
    intro os j0 cum j hj hlen hsel hmin
    cases os with
    | nil => simp at hlen
    | cons o os =>
      cases j with
      | zero =>
        simp only [List.take_succ_cons, List.take_zero, List.map_cons, List.map_nil,
          List.foldl_cons, List.foldl_nil] at hsel
        simp [selectLoop, hsel]
      | succ j =>
        have h0 := hmin 0 (Nat.succ_pos j)
        simp only [List.take_succ_cons, List.take_zero, List.map_cons, List.map_nil,
          List.foldl_cons, List.foldl_nil, Nat.zero_add] at h0
        have hj1 : j < os.length := by simpa using hj
        have hlen1 : gs.length = os.length := by simpa using hlen
        have hrec := ih os (j0 + 1) (fadd cum (fdiv g totalGrade)) j hj1 hlen1
          (by simpa only [List.take_succ_cons, List.map_cons, List.foldl_cons] using hsel)
          (by
            intro i hi
            have := hmin (i + 1) (Nat.succ_lt_succ hi)
            simpa only [List.take_succ_cons, List.map_cons, List.foldl_cons] using this)
        simp only [selectLoop, h0, Bool.false_eq_true, if_false]
        rw [hrec]
        simp [Nat.add_assoc, Nat.add_comm 1 j]

/-- C4: one pass of the main loop of `getRoute`.  With `grades` the grades of the
pool from the current node, `totalGrade` their sum and `j` the smallest index whose
cumulative normalized grade reaches the draw `r`, the pass appends `options[j]` to
the route, makes it the current node, and removes it from the pool, the order of the
other candidates being kept. -/
theorem getRouteStep_selects_first (pow : F64 → F64 → F64) (self : AntColonyOptimization)
    (r : ℚ) (s : RouteState) (grades : List F64) (j : Nat) (hj : j < s.options.length)
    (hgrades : s.options.map (fun o => grade pow self s.currentNode.id o.id)
      = grades.map some)
    (hsel : fge (cumulative (grades.foldl fadd (.fin 0)) grades j) (.fin r) = true)
    (hmin : ∀ i, i < j →
      fge (cumulative (grades.foldl fadd (.fin 0)) grades i) (.fin r) = false) :
    getRouteStep pow self r s =
      some { options := s.options.eraseIdx j
             newRoute := s.newRoute ++ [s.options[j]]
             currentNode := s.options[j]
             nextNode := s.options[j]
             nextNodeId := j } := by
  have hlen : grades.length = s.options.length := by
    have := congrArg List.length hgrades
    simpa using this.symm
  have hg := gradesLoop_eq pow self s.currentNode s.options grades [] (.fin 0) hgrades
  have hs := selectLoop_first (.fin r) (grades.foldl fadd (.fin 0)) grades s.options 0
    (.fin 0) j hj hlen hsel hmin
  simp only [getRouteStep, hg, List.nil_append, hs, Nat.zero_add]
  have hle : j + 1 ≤ s.options.length := hj
  simp only [hle, if_true]
  rw [List.eraseIdx_eq_take_drop_succ]

end ACO

namespace ACO

/-! ## Route construction: a permutation is produced -/

theorem foldl_fadd_fin (qs : List ℚ) :
    ∀ c : ℚ, (qs.map F64.fin).foldl fadd (.fin c) = .fin (c + qs.sum) := by
  induction qs with
  | nil => intro c; simp
  | cons q qs ih =>
    intro c
    simp only [List.map_cons, List.foldl_cons, fadd, List.sum_cons]
    rw [ih (c + q)]
    congr 1
    ring

theorem sum_pos_of_pos (qs : List ℚ) (hpos : ∀ q ∈ qs, 0 < q) (hne : qs ≠ []) :
    0 < qs.sum := by
  induction qs with
  | nil => exact absurd rfl hne
  | cons q qs ih =>
    rw [List.sum_cons]
    have hq : 0 < q := hpos q (List.mem_cons_self _ _)
    by_cases h : qs = []
    · subst h; simpa using hq
    · have := ih (fun x hx => hpos x (List.mem_cons_of_mem _ hx)) h
      linarith

theorem sum_map_div (qs : List ℚ) (T : ℚ) : (qs.map (fun q => q / T)).sum = qs.sum / T := by
  induction qs with
  | nil => simp
  | cons q qs ih => simp only [List.map_cons, List.sum_cons, ih]; ring

theorem grade_pos (pow : F64 → F64 → F64) (e : AntColonyOptimization) (N : Nat)
    (hpos : PositiveEngine pow e N) (i j : Nat) (hi : i < N) (hj : j < N) (hij : i ≠ j) :
    ∃ q : ℚ, 0 < q ∧ grade pow e i j = some (.fin q) := by
  obtain ⟨hph, hd, hpa, hpb⟩ := hpos
  obtain ⟨p, hp, hp1⟩ := hph i j hi hj hij
  obtain ⟨d, hd0, hd1⟩ := hd i j hi hj hij
  obtain ⟨y1, hy1, hy1e⟩ := hpa p hp
  obtain ⟨y2, hy2, hy2e⟩ := hpb (d : ℚ) (by exact_mod_cast hd0)
  refine ⟨y1 * (1 / y2), by positivity, ?_⟩
  simp only [grade, hp1, hd1, ofInt, hy1e, hy2e, fdiv, fmul, ne_of_gt hy2, if_false]

theorem grades_pos (pow : F64 → F64 → F64) (e : AntColonyOptimization) (N : Nat)
    (hpos : PositiveEngine pow e N) (c : Node) (hc : c.id < N) :
    ∀ (options : List Node), (∀ o ∈ options, o.id < N ∧ o.id ≠ c.id) →
      ∃ qs : List ℚ, (∀ q ∈ qs, 0 < q) ∧ qs.length = options.length ∧
        options.map (fun o => grade pow e c.id o.id) = (qs.map F64.fin).map some := by
  intro options
  induction options with
  | nil => intro _; exact ⟨[], by simp, rfl, rfl⟩
  | cons o os ih =>
    intro h
    obtain ⟨qs, hq, hl, he⟩ := ih (fun x hx => h x (List.mem_cons_of_mem _ hx))
    obtain ⟨ho1, ho2⟩ := h o (List.mem_cons_self _ _)
    obtain ⟨q, hq0, hqe⟩ := grade_pos pow e N hpos c.id o.id hc ho1 (Ne.symm ho2)
    refine ⟨q :: qs, ?_, by simp [hl], ?_⟩
    · intro x hx
      rcases List.mem_cons.mp hx with h1 | h1
      · rw [h1]; exact hq0
      · exact hq x h1
    · simp only [List.map_cons, hqe, he]

theorem selectLoop_exists (r T : ℚ) (hT : T ≠ 0) :
    ∀ (qs : List ℚ) (os : List Node) (j0 : Nat) (c : ℚ),
      qs.length = os.length → os ≠ [] → r ≤ c + (qs.map (fun q => q / T)).sum →
      ∃ j o, os[j]? = some o ∧
        selectLoop (.fin r) (.fin T) (qs.map F64.fin) os j0 (.fin c) = some (o, j0 + j) := by
  intro qs
  induction qs with
  | nil =>
    intro os j0 c hlen hne _
    cases os with
    | nil => exact absurd rfl hne
    | cons o os => simp at hlen
  | cons q qs ih =>
    intro os j0 c hlen hne hr
    cases os with
    | nil => exact absurd rfl hne
    | cons o os =>
      by_cases hsel : r ≤ c + q / T
      · refine ⟨0, o, by simp, ?_⟩
        simp [selectLoop, fdiv, fadd, fge, hT, hsel]
      · have hlen1 : qs.length = os.length := by simpa using hlen
        have hne1 : os ≠ [] := by
          intro h
          subst h
          have : qs = [] := List.length_eq_zero.mp (by simpa using hlen1)
          subst this
          simp at hr
          exact hsel hr
        have hr1 : r ≤ (c + q / T) + (qs.map (fun q => q / T)).sum := by
          simp only [List.map_cons, List.sum_cons] at hr
          linarith
        obtain ⟨j, o1, ho1, hs1⟩ := ih os (j0 + 1) (c + q / T) hlen1 hne1 hr1
        refine ⟨j + 1, o1, by simpa using ho1, ?_⟩
        simp only [List.map_cons, selectLoop, fdiv, hT, if_false, fadd, fge, hsel,
          decide_False, Bool.false_eq_true]
        rw [hs1]
        simp [Nat.add_assoc, Nat.add_comm 1 j]

end ACO

namespace ACO

theorem split_at_index {α : Type} :
    ∀ (os : List α) (j : Nat) (o : α), os[j]? = some o →
      ∃ l1 l2, os = l1 ++ o :: l2 ∧ os.eraseIdx j = l1 ++ l2 := by
  intro os
  induction os with
  | nil => intro j o h; simp at h
  | cons x xs ih =>
    intro j o h
    cases j with
    | zero =>
      simp at h
      subst h
      exact ⟨[], xs, rfl, rfl⟩
    | succ j =>
      simp at h
      obtain ⟨l1, l2, h1, h2⟩ := ih j o h
      exact ⟨x :: l1, l2, by simp [h1], by simp [h2]⟩

theorem getRouteStep_exists (pow : F64 → F64 → F64) (e : AntColonyOptimization) (N : Nat)
    (hpos : PositiveEngine pow e N) (r : ℚ) (hr : r < 1) (s : RouteState)
    (hc : s.currentNode.id < N) (hne : s.options ≠ [])
    (hopt : ∀ o ∈ s.options, o.id < N ∧ o.id ≠ s.currentNode.id) :
    ∃ j o, s.options[j]? = some o ∧
      getRouteStep pow e r s =
        some { options := s.options.eraseIdx j
               newRoute := s.newRoute ++ [o]
               currentNode := o
               nextNode := o
               nextNodeId := j } := by
  obtain ⟨qs, hq, hl, hg⟩ := grades_pos pow e N hpos s.currentNode hc s.options hopt
  have hqne : qs ≠ [] := by
    intro h
    subst h
    exact hne (List.length_eq_zero.mp (by simpa using hl.symm))
  have hT : 0 < 0 + qs.sum := by
    have := sum_pos_of_pos qs hq hqne
    linarith
  have hgl := gradesLoop_eq pow e s.currentNode s.options (qs.map F64.fin) [] (.fin 0) hg
  rw [foldl_fadd_fin qs 0] at hgl
  have hsum : r ≤ 0 + (qs.map (fun q => q / (0 + qs.sum))).sum := by
    rw [sum_map_div]
    have : qs.sum / (0 + qs.sum) = 1 := by
      rw [zero_add]
      exact div_self (by linarith)
    linarith
  obtain ⟨j, o, ho, hs⟩ := selectLoop_exists r (0 + qs.sum) (ne_of_gt hT) qs s.options 0 0
    hl hne hsum
  refine ⟨j, o, ho, ?_⟩
  have hj : j < s.options.length := by
    obtain ⟨h, _⟩ := List.getElem?_eq_some.mp ho
    exact h
  have hle : j + 1 ≤ s.options.length := hj
  simp only [getRouteStep, hgl, List.nil_append, hs, Nat.zero_add, hle, if_true]
  rw [List.eraseIdx_eq_take_drop_succ]

theorem getRouteLoop_perm (pow : F64 → F64 → F64) (e : AntColonyOptimization) (N : Nat)
    (hpos : PositiveEngine pow e N) (rnd : Nat → ℚ) (hr : ∀ i, 0 ≤ rnd i ∧ rnd i < 1) :
    ∀ (n k : Nat) (s : RouteState), n ≤ s.options.length → s.currentNode.id < N →
      (s.options.map Node.id).Nodup →
      (∀ o ∈ s.options, o.id < N ∧ o.id ≠ s.currentNode.id) →
      ∃ s1, getRouteLoop pow e rnd n k s = some s1 ∧
        (s1.newRoute ++ s1.options).Perm (s.newRoute ++ s.options) ∧
        s1.options.length = s.options.length - n := by
  intro n
  induction n with
  | zero =>
    intro k s _ _ _ _
    exact ⟨s, rfl, List.Perm.refl _, rfl⟩
  | succ n ih =>
    intro k s hn hc hnd hopt
    have hne : s.options ≠ [] := by
      intro h
      rw [h] at hn
      simp at hn
    obtain ⟨j, o, ho, hstep⟩ := getRouteStep_exists pow e N hpos (rnd k) (hr k).2 s hc hne hopt
    obtain ⟨l1, l2, hsplit, herase⟩ := split_at_index s.options j o ho
    have hnd1 : ((l1 ++ o :: l2).map Node.id).Nodup := by rw [← hsplit]; exact hnd
    have hmem : ∀ x ∈ l1 ++ l2, x ∈ s.options := by
      intro x hx
      rw [hsplit]
      rcases List.mem_append.mp hx with h | h
      · exact List.mem_append_left _ h
      · exact List.mem_append_right _ (List.mem_cons_of_mem _ h)
    have homem : o ∈ s.options := by rw [hsplit]; simp
    have hnd2 : ((l1 ++ l2).map Node.id).Nodup := by
      have hsub : List.Sublist ((l1 ++ l2).map Node.id) ((l1 ++ o :: l2).map Node.id) :=
        List.Sublist.map _ (List.Sublist.append_left (List.sublist_cons_self o l2) l1)
      exact hnd1.sublist hsub
    have hdiff : ∀ x ∈ l1 ++ l2, x.id ≠ o.id := by
      intro x hx hxo
      have hperm : ((o :: (l1 ++ l2)).map Node.id).Nodup := by
        have hp : List.Perm (o :: (l1 ++ l2)) (l1 ++ o :: l2) := List.perm_middle.symm
        exact (hp.map Node.id).nodup_iff.mpr hnd1
      simp only [List.map_cons, List.nodup_cons] at hperm
      exact hperm.1 (hxo ▸ List.mem_map_of_mem Node.id hx)
    have hlen : (l1 ++ l2).length + 1 = s.options.length := by
      rw [hsplit]; simp; omega
    obtain ⟨s1, hs1, hp1, hl1⟩ := ih (k + 1)
      { options := s.options.eraseIdx j
        newRoute := s.newRoute ++ [o]
        currentNode := o
        nextNode := o
        nextNodeId := j }
      (by simp only [herase]; omega)
      (hopt o homem).1
      (by simp only [herase]; exact hnd2)
      (by
        simp only [herase]
        intro x hx
        exact ⟨(hopt x (hmem x hx)).1, hdiff x hx⟩)
    refine ⟨s1, ?_, ?_, ?_⟩
    · simp only [getRouteLoop, hstep]
      exact hs1
    · refine hp1.trans ?_
      simp only [herase]
      rw [hsplit, List.append_assoc]
      exact List.Perm.append_left _ (by simpa using (List.perm_middle (a := o)).symm)
    · rw [hl1]
      simp only [herase]
      omega

end ACO

namespace ACO

/-- In exact arithmetic only: when the float operations are the exact rational ones
and `pow` is positive and finite on positive bases (`PositiveEngine`), the cumulative
normalized grade ends at exactly 1, every pass selects, and `getRoute` returns a
permutation of a duplicate-free list of valid non-depot nodes.  Neither assumption
holds of float64: rounding can leave the last cumulative sum below the draw, and
`math.Pow` can underflow to 0. -/
theorem getRoute_permutation (pow : F64 → F64 → F64) (self : AntColonyOptimization) (N : Nat)
    (hpos : PositiveEngine pow self N) (rnd : Nat → ℚ) (hr : ∀ i, 0 ≤ rnd i ∧ rnd i < 1)
    (k : Nat) (nodes : Route) (depot : Node) (hdepot : depot.id < N)
    (hnodup : (nodes.map Node.id).Nodup)
    (hnodes : ∀ n ∈ nodes, n.id < N ∧ n.id ≠ depot.id) :
    ∃ route, getRoute pow self rnd k nodes depot = some route ∧
      route.length = nodes.length ∧ route.Perm nodes ∧ route.Nodup ∧ depot ∉ route := by
  obtain ⟨s1, hs1, hp1, hl1⟩ := getRouteLoop_perm pow self N hpos rnd hr nodes.length k
    { options := nodes, newRoute := [], currentNode := depot,
      nextNode := { id := 0, x := 0, y := 0 }, nextNodeId := 0 }
    (Nat.le_refl _) hdepot hnodup hnodes
  have hnil : s1.options = [] := List.length_eq_zero.mp (by simpa using hl1)
  have hperm : s1.newRoute.Perm nodes := by simpa [hnil] using hp1
  refine ⟨s1.newRoute, ?_, hperm.length_eq, hperm, ?_, ?_⟩
  · simp only [getRoute, hs1]
  · exact hperm.nodup_iff.mpr (List.Nodup.of_map _ hnodup)
  · intro hmem
    exact (hnodes depot (hperm.mem_iff.mp hmem)).2 rfl

theorem exEngine_positive (era : Int) :
    PositiveEngine powNat (exEngine era exTriangle.DistanceMatrix) 3 := by
  refine ⟨?_, ?_, ?_, ?_⟩
  · intro i j hi hj _
    refine ⟨1 / 10, by norm_num, ?_⟩
    have hE : (exEngine era exTriangle.DistanceMatrix).pheromone
        = (exEngine 0 exTriangle.DistanceMatrix).pheromone := rfl
    rw [hE]
    interval_cases i <;> interval_cases j <;> decide!
  · intro i j hi hj hij
    have hE : (exEngine era exTriangle.DistanceMatrix).dists = exTriangle.DistanceMatrix := rfl
    rw [hE]
    interval_cases i <;> interval_cases j <;>
      first
        | exact absurd rfl hij
        | exact ⟨5, by decide, by decide!⟩
        | exact ⟨3, by decide, by decide!⟩
        | exact ⟨4, by decide, by decide!⟩
  · intro x hx
    refine ⟨x ^ 1, by positivity, ?_⟩
    simp [exEngine, NewACO, powNat]
  · intro x hx
    refine ⟨x ^ 2, by positivity, ?_⟩
    simp [exEngine, NewACO, powNat]

theorem getRoute_permutation_witness :
    PositiveEngine powNat (exEngine 1 exTriangle.DistanceMatrix) 3 ∧
    (∀ i : Nat, (0 : ℚ) ≤ (fun _ => 9 / 10) i ∧ (fun _ => (9 / 10 : ℚ)) i < 1) ∧
    ({ id := 0, x := 0, y := 0 } : Node).id < 3 ∧
    (exTriangle.nodes.tail.map Node.id).Nodup ∧
    (∀ n ∈ exTriangle.nodes.tail, n.id < 3 ∧ n.id ≠ ({ id := 0, x := 0, y := 0 } : Node).id) ∧
    ∃ route, getRoute powNat (exEngine 1 exTriangle.DistanceMatrix) (fun _ => 9 / 10) 0
        exTriangle.nodes.tail { id := 0, x := 0, y := 0 } = some route ∧
      route.length = exTriangle.nodes.tail.length ∧ route.Perm exTriangle.nodes.tail ∧
      route.Nodup ∧ ({ id := 0, x := 0, y := 0 } : Node) ∉ route :=
  ⟨exEngine_positive 1, fun _ => by norm_num, by decide, by decide, by decide,
    getRoute_permutation powNat (exEngine 1 exTriangle.DistanceMatrix) 3 (exEngine_positive 1)
      (fun _ => 9 / 10) (fun _ => by norm_num) 0 exTriangle.nodes.tail
      { id := 0, x := 0, y := 0 } (by decide) (by decide) (by decide)⟩

theorem getRouteStep_selects_first_witness :
    (1 : Nat) < ([{ id := 2, x := 3, y := 0 }, { id := 1, x := 3, y := 4 }] : List Node).length ∧
    ([{ id := 2, x := 3, y := 0 }, { id := 1, x := 3, y := 4 }] : List Node).map
        (fun o => grade powNat (exEngine 1 exTriangle.DistanceMatrix) 0 o.id)
      = [F64.fin (1 / 90), F64.fin (1 / 250)].map some ∧
    fge (cumulative ([F64.fin (1 / 90), F64.fin (1 / 250)].foldl fadd (.fin 0))
      [F64.fin (1 / 90), F64.fin (1 / 250)] 1) (.fin (9 / 10)) = true ∧
    (∀ i, i < 1 →
      fge (cumulative ([F64.fin (1 / 90), F64.fin (1 / 250)].foldl fadd (.fin 0))
        [F64.fin (1 / 90), F64.fin (1 / 250)] i) (.fin (9 / 10)) = false) ∧
    getRouteStep powNat (exEngine 1 exTriangle.DistanceMatrix) (9 / 10)
        { options := [{ id := 2, x := 3, y := 0 }, { id := 1, x := 3, y := 4 }]
          newRoute := []
          currentNode := { id := 0, x := 0, y := 0 }
          nextNode := { id := 0, x := 0, y := 0 }
          nextNodeId := 0 } =
      some { options := [{ id := 2, x := 3, y := 0 }]
             newRoute := [{ id := 1, x := 3, y := 4 }]
             currentNode := { id := 1, x := 3, y := 4 }
             nextNode := { id := 1, x := 3, y := 4 }
             nextNodeId := 1 } :=
  ⟨by decide, by decide!, by decide!, by decide!,
    getRouteStep_selects_first powNat (exEngine 1 exTriangle.DistanceMatrix) (9 / 10)
      { options := [{ id := 2, x := 3, y := 0 }, { id := 1, x := 3, y := 4 }]
        newRoute := []
        currentNode := { id := 0, x := 0, y := 0 }
        nextNode := { id := 0, x := 0, y := 0 }
        nextNodeId := 0 }
      [F64.fin (1 / 90), F64.fin (1 / 250)] 1 (by decide) (by decide!) (by decide!)
      (by decide!)⟩

end ACO

namespace ACO

/-! ## One warmup round -/

theorem modifyAt_at2 {α : Type} (M : List (List α)) (i j : Nat) (f : α → α) (x : α)
    (h : at2 M i j = some x) :
    ∃ M1, modifyAt M i j f = some M1 ∧
      ∀ a b, at2 M1 a b = if a = i ∧ b = j then some (f x) else at2 M a b := by
  unfold at2 at h
  cases hrow : M[i]? with
  | none => simp [hrow] at h
  | some row =>
    simp only [hrow] at h
    obtain ⟨hi, _⟩ := List.getElem?_eq_some.mp hrow
    obtain ⟨hj, _⟩ := List.getElem?_eq_some.mp h
    refine ⟨M.set i (row.set j (f x)), by simp [modifyAt, hrow, h], ?_⟩
    intro a b
    unfold at2
    by_cases ha : a = i
    · subst ha
      by_cases hb : b = j
      · subst hb
        simp [List.getElem?_set, hi, hj]
      · have hb1 : ¬ j = b := fun h => hb h.symm
        simp [List.getElem?_set, hi, hb, hb1, hrow]
    · have ha1 : ¬ i = a := fun h => ha h.symm
      simp [List.getElem?_set, ha, ha1]

theorem addAt_at2 (M : List (List F64)) (i j : Nat) (v x : F64) (h : at2 M i j = some x) :
    ∃ M1, addAt M i j v = some M1 ∧
      ∀ a b, at2 M1 a b = if a = i ∧ b = j then some (fadd x v) else at2 M a b :=
  modifyAt_at2 M i j (fun y => fadd y v) x h

theorem warmupGrades_eq (pow : F64 → F64 → F64) (e : AntColonyOptimization) (i : Nat)
    (G : Nat → ℚ) :
    ∀ (js : List Nat) (acc : List F64) (t : ℚ),
      (∀ j ∈ js, i ≠ j → grade pow e i j = some (.fin (G j))) →
      warmupGrades pow e i js acc (.fin t) =
        some (acc ++ js.map (fun j => if i ≠ j then F64.fin (G j) else F64.fin 0),
          .fin (t + ((js.filter (fun j => i ≠ j)).map G).sum)) := by
  intro js
  induction js with
  | nil => intro acc t _; simp [warmupGrades]
  | cons j js ih =>
    intro acc t h
    have hrest : ∀ k ∈ js, i ≠ k → grade pow e i k = some (.fin (G k)) :=
      fun k hk => h k (List.mem_cons_of_mem _ hk)
    by_cases hij : i ≠ j
    · have hg := h j (List.mem_cons_self _ _) hij
      simp only [warmupGrades, hij, not_false_eq_true, if_true, hg, fadd]
      rw [ih _ _ hrest]
      simp [hij, add_assoc]
    · have hij1 : i = j := not_not.mp hij
      simp only [warmupGrades, hij, if_false]
      rw [ih _ _ hrest]
      simp [hij1]

end ACO

namespace ACO

theorem warmupUpdate_at2 (Q : F64) (dists : List (List Int)) (grades : List F64)
    (totalGrade : F64) (i N : Nat) (gf : Nat → F64) (D : Nat → Int) :
    ∀ (js : List Nat) (ph wu : List (List F64)), js.Nodup → (∀ j ∈ js, j < N) →
      (∀ j, j < N → (at2 ph i j).isSome = true) →
      (∀ j, j < N → (at2 wu i j).isSome = true) →
      (∀ j ∈ js, grades[j]? = some (gf j)) →
      (∀ j ∈ js, at2 dists i j = some (D j)) →
      ∃ ph1 wu1, warmupUpdate Q dists grades totalGrade i js ph wu = some (ph1, wu1) ∧
        (∀ a b, at2 ph1 a b =
          if a = i ∧ b ∈ js then
            (at2 ph a b).map
              (fun x => fadd x (fdiv (fmul (fdiv (gf b) totalGrade) Q) (ofInt (D b))))
          else at2 ph a b) ∧
        (∀ a b, at2 wu1 a b =
          if a = i ∧ b ∈ js then
            (at2 wu a b).map
              (fun x => fadd x (fdiv (fmul (fdiv (gf b) totalGrade) Q) (ofInt (D b))))
          else at2 wu a b) := by
  intro js
  induction js with
  | nil =>
    intro ph wu _ _ _ _ _ _
    exact ⟨ph, wu, rfl, by simp, by simp⟩
  | cons j js ih =>
    intro ph wu hnd hlt hph hwu hg hd
    have hjN : j < N := hlt j (List.mem_cons_self _ _)
    obtain ⟨x, hx⟩ := Option.isSome_iff_exists.mp (hph j hjN)
    obtain ⟨y, hy⟩ := Option.isSome_iff_exists.mp (hwu j hjN)
    obtain ⟨ph1, hph1, hat1⟩ := addAt_at2 ph i j
      (fdiv (fmul (fdiv (gf j) totalGrade) Q) (ofInt (D j))) x hx
    obtain ⟨wu1, hwu1, hatw1⟩ := addAt_at2 wu i j
      (fdiv (fmul (fdiv (gf j) totalGrade) Q) (ofInt (D j))) y hy
    have hnd1 : js.Nodup := (List.nodup_cons.mp hnd).2
    have hjn : j ∉ js := (List.nodup_cons.mp hnd).1
    have hfull1 : ∀ k, k < N → (at2 ph1 i k).isSome = true := by
      intro k hk
      rw [hat1]
      split
      · rfl
      · exact hph k hk
    have hfullw1 : ∀ k, k < N → (at2 wu1 i k).isSome = true := by
      intro k hk
      rw [hatw1]
      split
      · rfl
      · exact hwu k hk
    obtain ⟨ph2, wu2, hrec, hat2, hatw2⟩ := ih ph1 wu1 hnd1
      (fun k hk => hlt k (List.mem_cons_of_mem _ hk)) hfull1 hfullw1
      (fun k hk => hg k (List.mem_cons_of_mem _ hk))
      (fun k hk => hd k (List.mem_cons_of_mem _ hk))
    refine ⟨ph2, wu2, ?_, ?_, ?_⟩
    · simp only [warmupUpdate, hg j (List.mem_cons_self _ _), hd j (List.mem_cons_self _ _),
        hph1, hwu1]
      exact hrec
    · intro a b
      rw [hat2, hat1]
      by_cases ha : a = i
      · subst ha
        by_cases hb : b = j
        · subst hb
          simp [hjn, hx]
        · by_cases hbm : b ∈ js
          · simp [hb, hbm]
          · simp [hb, hbm]
      · simp [ha]
    · intro a b
      rw [hatw2, hatw1]
      by_cases ha : a = i
      · subst ha
        by_cases hb : b = j
        · subst hb
          simp [hjn, hy]
        · by_cases hbm : b ∈ js
          · simp [hb, hbm]
          · simp [hb, hbm]
      · simp [ha]

end ACO

namespace ACO

theorem warmupRow_spec (pow : F64 → F64 → F64) (e : AntColonyOptimization) (N : Nat)
    (pa pb : ℚ → ℚ) (P : Nat → Nat → ℚ) (D : Nat → Nat → Int) (q : ℚ) (i : Nat)
    (hQ : e.Q = .fin q)
    (hD : ∀ j, j < N → at2 e.dists i j = some (D i j))
    (hDpos : ∀ j, j < N → i ≠ j → 0 < D i j)
    (hP : ∀ j, j < N → i ≠ j → 0 < P i j ∧ at2 e.pheromone i j = some (.fin (P i j)))
    (hpa : ∀ x : ℚ, 0 < x → 0 < pa x ∧ pow (.fin x) e.a = .fin (pa x))
    (hpb : ∀ x : ℚ, 0 < x → 0 < pb x ∧ pow (.fin x) e.b = .fin (pb x))
    (hfp : ∀ j, j < N → (at2 e.pheromone i j).isSome = true)
    (hfw : ∀ j, j < N → (at2 e.wuPheromone i j).isSome = true) :
    ∃ gs tot ph1 wu1, warmupGrades pow e i (List.range N) [] (.fin 0) = some (gs, tot) ∧
      warmupUpdate e.Q e.dists gs tot i (List.range N) e.pheromone e.wuPheromone
        = some (ph1, wu1) ∧
      (∀ j, j < N → i ≠ j →
        at2 ph1 i j = some (.fin (warmupEntry pa pb P D q N i j))) ∧
      (∀ a b, a ≠ i → at2 ph1 a b = at2 e.pheromone a b) ∧
      (∀ a b, a ≠ i → at2 wu1 a b = at2 e.wuPheromone a b) ∧
      (∀ a b, (at2 ph1 a b).isSome = (at2 e.pheromone a b).isSome) ∧
      (∀ a b, (at2 wu1 a b).isSome = (at2 e.wuPheromone a b).isSome) := by
  have hGpos : ∀ j, j < N → i ≠ j → 0 < warmupGrade pa pb P D i j := by
    intro j hj hij
    have h1 := (hpa (P i j) (hP j hj hij).1).1
    have h2 := (hpb (D i j : ℚ) (by exact_mod_cast hDpos j hj hij)).1
    unfold warmupGrade
    positivity
  have hgrade : ∀ j ∈ List.range N, i ≠ j →
      grade pow e i j = some (.fin (warmupGrade pa pb P D i j)) := by
    intro j hj hij
    have hjN : j < N := List.mem_range.mp hj
    have h2 := hpb (D i j : ℚ) (by exact_mod_cast hDpos j hjN hij)
    simp only [grade, (hP j hjN hij).2, hD j hjN, ofInt, (hpa (P i j) (hP j hjN hij).1).2,
      h2.2, fdiv, fmul, ne_of_gt h2.1, if_false, warmupGrade]
  have hgs := warmupGrades_eq pow e i (warmupGrade pa pb P D i) (List.range N) [] 0 hgrade
  have htot : 0 + (((List.range N).filter (fun j => i ≠ j)).map
      (warmupGrade pa pb P D i)).sum = warmupTotal pa pb P D N i := by
    rw [zero_add]; rfl
  rw [htot, List.nil_append] at hgs
  obtain ⟨ph1, wu1, hup, hat, hatw⟩ := warmupUpdate_at2 e.Q e.dists
    ((List.range N).map (fun j => if i ≠ j then F64.fin (warmupGrade pa pb P D i j)
      else F64.fin 0))
    (.fin (warmupTotal pa pb P D N i)) i N
    (fun j => if i ≠ j then F64.fin (warmupGrade pa pb P D i j) else F64.fin 0)
    (D i) (List.range N) e.pheromone e.wuPheromone (List.nodup_range N)
    (fun j hj => List.mem_range.mp hj) hfp hfw
    (fun j hj => by
      have hjN : j < N := List.mem_range.mp hj
      simp [List.getElem?_map, List.getElem?_range hjN])
    (fun j hj => hD j (List.mem_range.mp hj))
  refine ⟨_, _, ph1, wu1, hgs, hup, ?_, ?_, ?_, ?_, ?_⟩
  · intro j hj hij
    have hTpos : 0 < warmupTotal pa pb P D N i := by
      unfold warmupTotal
      apply sum_pos_of_pos
      · intro x hx
        obtain ⟨k, hk, hkx⟩ := List.mem_map.mp hx
        have hk1 := List.mem_filter.mp hk
        rw [← hkx]
        exact hGpos k (List.mem_range.mp hk1.1) (by simpa using hk1.2)
      · intro hnil
        have hmem : warmupGrade pa pb P D i j ∈
            ((List.range N).filter (fun k => i ≠ k)).map
              (fun k => warmupGrade pa pb P D i k) :=
          List.mem_map.mpr ⟨j, List.mem_filter.mpr ⟨List.mem_range.mpr hj, by simpa using hij⟩,
            rfl⟩
        rw [hnil] at hmem
        cases hmem
    have hDne : (D i j : ℚ) ≠ 0 := by
      have := hDpos j hj hij
      exact_mod_cast ne_of_gt this
    rw [hat]
    simp only [List.mem_range, hj, and_self, if_true, (hP j hj hij).2, Option.map_some', hij,
      not_false_eq_true, hQ, fdiv, ne_of_gt hTpos, if_false, fmul, ofInt, hDne, fadd,
      warmupEntry, ne_eq]
  · intro a b ha
    rw [hat]
    simp [ha]
  · intro a b ha
    rw [hatw]
    simp [ha]
  · intro a b
    rw [hat]
    split
    · simp
    · rfl
  · intro a b
    rw [hatw]
    split
    · simp
    · rfl

end ACO

namespace ACO

theorem warmupRows_spec (pow : F64 → F64 → F64) (N : Nat) (pa pb : ℚ → ℚ)
    (P : Nat → Nat → ℚ) (D : Nat → Nat → Int) (q : ℚ)
    (hDpos : ∀ i j, i < N → j < N → i ≠ j → 0 < D i j) :
    ∀ (is : List Nat) (e : AntColonyOptimization), is.Nodup → (∀ i ∈ is, i < N) →
      e.Q = .fin q →
      (∀ i j, i < N → j < N → at2 e.dists i j = some (D i j)) →
      (∀ i ∈ is, ∀ j, j < N → i ≠ j →
        0 < P i j ∧ at2 e.pheromone i j = some (.fin (P i j))) →
      (∀ x : ℚ, 0 < x → 0 < pa x ∧ pow (.fin x) e.a = .fin (pa x)) →
      (∀ x : ℚ, 0 < x → 0 < pb x ∧ pow (.fin x) e.b = .fin (pb x)) →
      Full N e.pheromone → Full N e.wuPheromone →
      ∃ e1, warmupRows pow N is e = some e1 ∧
        (∀ i ∈ is, ∀ j, j < N → i ≠ j →
          at2 e1.pheromone i j = some (.fin (warmupEntry pa pb P D q N i j))) ∧
        (∀ a b, a ∉ is → at2 e1.pheromone a b = at2 e.pheromone a b) := by
  intro is
  induction is with
  | nil =>
    intro e _ _ _ _ _ _ _ _ _
    exact ⟨e, rfl, by simp, fun _ _ _ => rfl⟩
  | cons i is ih =>
    intro e hnd hlt hQ hD hP hpa hpb hfp hfw
    have hiN : i < N := hlt i (List.mem_cons_self _ _)
    have hin : i ∉ is := (List.nodup_cons.mp hnd).1
    obtain ⟨gs, tot, ph1, wu1, hg, hu, hrow, hoth, hothw, hsome, hsomew⟩ :=
      warmupRow_spec pow e N pa pb P D q i hQ (fun j hj => hD i j hiN hj)
        (fun j hj hij => hDpos i j hiN hj hij) (hP i (List.mem_cons_self _ _)) hpa hpb
        (fun j hj => hfp i j hiN hj) (fun j hj => hfw i j hiN hj)
    obtain ⟨e1, he1, hrows, hrest⟩ := ih
      { e with pheromone := ph1, wuPheromone := wu1 }
      (List.nodup_cons.mp hnd).2 (fun k hk => hlt k (List.mem_cons_of_mem _ hk)) hQ hD
      (fun k hk j hj hkj => by
        have hki : k ≠ i := fun h => hin (h ▸ hk)
        have := hP k (List.mem_cons_of_mem _ hk) j hj hkj
        exact ⟨this.1, (hoth k j hki).trans this.2⟩)
      hpa hpb
      (fun a b ha hb => by
        show (at2 ph1 a b).isSome = true
        rw [hsome]; exact hfp a b ha hb)
      (fun a b ha hb => by
        show (at2 wu1 a b).isSome = true
        rw [hsomew]; exact hfw a b ha hb)
    refine ⟨e1, ?_, ?_, ?_⟩
    · simp only [warmupRows, hg, hu]
      exact he1
    · intro k hk j hj hkj
      rcases List.mem_cons.mp hk with h | h
      · subst h
        rw [hrest k j hin]
        exact hrow j hj hkj
      · exact hrows k h j hj hkj
    · intro a b ha
      have hai : a ≠ i := fun h => ha (h ▸ List.mem_cons_self _ _)
      have han : a ∉ is := fun h => ha (List.mem_cons_of_mem _ h)
      rw [hrest a b han]
      exact hoth a b hai

/-- C9: one warmup round on an engine with `N x N` matrices, strictly positive
off-diagonal distances `D` and pheromone `P`, finite `Q = q`.  `Warmup(1)` returns and
each off-diagonal live entry becomes `P(i,j) + (g(i,j) / total_i) * q / D(i,j)`, with
`g(i,j) = P(i,j)^a * (1 / D(i,j)^b)` and `total_i` the sum of `g(i,k)` over `k ≠ i`,
all taken from the values before the round: only row `i` enters the new row `i`. -/
theorem Warmup_one_round (pow : F64 → F64 → F64) (self : AntColonyOptimization) (N : Nat)
    (pa pb : ℚ → ℚ) (P : Nat → Nat → ℚ) (D : Nat → Nat → Int) (q : ℚ)
    (hN : self.dists.length = N) (hQ : self.Q = .fin q)
    (hD : ∀ i j, i < N → j < N → at2 self.dists i j = some (D i j))
    (hDpos : ∀ i j, i < N → j < N → i ≠ j → 0 < D i j)
    (hP : ∀ i j, i < N → j < N → i ≠ j →
      0 < P i j ∧ at2 self.pheromone i j = some (.fin (P i j)))
    (hpa : ∀ x : ℚ, 0 < x → 0 < pa x ∧ pow (.fin x) self.a = .fin (pa x))
    (hpb : ∀ x : ℚ, 0 < x → 0 < pb x ∧ pow (.fin x) self.b = .fin (pb x))
    (hfp : Full N self.pheromone) (hfw : Full N self.wuPheromone) :
    ∃ e1, Warmup pow self 1 = some e1 ∧
      ∀ i j, i < N → j < N → i ≠ j →
        at2 e1.pheromone i j = some (.fin (warmupEntry pa pb P D q N i j)) := by
  obtain ⟨e1, he1, hrows, _⟩ := warmupRows_spec pow N pa pb P D q hDpos (List.range N) self
    (List.nodup_range N) (fun i hi => List.mem_range.mp hi) hQ hD
    (fun i hi j hj hij => hP i j (List.mem_range.mp hi) hj hij) hpa hpb hfp hfw
  refine ⟨e1, ?_, fun i j hi hj hij => hrows i (List.mem_range.mpr hi) j hj hij⟩
  have h1 : (1 : Int).toNat = 1 := rfl
  simp only [Warmup, h1, warmupIters, hN, he1]

theorem Warmup_one_round_witness :
    (exEngine 1 exTriangle.DistanceMatrix).dists.length = 3 ∧
    (exEngine 1 exTriangle.DistanceMatrix).Q = .fin 100 ∧
    (∀ i j, i < 3 → j < 3 → at2 (exEngine 1 exTriangle.DistanceMatrix).dists i j
      = some (distOf exTriangle.DistanceMatrix i j)) ∧
    (∀ i j, i < 3 → j < 3 → i ≠ j → 0 < distOf exTriangle.DistanceMatrix i j) ∧
    (∀ i j, i < 3 → j < 3 → i ≠ j → (0 : ℚ) < (fun _ _ => 1 / 10) i j ∧
      at2 (exEngine 1 exTriangle.DistanceMatrix).pheromone i j
        = some (.fin ((fun _ _ => 1 / 10) i j))) ∧
    Full 3 (exEngine 1 exTriangle.DistanceMatrix).pheromone ∧
    Full 3 (exEngine 1 exTriangle.DistanceMatrix).wuPheromone ∧
    ∃ e1, Warmup powNat (exEngine 1 exTriangle.DistanceMatrix) 1 = some e1 ∧
      ∀ i j, i < 3 → j < 3 → i ≠ j →
        at2 e1.pheromone i j = some (.fin (warmupEntry (fun x => x ^ 1) (fun x => x ^ 2)
          (fun _ _ => 1 / 10) (distOf exTriangle.DistanceMatrix) 100 3 i j)) :=
  ⟨by decide, rfl,
    fun i j hi hj => by interval_cases i <;> interval_cases j <;> decide!,
    fun i j hi hj hij => by
      interval_cases i <;> interval_cases j <;> first | exact absurd rfl hij | decide!,
    fun i j hi hj _ => ⟨by norm_num, by interval_cases i <;> interval_cases j <;> decide!⟩,
    fun i j hi hj => by interval_cases i <;> interval_cases j <;> decide!,
    fun i j hi hj => by interval_cases i <;> interval_cases j <;> decide!,
    Warmup_one_round powNat (exEngine 1 exTriangle.DistanceMatrix) 3 (fun x => x ^ 1)
      (fun x => x ^ 2) (fun _ _ => 1 / 10) (distOf exTriangle.DistanceMatrix) 100
      (by decide) rfl
      (fun i j hi hj => by interval_cases i <;> interval_cases j <;> decide!)
      (fun i j hi hj hij => by
        interval_cases i <;> interval_cases j <;> first | exact absurd rfl hij | decide!)
      (fun i j hi hj _ =>
        ⟨by norm_num, by interval_cases i <;> interval_cases j <;> decide!⟩)
      (fun x hx => ⟨by positivity, by simp [exEngine, NewACO, powNat]⟩)
      (fun x hx => ⟨by positivity, by simp [exEngine, NewACO, powNat]⟩)
      (fun i j hi hj => by interval_cases i <;> interval_cases j <;> decide!)
      (fun i j hi hj => by interval_cases i <;> interval_cases j <;> decide!)⟩

end ACO

namespace ACO

/-! ## Supporting facts on the two code defects -/

/-- The value of `getCost` does not depend on the first node of the route. -/
theorem getCost_ignores_head (n m : Node) (rest : Route) (depot : Node)
    (dists : List (List Int)) :
    getCost (n :: rest) depot dists = getCost (m :: rest) depot dists := rfl

theorem warmupUpdate_same (Q : F64) (dists : List (List Int)) (grades : List F64)
    (totalGrade : F64) (i : Nat) :
    ∀ (js : List Nat) (ph ph1 wu1 : List (List F64)),
      warmupUpdate Q dists grades totalGrade i js ph ph = some (ph1, wu1) → wu1 = ph1 := by
  intro js
  induction js with
  | nil =>
    intro ph ph1 wu1 h
    simp [warmupUpdate] at h
    rw [← h.1, ← h.2]
  | cons j js ih =>
    intro ph ph1 wu1 h
    simp only [warmupUpdate] at h
    split at h
    · split at h
      · cases h
      · rename_i p1 hp1
        simp only [hp1] at h
        exact ih p1 ph1 wu1 h
    · cases h

theorem warmupRows_same (pow : F64 → F64 → F64) (size : Nat) :
    ∀ (is : List Nat) (e e1 : AntColonyOptimization), e.wuPheromone = e.pheromone →
      warmupRows pow size is e = some e1 → e1.wuPheromone = e1.pheromone := by
  intro is
  induction is with
  | nil =>
    intro e e1 heq h
    simp [warmupRows] at h
    subst h
    exact heq
  | cons i is ih =>
    intro e e1 heq h
    simp only [warmupRows] at h
    split at h
    · cases h
    · split at h
      · cases h
      · rename_i p1 w1 hu
        rw [heq] at hu
        exact ih _ e1 (warmupUpdate_same _ _ _ _ _ _ _ _ _ hu) h

/-- When the post-warmup snapshot equals the live matrix before `Warmup` (a fresh
engine, or right after `Reset(false)`), it equals the live matrix after it. -/
theorem Warmup_snapshot_of_eq (pow : F64 → F64 → F64) (maxiter : Int) :
    ∀ (e e1 : AntColonyOptimization), e.wuPheromone = e.pheromone →
      Warmup pow e maxiter = some e1 → e1.wuPheromone = e1.pheromone := by
  unfold Warmup
  induction maxiter.toNat with
  | zero =>
    intro e e1 heq h
    simp [warmupIters] at h
    subst h
    exact heq
  | succ n ih =>
    intro e e1 heq h
    simp only [warmupIters] at h
    split at h
    · cases h
    · rename_i e2 h2
      exact ih e2 e1 (warmupRows_same pow _ _ e e2 heq h2) h

end ACO

namespace ACO

/-! ## The loop of Solve, iteration by iteration -/

theorem solveLoop_succ (pow : F64 → F64 → F64) (rnd : Nat → ℚ) (nodes : Route) (depot : Node)
    (n k : Nat) (e : AntColonyOptimization) (ccost : Int) (csol : Solution) :
    solveLoop pow rnd nodes depot (n + 1) k e ccost csol =
      match solveStep pow rnd nodes depot k e ccost csol with
      | none => none
      | some (e1, ccost1, csol1, _) =>
        solveLoop pow rnd nodes depot n (k + nodes.length) e1 ccost1 csol1 := by
  simp only [solveLoop, solveStep]
  cases getRoute pow e rnd k nodes depot with
  | none => rfl
  | some newRoute =>
    simp only
    cases getCost newRoute depot e.dists with
    | none => rfl
    | some newCost =>
      simp only
      by_cases h : newCost < ccost
      · simp only [h, if_true]
        cases updatePheromone e newRoute with
        | none => rfl
        | some e1 =>
          simp only
          cases evaporatePheromone e1 with
          | none => rfl
          | some e2 => rfl
      · simp only [h, if_false]

theorem tsp_solveLoop_succ (pow : F64 → F64 → F64) (rnd : Nat → ℚ) (nodes : Route)
    (depot : Node) (n k : Nat) (e : AntColonyOptimization) (ccost : Int) (csol : Solution) :
    Tsp.solveLoop pow rnd nodes depot (n + 1) k e ccost csol =
      match Tsp.solveStep pow rnd nodes depot k e ccost csol with
      | none => none
      | some (e1, ccost1, csol1, _) =>
        Tsp.solveLoop pow rnd nodes depot n (k + nodes.length) e1 ccost1 csol1 := by
  simp only [Tsp.solveLoop, Tsp.solveStep]
  cases getRoute pow e rnd k nodes depot with
  | none => rfl
  | some newRoute =>
    simp only
    cases getCost newRoute depot e.dists with
    | none => rfl
    | some newCost =>
      simp only
      by_cases h : newCost < ccost
      · simp only [h, if_true]
        cases updatePheromone e newRoute with
        | none => rfl
        | some e1 =>
          simp only
          cases evaporatePheromone e1 with
          | none => rfl
          | some e2 => rfl
      · simp only [h, if_false]

end ACO

namespace ACO

theorem solveStep_spec (pow : F64 → F64 → F64) (rnd : Nat → ℚ) (nodes : Route) (depot : Node)
    (k : Nat) (e e1 : AntColonyOptimization) (ccost c1 : Int) (csol s1 cand : Solution)
    (h : solveStep pow rnd nodes depot k e ccost csol = some (e1, c1, s1, cand)) :
    getRoute pow e rnd k nodes depot = some cand.Route ∧
    getCost cand.Route depot e.dists = some cand.Cost ∧
    ((cand.Cost < ccost ∧ c1 = cand.Cost ∧ s1 = cand ∧
        ∃ eu ev, updatePheromone e cand.Route = some eu ∧ evaporatePheromone eu = some ev ∧
          e1 = { ev with history := ev.history ++ [cand] }) ∨
      (¬ cand.Cost < ccost ∧ c1 = ccost ∧ s1 = csol ∧ e1 = e)) := by
  unfold solveStep at h
  split at h
  · cases h
  · rename_i newRoute hr
    split at h
    · cases h
    · rename_i newCost hc
      split at h
      · rename_i hlt
        split at h
        · cases h
        · rename_i eu hu
          split at h
          · cases h
          · rename_i ev hv
            cases h
            exact ⟨hr, hc, Or.inl ⟨hlt, rfl, rfl, eu, ev, hu, hv, rfl⟩⟩
      · rename_i hlt
        cases h
        exact ⟨hr, hc, Or.inr ⟨hlt, rfl, rfl, rfl⟩⟩

theorem tsp_solveStep_spec (pow : F64 → F64 → F64) (rnd : Nat → ℚ) (nodes : Route)
    (depot : Node) (k : Nat) (e e1 : AntColonyOptimization) (ccost c1 : Int)
    (csol s1 cand : Solution)
    (h : Tsp.solveStep pow rnd nodes depot k e ccost csol = some (e1, c1, s1, cand)) :
    getRoute pow e rnd k nodes depot = some cand.Route ∧
    getCost cand.Route depot e.dists = some cand.Cost ∧
    ((cand.Cost < ccost ∧ c1 = cand.Cost ∧ s1 = cand ∧
        ∃ eu ev, updatePheromone e cand.Route = some eu ∧ evaporatePheromone eu = some ev ∧
          e1 = { ev with history := ev.history ++ [cand] }) ∨
      (¬ cand.Cost < ccost ∧ c1 = ccost ∧ s1 = csol ∧
        e1 = { e with history := e.history ++ [csol] })) := by
  unfold Tsp.solveStep at h
  split at h
  · cases h
  · rename_i newRoute hr
    split at h
    · cases h
    · rename_i newCost hc
      split at h
      · rename_i hlt
        split at h
        · cases h
        · rename_i eu hu
          split at h
          · cases h
          · rename_i ev hv
            cases h
            exact ⟨hr, hc, Or.inl ⟨hlt, rfl, rfl, eu, ev, hu, hv, rfl⟩⟩
      · rename_i hlt
        cases h
        exact ⟨hr, hc, Or.inr ⟨hlt, rfl, rfl, rfl⟩⟩

end ACO

namespace ACO

/-! ## Pheromone reinforcement -/

theorem updateLoop_eq_depositAll (Q : F64) (dists : List (List Int)) :
    ∀ (route : Route) (ph : List (List F64)),
      updateLoop Q dists route ph =
        depositAll Q dists (List.zip (route.map Node.id) (route.map Node.id).tail) ph := by
  intro route
  induction route with
  | nil => intro ph; simp [updateLoop, depositAll]
  | cons n rest ih =>
    intro ph
    cases rest with
    | nil => simp [updateLoop, depositAll]
    | cons m rest =>
      simp only [updateLoop, List.map_cons, List.tail_cons, List.zip_cons_cons, depositAll]
      cases at2 dists n.id m.id with
      | none => rfl
      | some d =>
        simp only
        cases addAt ph n.id m.id (fdiv Q (ofInt d)) with
        | none => rfl
        | some p1 =>
          exact ih p1

theorem depositAll_append (Q : F64) (dists : List (List Int)) :
    ∀ (es1 es2 : List (Nat × Nat)) (ph : List (List F64)),
      depositAll Q dists (es1 ++ es2) ph =
        match depositAll Q dists es1 ph with
        | none => none
        | some p1 => depositAll Q dists es2 p1 := by
  intro es1
  induction es1 with
  | nil => intro es2 ph; simp [depositAll]
  | cons e es ih =>
    intro es2 ph
    obtain ⟨a, b⟩ := e
    simp only [List.cons_append, depositAll]
    cases at2 dists a b with
    | none => rfl
    | some d =>
      simp only
      cases addAt ph a b (fdiv Q (ofInt d)) with
      | none => rfl
      | some p1 => exact ih es2 p1

theorem depositAll_at2 (Q : F64) (dists : List (List Int)) (N : Nat) (D : Nat → Nat → Int)
    (hD : ∀ a b, a < N → b < N → at2 dists a b = some (D a b)) :
    ∀ (es : List (Nat × Nat)) (ph : List (List F64)), es.Nodup →
      (∀ e ∈ es, e.1 < N ∧ e.2 < N) → Full N ph →
      ∃ ph1, depositAll Q dists es ph = some ph1 ∧
        ∀ a b, at2 ph1 a b =
          if (a, b) ∈ es then (at2 ph a b).map (fun x => fadd x (fdiv Q (ofInt (D a b))))
          else at2 ph a b := by
  intro es
  induction es with
  | nil =>
    intro ph _ _ _
    exact ⟨ph, rfl, by simp⟩
  | cons e es ih =>
    intro ph hnd hlt hfull
    obtain ⟨a, b⟩ := e
    obtain ⟨ha, hb⟩ := hlt (a, b) (List.mem_cons_self _ _)
    obtain ⟨x, hx⟩ := Option.isSome_iff_exists.mp (hfull a b ha hb)
    obtain ⟨p1, hp1, hat1⟩ := addAt_at2 ph a b (fdiv Q (ofInt (D a b))) x hx
    have hfull1 : Full N p1 := by
      intro i j hi hj
      rw [hat1]
      split
      · rfl
      · exact hfull i j hi hj
    obtain ⟨p2, hp2, hat2⟩ := ih p1 (List.nodup_cons.mp hnd).2
      (fun e he => hlt e (List.mem_cons_of_mem _ he)) hfull1
    have hnot : (a, b) ∉ es := (List.nodup_cons.mp hnd).1
    refine ⟨p2, ?_, ?_⟩
    · simp only [depositAll, hD a b ha hb, hp1]
      exact hp2
    · intro i j
      rw [hat2, hat1]
      by_cases hij : i = a ∧ j = b
      · obtain ⟨h1, h2⟩ := hij
        subst h1; subst h2
        simp [hnot, hx]
      · have hne : (i, j) ≠ (a, b) := by
          intro h
          exact hij ⟨congrArg Prod.fst h, congrArg Prod.snd h⟩
        by_cases hm : (i, j) ∈ es
        · simp [hm, hij]
        · simp [hm, hij, hne]

end ACO

namespace ACO

theorem zip_tail_snoc (x : Nat) :
    ∀ (l : List Nat) (last : Nat), l.getLast? = some last →
      List.zip l (l.tail ++ [x]) = List.zip l l.tail ++ [(last, x)] := by
  intro l
  induction l with
  | nil => intro last h; simp at h
  | cons a t ih =>
    intro last h
    cases t with
    | nil =>
      simp at h
      subst h
      simp
    | cons b t =>
      have h1 : (b :: t).getLast? = some last := by
        rw [List.getLast?_cons_cons] at h
        exact h
      have := ih last h1
      simp only [List.tail_cons] at this
      simp only [List.tail_cons, List.cons_append, List.zip_cons_cons, this]

theorem updatePheromone_eq_depositAll (e : AntColonyOptimization) (route : Route)
    (first last : Node) (hfirst : route.head? = some first)
    (hlast : route.getLast? = some last) :
    updatePheromone e route =
      match depositAll e.Q e.dists
          (List.zip (route.map Node.id) (route.map Node.id).tail ++
            [(0, first.id), (last.id, 0)]) e.pheromone with
      | none => none
      | some p => some { e with pheromone := p } := by
  unfold updatePheromone
  rw [updateLoop_eq_depositAll, depositAll_append, hfirst, hlast]
  cases depositAll e.Q e.dists (List.zip (route.map Node.id) (route.map Node.id).tail)
      e.pheromone with
  | none => rfl
  | some p1 =>
    simp only [depositAll]
    cases at2 e.dists 0 first.id with
    | none => rfl
    | some d0 =>
      simp only
      cases addAt p1 0 first.id (fdiv e.Q (ofInt d0)) with
      | none => rfl
      | some p2 =>
        simp only
        cases at2 e.dists last.id 0 with
        | none => rfl
        | some d1 =>
          simp only
          cases addAt p2 last.id 0 (fdiv e.Q (ofInt d1)) with
          | none => rfl
          | some p3 => rfl

theorem codeEdges_facts (ids : List Nat) (first last N : Nat) (hfirst : ids.head? = some first)
    (hlast : ids.getLast? = some last) (hnd : ids.Nodup)
    (hids : ∀ i ∈ ids, 0 < i ∧ i < N) :
    (List.zip ids ids.tail ++ [(0, first), (last, 0)]).Nodup ∧
    (∀ e ∈ List.zip ids ids.tail ++ [(0, first), (last, 0)], e.1 < N ∧ e.2 < N) ∧
    (∀ e, e ∈ List.zip ids ids.tail ++ [(0, first), (last, 0)] ↔
      e ∈ List.zip (0 :: ids) (ids ++ [0])) := by
  have hfm : first ∈ ids := List.mem_of_mem_head? hfirst
  have hlm : last ∈ ids := List.mem_of_mem_getLast? hlast
  have hN : 0 < N := lt_trans (hids first hfm).1 (hids first hfm).2
  have hzip : ∀ e ∈ List.zip ids ids.tail, e.1 ∈ ids ∧ e.2 ∈ ids := by
    intro e he
    obtain ⟨a, b⟩ := e
    have := List.of_mem_zip he
    exact ⟨this.1, List.mem_of_mem_tail this.2⟩
  refine ⟨?_, ?_, ?_⟩
  · rw [List.nodup_append]
    refine ⟨?_, ?_, ?_⟩
    · apply List.Nodup.of_map Prod.snd
      rw [List.map_snd_zip _ _ (by simp)]
      exact hnd.sublist (List.tail_sublist ids)
    · simp only [List.nodup_cons, List.mem_singleton, Prod.mk.injEq, not_and,
        List.not_mem_nil, not_false_eq_true, List.nodup_nil, and_true]
      intro h _
      exact absurd h.symm (ne_of_gt (hids last hlm).1)
    · intro e he1 he2
      have h1 := hzip e he1
      simp only [List.mem_cons, List.mem_singleton, List.not_mem_nil, or_false] at he2
      rcases he2 with h | h
      · rw [h] at h1
        exact absurd (hids 0 h1.1).1 (lt_irrefl 0)
      · rw [h] at h1
        exact absurd (hids 0 h1.2).1 (lt_irrefl 0)
  · intro e he
    rcases List.mem_append.mp he with h | h
    · have h1 := hzip e h
      exact ⟨(hids _ h1.1).2, (hids _ h1.2).2⟩
    · simp only [List.mem_cons, List.mem_singleton, List.not_mem_nil, or_false] at h
      rcases h with h | h
      · rw [h]; exact ⟨hN, (hids first hfm).2⟩
      · rw [h]; exact ⟨(hids last hlm).2, hN⟩
  · intro e
    cases ids with
    | nil => simp at hfirst
    | cons a t =>
      simp only [List.head?_cons, Option.some.injEq] at hfirst
      subst hfirst
      have hz := zip_tail_snoc 0 (a :: t) last hlast
      simp only [List.tail_cons] at hz
      simp only [List.tail_cons, List.cons_append, List.zip_cons_cons, hz, List.mem_append,
        List.mem_cons, List.mem_singleton, List.not_mem_nil, or_false]
      tauto

end ACO

namespace ACO

theorem updatePheromone_at2 (self : AntColonyOptimization) (bestRoute : Route) (N : Nat)
    (D : Nat → Nat → Int) (hne : bestRoute ≠ [])
    (hnd : (bestRoute.map Node.id).Nodup)
    (hids : ∀ n ∈ bestRoute, 0 < n.id ∧ n.id < N)
    (hD : ∀ a b, a < N → b < N → at2 self.dists a b = some (D a b))
    (hfull : Full N self.pheromone) :
    ∃ e1, updatePheromone self bestRoute = some e1 ∧
      (∀ a b, at2 e1.pheromone a b =
        if (a, b) ∈ tourEdges bestRoute then
          (at2 self.pheromone a b).map (fun x => fadd x (fdiv self.Q (ofInt (D a b))))
        else at2 self.pheromone a b) ∧
      e1.initialPheromon = self.initialPheromon ∧ e1.wuPheromone = self.wuPheromone ∧
      e1.dists = self.dists := by
  obtain ⟨first, hfirst⟩ : ∃ first, bestRoute.head? = some first := by
    cases bestRoute with
    | nil => exact absurd rfl hne
    | cons n rest => exact ⟨n, rfl⟩
  obtain ⟨last, hlast⟩ : ∃ last, bestRoute.getLast? = some last := by
    cases h : bestRoute.getLast? with
    | none => exact absurd (List.getLast?_eq_none_iff.mp h) hne
    | some l => exact ⟨l, rfl⟩
  have hfirst1 : (bestRoute.map Node.id).head? = some first.id := by
    cases bestRoute with
    | nil => simp at hfirst
    | cons n rest =>
      simp only [List.head?_cons, Option.some.injEq] at hfirst
      simp [hfirst]
  have hlast1 : (bestRoute.map Node.id).getLast? = some last.id := by
    rw [List.getLast?_map, hlast]; rfl
  obtain ⟨hnodup, hrange, hmem⟩ := codeEdges_facts (bestRoute.map Node.id) first.id last.id N
    hfirst1 hlast1 hnd (by
      intro i hi
      obtain ⟨n, hn, hni⟩ := List.mem_map.mp hi
      rw [← hni]
      exact hids n hn)
  obtain ⟨p, hp, hat⟩ := depositAll_at2 self.Q self.dists N D hD _ self.pheromone hnodup
    hrange hfull
  refine ⟨{ self with pheromone := p }, ?_, ?_, rfl, rfl, rfl⟩
  · rw [updatePheromone_eq_depositAll self bestRoute first last hfirst hlast, hp]
  · intro a b
    rw [hat a b]
    have hiff := hmem (a, b)
    unfold tourEdges
    by_cases h : (a, b) ∈ List.zip (0 :: bestRoute.map Node.id) (bestRoute.map Node.id ++ [0])
    · simp only [h, hiff.mpr h, if_true]
    · have h1 : ¬ (a, b) ∈ List.zip (bestRoute.map Node.id) (bestRoute.map Node.id).tail ++
          [(0, first.id), (last.id, 0)] := fun hc => h (hiff.mp hc)
      simp only [h, h1, if_false]

/-- C11: for a non-empty route of distinct, valid, non-depot nodes (the depot being
node 0), `updatePheromone` returns; the live entry `[a][b]` grows by
`Q / dist[a][b]` exactly when `(a, b)` is an edge of the closed tour
`0 -> route[0] -> ... -> route[last] -> 0`, every other live entry, both snapshots
and the distance matrix are unchanged. -/
theorem updatePheromone_deposits (self : AntColonyOptimization) (bestRoute : Route) (N : Nat)
    (D : Nat → Nat → Int) (hne : bestRoute ≠ [])
    (hnd : (bestRoute.map Node.id).Nodup)
    (hids : ∀ n ∈ bestRoute, 0 < n.id ∧ n.id < N)
    (hD : ∀ a b, a < N → b < N → at2 self.dists a b = some (D a b))
    (hfull : Full N self.pheromone) :
    ∃ e1, updatePheromone self bestRoute = some e1 ∧
      (∀ a b, at2 e1.pheromone a b =
        if (a, b) ∈ tourEdges bestRoute then
          (at2 self.pheromone a b).map (fun x => fadd x (fdiv self.Q (ofInt (D a b))))
        else at2 self.pheromone a b) ∧
      e1.initialPheromon = self.initialPheromon ∧ e1.wuPheromone = self.wuPheromone ∧
      e1.dists = self.dists :=
  updatePheromone_at2 self bestRoute N D hne hnd hids hD hfull

theorem exEngine_at2 (era : Int) :
    (∀ a b, a < 3 → b < 3 → at2 (exEngine era exTriangle.DistanceMatrix).dists a b
      = some (distOf exTriangle.DistanceMatrix a b)) ∧
    Full 3 (exEngine era exTriangle.DistanceMatrix).pheromone := by
  constructor
  · intro a b ha hb
    have hE : (exEngine era exTriangle.DistanceMatrix).dists = exTriangle.DistanceMatrix := rfl
    rw [hE]
    interval_cases a <;> interval_cases b <;> decide!
  · intro a b ha hb
    have hE : (exEngine era exTriangle.DistanceMatrix).pheromone
        = (exEngine 0 exTriangle.DistanceMatrix).pheromone := rfl
    rw [hE]
    interval_cases a <;> interval_cases b <;> decide!

theorem updatePheromone_deposits_witness :
    ([{ id := 1, x := 3, y := 4 }, { id := 2, x := 3, y := 0 }] : Route) ≠ [] ∧
    (([{ id := 1, x := 3, y := 4 }, { id := 2, x := 3, y := 0 }] : Route).map Node.id).Nodup ∧
    (∀ n ∈ ([{ id := 1, x := 3, y := 4 }, { id := 2, x := 3, y := 0 }] : Route),
      0 < n.id ∧ n.id < 3) ∧
    (∀ a b, a < 3 → b < 3 → at2 (exEngine 1 exTriangle.DistanceMatrix).dists a b
      = some (distOf exTriangle.DistanceMatrix a b)) ∧
    Full 3 (exEngine 1 exTriangle.DistanceMatrix).pheromone ∧
    ∃ e1, updatePheromone (exEngine 1 exTriangle.DistanceMatrix)
        [{ id := 1, x := 3, y := 4 }, { id := 2, x := 3, y := 0 }] = some e1 ∧
      (∀ a b, at2 e1.pheromone a b =
        if (a, b) ∈ tourEdges [{ id := 1, x := 3, y := 4 }, { id := 2, x := 3, y := 0 }] then
          (at2 (exEngine 1 exTriangle.DistanceMatrix).pheromone a b).map
            (fun x => fadd x (fdiv (exEngine 1 exTriangle.DistanceMatrix).Q
              (ofInt (distOf exTriangle.DistanceMatrix a b))))
        else at2 (exEngine 1 exTriangle.DistanceMatrix).pheromone a b) ∧
      e1.initialPheromon = (exEngine 1 exTriangle.DistanceMatrix).initialPheromon ∧
      e1.wuPheromone = (exEngine 1 exTriangle.DistanceMatrix).wuPheromone ∧
      e1.dists = (exEngine 1 exTriangle.DistanceMatrix).dists :=
  ⟨by decide, by decide, by decide, (exEngine_at2 1).1, (exEngine_at2 1).2,
    updatePheromone_deposits (exEngine 1 exTriangle.DistanceMatrix)
      [{ id := 1, x := 3, y := 4 }, { id := 2, x := 3, y := 0 }] 3
      (distOf exTriangle.DistanceMatrix) (by decide) (by decide) (by decide)
      (exEngine_at2 1).1 (exEngine_at2 1).2⟩

end ACO

namespace ACO

/-! ## Evaporation -/

theorem fmul_comm (x y : F64) : fmul x y = fmul y x := by
  cases x <;> cases y <;> simp [fmul, mul_comm]

theorem shape_square {α : Type} (M : List (List α)) (N : Nat)
    (h : shape M = List.replicate N N) (a b : Nat) :
    (at2 M a b).isSome = true ↔ a < N ∧ b < N := by
  have hlen : M.length = N := by
    have := congrArg List.length h
    simpa [shape] using this
  unfold at2
  by_cases ha : a < N
  · have ha1 : a < M.length := by omega
    have hrow : (M[a]).length = N := by
      have h1 : (shape M)[a]? = (List.replicate N N)[a]? := by rw [h]
      simpa [shape, List.getElem?_map, List.getElem?_eq_getElem ha1,
        List.getElem?_replicate, ha] using h1
    rw [List.getElem?_eq_getElem ha1]
    simp only [ha, true_and]
    by_cases hb : b < N
    · simp [List.getElem?_eq_getElem (hrow.symm ▸ hb), hb]
    · simp [List.getElem?_eq_none (by omega : (M[a]).length ≤ b), hb]
  · simp [List.getElem?_eq_none (by omega : M.length ≤ a), ha]

theorem evaporateRow_at2 (ro : F64) (i : Nat) :
    ∀ (js : List Nat) (ph : List (List F64)), js.Nodup →
      (∀ j ∈ js, (at2 ph i j).isSome = true) →
      ∃ ph1, evaporateRow ro i js ph = some ph1 ∧
        ∀ a b, at2 ph1 a b =
          if a = i ∧ b ∈ js then (at2 ph a b).map (fun x => fmul x ro) else at2 ph a b := by
  intro js
  induction js with
  | nil =>
    intro ph _ _
    exact ⟨ph, rfl, by simp⟩
  | cons j js ih =>
    intro ph hnd hsome
    obtain ⟨x, hx⟩ := Option.isSome_iff_exists.mp (hsome j (List.mem_cons_self _ _))
    obtain ⟨p1, hp1, hat1⟩ := modifyAt_at2 ph i j (fun y => fmul y ro) x hx
    have hjn : j ∉ js := (List.nodup_cons.mp hnd).1
    obtain ⟨p2, hp2, hat2⟩ := ih p1 (List.nodup_cons.mp hnd).2 (by
      intro k hk
      rw [hat1]
      split
      · rfl
      · exact hsome k (List.mem_cons_of_mem _ hk))
    refine ⟨p2, ?_, ?_⟩
    · simp only [evaporateRow, hp1]
      exact hp2
    · intro a b
      rw [hat2, hat1]
      by_cases ha : a = i
      · subst ha
        by_cases hb : b = j
        · subst hb
          simp [hjn, hx]
        · by_cases hbm : b ∈ js
          · simp [hb, hbm]
          · simp [hb, hbm]
      · simp [ha]

theorem evaporateRows_at2 (ro : F64) (N : Nat) :
    ∀ (is : List Nat) (ph : List (List F64)), is.Nodup →
      (∀ i ∈ is, ∀ j, j < N → (at2 ph i j).isSome = true) →
      ∃ ph1, evaporateRows ro N is ph = some ph1 ∧
        ∀ a b, at2 ph1 a b =
          if a ∈ is ∧ b < N then (at2 ph a b).map (fun x => fmul x ro) else at2 ph a b := by
  intro is
  induction is with
  | nil =>
    intro ph _ _
    exact ⟨ph, rfl, by simp⟩
  | cons i is ih =>
    intro ph hnd hsome
    have hin : i ∉ is := (List.nodup_cons.mp hnd).1
    obtain ⟨p1, hp1, hat1⟩ := evaporateRow_at2 ro i (List.range N) ph (List.nodup_range N)
      (fun j hj => hsome i (List.mem_cons_self _ _) j (List.mem_range.mp hj))
    obtain ⟨p2, hp2, hat2⟩ := ih p1 (List.nodup_cons.mp hnd).2 (by
      intro k hk j hj
      have hki : k ≠ i := fun h => hin (h ▸ hk)
      rw [hat1]
      simp only [hki, false_and, if_false]
      exact hsome k (List.mem_cons_of_mem _ hk) j hj)
    refine ⟨p2, ?_, ?_⟩
    · simp only [evaporateRows, hp1]
      exact hp2
    · intro a b
      rw [hat2, hat1]
      by_cases ha : a = i
      · subst ha
        by_cases hb : b < N
        · simp [hin, hb]
        · simp [hin, hb]
      · by_cases ham : a ∈ is
        · simp [ha, ham]
        · simp [ha, ham]

theorem evaporatePheromone_at2 (self : AntColonyOptimization)
    (hshape : shape self.pheromone = List.replicate self.dists.length self.dists.length) :
    ∃ e1, evaporatePheromone self = some e1 ∧
      (∀ i j, at2 e1.pheromone i j = (at2 self.pheromone i j).map (fun x => fmul self.ro x)) ∧
      shape e1.pheromone = shape self.pheromone ∧
      e1.initialPheromon = self.initialPheromon ∧ e1.wuPheromone = self.wuPheromone := by
  have hsq := shape_square self.pheromone self.dists.length hshape
  obtain ⟨p, hp, hat⟩ := evaporateRows_at2 self.ro self.dists.length
    (List.range self.dists.length) self.pheromone (List.nodup_range _)
    (fun i hi j hj => (hsq i j).mpr ⟨List.mem_range.mp hi, hj⟩)
  refine ⟨{ self with pheromone := p }, by simp only [evaporatePheromone, hp], ?_,
    evaporateRows_shape _ _ _ _ _ hp, rfl, rfl⟩
  intro i j
  show at2 p i j = _
  rw [hat i j]
  by_cases h : i < self.dists.length ∧ j < self.dists.length
  · simp only [List.mem_range, h, and_self, if_true]
    cases at2 self.pheromone i j with
    | none => rfl
    | some x => simp [fmul_comm]
  · have hnone : at2 self.pheromone i j = none := by
      cases hv : at2 self.pheromone i j with
      | none => rfl
      | some x =>
        exact absurd ((hsq i j).mp (by simp [hv])) h
    simp only [List.mem_range, h, if_false, hnone, Option.map_none']

/-- C12: on an engine whose live matrix is `N x N`, `N = len(dists)`, one call of
`evaporatePheromone` returns, every entry of the live matrix is `ro` times its value
before the call, and both snapshots are unchanged. -/
theorem evaporatePheromone_scales (self : AntColonyOptimization)
    (hshape : shape self.pheromone = List.replicate self.dists.length self.dists.length) :
    ∃ e1, evaporatePheromone self = some e1 ∧
      (∀ i j, at2 e1.pheromone i j = (at2 self.pheromone i j).map (fun x => fmul self.ro x)) ∧
      shape e1.pheromone = shape self.pheromone ∧
      e1.initialPheromon = self.initialPheromon ∧ e1.wuPheromone = self.wuPheromone :=
  evaporatePheromone_at2 self hshape

theorem evaporatePheromone_scales_witness :
    shape (exEngine 1 exTriangle.DistanceMatrix).pheromone =
      List.replicate (exEngine 1 exTriangle.DistanceMatrix).dists.length
        (exEngine 1 exTriangle.DistanceMatrix).dists.length ∧
    ∃ e1, evaporatePheromone (exEngine 1 exTriangle.DistanceMatrix) = some e1 ∧
      (∀ i j, at2 e1.pheromone i j =
        (at2 (exEngine 1 exTriangle.DistanceMatrix).pheromone i j).map
          (fun x => fmul (exEngine 1 exTriangle.DistanceMatrix).ro x)) ∧
      shape e1.pheromone = shape (exEngine 1 exTriangle.DistanceMatrix).pheromone ∧
      e1.initialPheromon = (exEngine 1 exTriangle.DistanceMatrix).initialPheromon ∧
      e1.wuPheromone = (exEngine 1 exTriangle.DistanceMatrix).wuPheromone :=
  ⟨by decide!, evaporatePheromone_scales (exEngine 1 exTriangle.DistanceMatrix) (by decide!)⟩

end ACO

namespace ACO

/-! ## Acceptance of a candidate -/

/-- C13: one iteration of `Solve`, in both copies of the engine.  When the cost of
the candidate is not strictly lower than the current best cost, the best solution,
the best cost and the live pheromone matrix are what they were (in `aco.go` the whole
engine is, in `tsp/aco.go` only the history grows); `updatePheromone` and
`evaporatePheromone` are applied, in this order, exactly when the candidate strictly
improves. -/
theorem solveStep_discards_non_improving (pow : F64 → F64 → F64) (rnd : Nat → ℚ)
    (nodes : Route) (depot : Node) (k : Nat) (self : AntColonyOptimization) (ccost : Int)
    (csol : Solution) :
    (∀ e1 c1 s1 cand, solveStep pow rnd nodes depot k self ccost csol = some (e1, c1, s1, cand) →
      (¬ cand.Cost < ccost → e1 = self ∧ c1 = ccost ∧ s1 = csol) ∧
      (cand.Cost < ccost → ∃ eu ev, updatePheromone self cand.Route = some eu ∧
        evaporatePheromone eu = some ev ∧ e1.pheromone = ev.pheromone ∧ s1 = cand ∧
        c1 = cand.Cost)) ∧
    (∀ e1 c1 s1 cand,
      Tsp.solveStep pow rnd nodes depot k self ccost csol = some (e1, c1, s1, cand) →
      (¬ cand.Cost < ccost →
        e1 = { self with history := self.history ++ [csol] } ∧ e1.pheromone = self.pheromone ∧
        c1 = ccost ∧ s1 = csol) ∧
      (cand.Cost < ccost → ∃ eu ev, updatePheromone self cand.Route = some eu ∧
        evaporatePheromone eu = some ev ∧ e1.pheromone = ev.pheromone ∧ s1 = cand ∧
        c1 = cand.Cost)) := by
  constructor
  · intro e1 c1 s1 cand h
    obtain ⟨_, _, hcase⟩ := solveStep_spec pow rnd nodes depot k self e1 ccost c1 csol s1 cand h
    constructor
    · intro hn
      rcases hcase with ⟨hlt, _⟩ | ⟨_, h1, h2, h3⟩
      · exact absurd hlt hn
      · exact ⟨h3, h1, h2⟩
    · intro hlt
      rcases hcase with ⟨_, h1, h2, eu, ev, hu, hv, he⟩ | ⟨hn, _⟩
      · exact ⟨eu, ev, hu, hv, by rw [he], h2, h1⟩
      · exact absurd hlt hn
  · intro e1 c1 s1 cand h
    obtain ⟨_, _, hcase⟩ :=
      tsp_solveStep_spec pow rnd nodes depot k self e1 ccost c1 csol s1 cand h
    constructor
    · intro hn
      rcases hcase with ⟨hlt, _⟩ | ⟨_, h1, h2, h3⟩
      · exact absurd hlt hn
      · exact ⟨h3, by rw [h3], h1, h2⟩
    · intro hlt
      rcases hcase with ⟨_, h1, h2, eu, ev, hu, hv, he⟩ | ⟨hn, _⟩
      · exact ⟨eu, ev, hu, hv, by rw [he], h2, h1⟩
      · exact absurd hlt hn

theorem solveStep_discards_non_improving_witness :
    (solveStep powNat (fun _ => 1 / 2) exTriangle.nodes.tail { id := 0, x := 0, y := 0 } 0
        (exEngine 1 exTriangle.DistanceMatrix) 10 { Route := exTriangle.nodes.tail, Cost := 10 }
      = some (exEngine 1 exTriangle.DistanceMatrix, 10,
          { Route := exTriangle.nodes.tail, Cost := 10 },
          { Route := [{ id := 2, x := 3, y := 0 }, { id := 1, x := 3, y := 4 }], Cost := 10 }) ∧
      ¬ ({ Route := [{ id := 2, x := 3, y := 0 }, { id := 1, x := 3, y := 4 }],
           Cost := 10 } : Solution).Cost < 10 ∧
      (exEngine 1 exTriangle.DistanceMatrix = exEngine 1 exTriangle.DistanceMatrix ∧
        (10 : Int) = 10 ∧
        ({ Route := exTriangle.nodes.tail, Cost := 10 } : Solution)
          = { Route := exTriangle.nodes.tail, Cost := 10 })) ∧
    (Tsp.solveStep powNat (fun _ => 1 / 2) exTriangle.nodes.tail { id := 0, x := 0, y := 0 } 0
        (exEngine 1 exTriangle.DistanceMatrix) 10 { Route := exTriangle.nodes.tail, Cost := 10 }
      = some ({ exEngine 1 exTriangle.DistanceMatrix with
                history := (exEngine 1 exTriangle.DistanceMatrix).history ++
                  [{ Route := exTriangle.nodes.tail, Cost := 10 }] }, 10,
          { Route := exTriangle.nodes.tail, Cost := 10 },
          { Route := [{ id := 2, x := 3, y := 0 }, { id := 1, x := 3, y := 4 }], Cost := 10 }) ∧
      (({ exEngine 1 exTriangle.DistanceMatrix with
            history := (exEngine 1 exTriangle.DistanceMatrix).history ++
              [{ Route := exTriangle.nodes.tail, Cost := 10 }] } : AntColonyOptimization)
          = { exEngine 1 exTriangle.DistanceMatrix with
              history := (exEngine 1 exTriangle.DistanceMatrix).history ++
                [{ Route := exTriangle.nodes.tail, Cost := 10 }] } ∧
        ({ exEngine 1 exTriangle.DistanceMatrix with
            history := (exEngine 1 exTriangle.DistanceMatrix).history ++
              [{ Route := exTriangle.nodes.tail, Cost := 10 }] } :
            AntColonyOptimization).pheromone
          = (exEngine 1 exTriangle.DistanceMatrix).pheromone ∧
        (10 : Int) = 10 ∧
        ({ Route := exTriangle.nodes.tail, Cost := 10 } : Solution)
          = { Route := exTriangle.nodes.tail, Cost := 10 })) :=
  ⟨⟨by decide!, by decide,
      (((solveStep_discards_non_improving powNat (fun _ => 1 / 2) exTriangle.nodes.tail
        { id := 0, x := 0, y := 0 } 0 (exEngine 1 exTriangle.DistanceMatrix) 10
        { Route := exTriangle.nodes.tail, Cost := 10 }).1 _ _ _
          { Route := [{ id := 2, x := 3, y := 0 }, { id := 1, x := 3, y := 4 }], Cost := 10 }
          (by decide!)).1
        (by decide))⟩,
    ⟨by decide!,
      (((solveStep_discards_non_improving powNat (fun _ => 1 / 2) exTriangle.nodes.tail
        { id := 0, x := 0, y := 0 } 0 (exEngine 1 exTriangle.DistanceMatrix) 10
        { Route := exTriangle.nodes.tail, Cost := 10 }).2 _ _ _
          { Route := [{ id := 2, x := 3, y := 0 }, { id := 1, x := 3, y := 4 }], Cost := 10 }
          (by decide!)).1
        (by decide))⟩⟩

end ACO

namespace ACO

/-! ## The history and the returned solution of Solve -/

theorem solveStep_history (pow : F64 → F64 → F64) (rnd : Nat → ℚ) (nodes : Route) (depot : Node)
    (k : Nat) (e e1 : AntColonyOptimization) (ccost c1 : Int) (csol s1 cand : Solution)
    (h : solveStep pow rnd nodes depot k e ccost csol = some (e1, c1, s1, cand)) :
    (cand.Cost < ccost ∧ c1 = cand.Cost ∧ s1 = cand ∧ e1.history = e.history ++ [cand]) ∨
    (¬ cand.Cost < ccost ∧ c1 = ccost ∧ s1 = csol ∧ e1.history = e.history) := by
  obtain ⟨_, _, hcase⟩ := solveStep_spec pow rnd nodes depot k e e1 ccost c1 csol s1 cand h
  rcases hcase with ⟨hlt, h1, h2, eu, ev, hu, hv, he⟩ | ⟨hn, h1, h2, h3⟩
  · obtain ⟨_, _, _, hh1⟩ := updatePheromone_frame _ _ _ hu
    obtain ⟨_, _, _, hh2⟩ := evaporatePheromone_frame _ _ hv
    refine Or.inl ⟨hlt, h1, h2, ?_⟩
    rw [he]
    show ev.history ++ [cand] = e.history ++ [cand]
    rw [hh2, hh1]
  · exact Or.inr ⟨hn, h1, h2, by rw [h3]⟩

theorem solveLoop_trace (pow : F64 → F64 → F64) (rnd : Nat → ℚ) (nodes : Route) (depot : Node) :
    ∀ (n k : Nat) (e : AntColonyOptimization) (ccost : Int) (csol : Solution)
      (e1 : AntColonyOptimization) (sol : Solution),
      solveLoop pow rnd nodes depot n k e ccost csol = some (e1, sol) → csol.Cost = ccost →
      ∃ tr seg, solveTrace pow rnd nodes depot n k e ccost csol = some tr ∧ tr.length = n ∧
        e1.history = e.history ++ seg ∧
        seg.length = (tr.filter (fun t => decide (t.2.Cost < t.1))).length ∧
        List.Chain (fun a b => b.Cost ≤ a.Cost) csol seg ∧
        sol.Cost = (tr.map (fun t => t.2.Cost)).foldl min ccost ∧
        ((sol = csol ∧ ∀ t ∈ tr, ccost ≤ t.2.Cost) ∨
          (∃ l1 l2, tr.map Prod.snd = l1 ++ sol :: l2 ∧ sol.Cost < ccost ∧
            (∀ c ∈ l1, sol.Cost < c.Cost) ∧ ∀ c ∈ l2, sol.Cost ≤ c.Cost)) := by
  intro n
  induction n with
  | zero =>
    intro k e ccost csol e1 sol h hc
    simp only [solveLoop, Option.some.injEq, Prod.mk.injEq] at h
    obtain ⟨h1, h2⟩ := h
    subst h1; subst h2
    exact ⟨[], [], rfl, rfl, by simp, rfl, List.Chain.nil, by simpa using hc,
      Or.inl ⟨rfl, by simp⟩⟩
  | succ n ih =>
    intro k e ccost csol e1 sol h hc
    rw [solveLoop_succ] at h
    cases hstep : solveStep pow rnd nodes depot k e ccost csol with
    | none => rw [hstep] at h; cases h
    | some r =>
      obtain ⟨e2, c2, s2, cand⟩ := r
      rw [hstep] at h
      simp only at h
      rcases solveStep_history pow rnd nodes depot k e e2 ccost c2 csol s2 cand hstep with
        ⟨hlt, h1, h2, hh⟩ | ⟨hn, h1, h2, hh⟩
      · subst h1; subst h2
        obtain ⟨tr, seg, htr, hlen, hhist, hcount, hchain, hmin, hearly⟩ :=
          ih _ e2 s2.Cost s2 e1 sol h rfl
        refine ⟨(ccost, s2) :: tr, s2 :: seg, ?_, by simp [hlen], ?_, ?_, ?_, ?_, ?_⟩
        · simp only [solveTrace, hstep, htr]
        · rw [hhist, hh]; simp
        · simp [List.filter_cons, hlt, hcount]
        · exact List.Chain.cons (by rw [hc]; exact le_of_lt hlt) hchain
        · simp only [List.map_cons, List.foldl_cons, min_eq_right (le_of_lt hlt)]
          exact hmin
        · right
          rcases hearly with ⟨hs, hall⟩ | ⟨l1, l2, hsplit, hlt2, hl1, hl2⟩
          · subst hs
            refine ⟨[], tr.map Prod.snd, by simp, hlt, by simp, ?_⟩
            intro c hcm
            obtain ⟨t, ht, htc⟩ := List.mem_map.mp hcm
            rw [← htc]
            exact hall t ht
          · refine ⟨s2 :: l1, l2, by simp [hsplit], lt_trans hlt2 hlt, ?_, hl2⟩
            intro c hcm
            rcases List.mem_cons.mp hcm with h3 | h3
            · rw [h3]; exact hlt2
            · exact hl1 c h3
      · rw [h1, h2] at h
        have hle : ccost ≤ cand.Cost := not_lt.mp hn
        obtain ⟨tr, seg, htr, hlen, hhist, hcount, hchain, hmin, hearly⟩ :=
          ih _ e2 ccost csol e1 sol h hc
        refine ⟨(ccost, cand) :: tr, seg, ?_, by simp [hlen], ?_, ?_, hchain, ?_, ?_⟩
        · simp only [solveTrace, hstep, h1, h2, htr]
        · rw [hhist, hh]
        · simp [List.filter_cons, hn, hcount]
        · simp only [List.map_cons, List.foldl_cons, min_eq_left hle]
          exact hmin
        · rcases hearly with ⟨hs, hall⟩ | ⟨l1, l2, hsplit, hlt2, hl1, hl2⟩
          · left
            refine ⟨hs, ?_⟩
            intro t ht
            rcases List.mem_cons.mp ht with h3 | h3
            · rw [h3]; exact hle
            · exact hall t h3
          · right
            refine ⟨cand :: l1, l2, by simp [hsplit], hlt2, ?_, hl2⟩
            intro c hcm
            rcases List.mem_cons.mp hcm with h3 | h3
            · rw [h3]; exact lt_of_lt_of_le hlt2 hle
            · exact hl1 c h3

end ACO

namespace ACO

theorem tsp_solveStep_history (pow : F64 → F64 → F64) (rnd : Nat → ℚ) (nodes : Route)
    (depot : Node) (k : Nat) (e e1 : AntColonyOptimization) (ccost c1 : Int)
    (csol s1 cand : Solution) (hc : csol.Cost = ccost)
    (h : Tsp.solveStep pow rnd nodes depot k e ccost csol = some (e1, c1, s1, cand)) :
    c1 = min ccost cand.Cost ∧ s1.Cost = c1 ∧ e1.history = e.history ++ [s1] := by
  obtain ⟨_, _, hcase⟩ := tsp_solveStep_spec pow rnd nodes depot k e e1 ccost c1 csol s1 cand h
  rcases hcase with ⟨hlt, h1, h2, eu, ev, hu, hv, he⟩ | ⟨hn, h1, h2, h3⟩
  · obtain ⟨_, _, _, hh1⟩ := updatePheromone_frame _ _ _ hu
    obtain ⟨_, _, _, hh2⟩ := evaporatePheromone_frame _ _ hv
    refine ⟨by rw [h1, min_eq_right (le_of_lt hlt)], by rw [h2, h1], ?_⟩
    rw [he, h2]
    show ev.history ++ [cand] = e.history ++ [cand]
    rw [hh2, hh1]
  · refine ⟨by rw [h1, min_eq_left (not_lt.mp hn)], by rw [h2, h1, hc], ?_⟩
    rw [h3, h2]

theorem tsp_solveLoop_trace (pow : F64 → F64 → F64) (rnd : Nat → ℚ) (nodes : Route)
    (depot : Node) :
    ∀ (n k : Nat) (e : AntColonyOptimization) (ccost : Int) (csol : Solution)
      (e1 : AntColonyOptimization) (sol : Solution),
      Tsp.solveLoop pow rnd nodes depot n k e ccost csol = some (e1, sol) →
      csol.Cost = ccost →
      ∃ tr seg, Tsp.solveTrace pow rnd nodes depot n k e ccost csol = some tr ∧
        tr.length = n ∧ e1.history = e.history ++ seg ∧ seg.length = n ∧
        List.Chain (fun a b => b.Cost ≤ a.Cost) csol seg ∧
        ∀ i, i < n → (seg[i]?).map Solution.Cost =
          some (((tr.take (i + 1)).map (fun t => t.2.Cost)).foldl min ccost) := by
  intro n
  induction n with
  | zero =>
    intro k e ccost csol e1 sol h hc
    simp only [Tsp.solveLoop, Option.some.injEq, Prod.mk.injEq] at h
    obtain ⟨h1, h2⟩ := h
    subst h1
    exact ⟨[], [], rfl, rfl, by simp, rfl, List.Chain.nil, fun i hi => absurd hi (by omega)⟩
  | succ n ih =>
    intro k e ccost csol e1 sol h hc
    rw [tsp_solveLoop_succ] at h
    cases hstep : Tsp.solveStep pow rnd nodes depot k e ccost csol with
    | none => rw [hstep] at h; cases h
    | some r =>
      obtain ⟨e2, c2, s2, cand⟩ := r
      rw [hstep] at h
      simp only at h
      obtain ⟨hc2, hs2, hh⟩ :=
        tsp_solveStep_history pow rnd nodes depot k e e2 ccost c2 csol s2 cand hc hstep
      obtain ⟨tr, seg, htr, hlen, hhist, hseg, hchain, hmin⟩ := ih _ e2 c2 s2 e1 sol h hs2
      refine ⟨(ccost, cand) :: tr, s2 :: seg, ?_, by simp [hlen], ?_, by simp [hseg], ?_, ?_⟩
      · simp only [Tsp.solveTrace, hstep, htr]
      · rw [hhist, hh]; simp
      · refine List.Chain.cons ?_ hchain
        rw [hs2, hc2, hc]
        exact min_le_left _ _
      · intro i hi
        cases i with
        | zero =>
          simp only [List.getElem?_cons_zero, Option.map_some', Nat.zero_add,
            List.take_succ_cons, List.take_zero, List.map_cons, List.map_nil, List.foldl_cons,
            List.foldl_nil, hs2, hc2]
        | succ i =>
          have := hmin i (by omega)
          simp only [List.getElem?_cons_succ, List.take_succ_cons, List.map_cons,
            List.foldl_cons, this, hc2]

end ACO

namespace ACO

theorem Solve_inv (pow : F64 → F64 → F64) (e e1 : AntColonyOptimization) (problem : TSP)
    (shuffle : Route → Route) (rnd : Nat → ℚ) (sol : Solution)
    (h : Solve pow e problem shuffle rnd = some (e1, sol)) :
    ∃ depot rest ccost e2, problem.nodes = depot :: rest ∧
      getCost (shuffle rest) depot e.dists = some ccost ∧
      solveLoop pow rnd (shuffle rest) depot e.era.toNat 0
        { e with history := e.history ++ [{ Route := shuffle rest, Cost := ccost }] }
        ccost { Route := shuffle rest, Cost := ccost } = some (e2, sol) ∧
      e1 = { e2 with best := sol } := by
  unfold Solve at h
  split at h
  · cases h
  · rename_i depot rest hnodes
    split at h
    · cases h
    · rename_i ccost hc
      split at h
      · cases h
      · rename_i e2 csol hl
        cases h
        exact ⟨depot, rest, ccost, e2, hnodes, hc, hl, rfl⟩

theorem tsp_Solve_inv (pow : F64 → F64 → F64) (e e1 : AntColonyOptimization) (problem : TSP)
    (shuffle : Route → Route) (rnd : Nat → ℚ) (sol : Solution)
    (h : Tsp.Solve pow e problem shuffle rnd = some (e1, sol)) :
    ∃ ph depot rest ccost e2,
      Tsp.freshRows e.dists.length e.initialPheromon (List.range e.dists.length) = some ph ∧
      problem.nodes = depot :: rest ∧
      getCost (shuffle rest) depot e.dists = some ccost ∧
      Tsp.solveLoop pow rnd (shuffle rest) depot e.era.toNat 0
        { e with
          pheromone := ph
          history := e.history ++ [{ Route := shuffle rest, Cost := ccost }] }
        ccost { Route := shuffle rest, Cost := ccost } = some (e2, sol) ∧
      e1 = { e2 with best := sol } := by
  unfold Tsp.Solve at h
  split at h
  · cases h
  · rename_i ph hph
    split at h
    · cases h
    · rename_i depot rest hnodes
      split at h
      · cases h
      · rename_i ccost hc
        split at h
        · cases h
        · rename_i e2 csol hl
          cases h
          exact ⟨ph, depot, rest, ccost, e2, hph, hnodes, hc, hl, rfl⟩

theorem getCostLoop_some (dists : List (List Int)) (N : Nat) (hfull : Full N dists) :
    ∀ (route : Route) (cost : Int) (cnode : Node), cnode.id < N → (∀ n ∈ route, n.id < N) →
      ∃ c last, getCostLoop dists route cost cnode = some (c, last) ∧ last.id < N := by
  intro route
  induction route with
  | nil =>
    intro cost cnode hc _
    exact ⟨cost, cnode, rfl, hc⟩
  | cons n rest ih =>
    intro cost cnode hc hr
    have hn : n.id < N := hr n (List.mem_cons_self _ _)
    obtain ⟨d, hd⟩ := Option.isSome_iff_exists.mp (hfull cnode.id n.id hc hn)
    obtain ⟨c, last, hl, hlast⟩ := ih (wrapInt (cost + d)) n hn
      (fun m hm => hr m (List.mem_cons_of_mem _ hm))
    exact ⟨c, last, by simp only [getCostLoop, hd, hl], hlast⟩

theorem getCost_some (dists : List (List Int)) (N : Nat) (hfull : Full N dists)
    (route : Route) (depot : Node) (hne : route ≠ []) (hdepot : depot.id < N)
    (hr : ∀ n ∈ route, n.id < N) :
    ∃ c, getCost route depot dists = some c := by
  cases route with
  | nil => exact absurd rfl hne
  | cons n rest =>
    obtain ⟨c, last, hl, hlast⟩ := getCostLoop_some dists N hfull rest 0 depot hdepot
      (fun m hm => hr m (List.mem_cons_of_mem _ hm))
    obtain ⟨d, hd⟩ := Option.isSome_iff_exists.mp (hfull last.id depot.id hlast hdepot)
    exact ⟨wrapInt (c + d), by simp only [getCost, hl, hd]⟩

theorem runCall_notSolve (pow : F64 → F64 → F64) (e e1 : AntColonyOptimization) (c : Call)
    (hc : c.notSolve = true) (h : runCall pow e c = some e1) :
    e1.history = e.history ∧ e1.best = e.best := by
  cases c with
  | warmup maxiter =>
    obtain ⟨_, hb, hh⟩ := warmupIters_frame pow _ e e1 h
    exact ⟨hh, hb⟩
  | solve problem shuffle rnd => cases hc
  | reset complete =>
    obtain ⟨_, _, hb, hh⟩ := Reset_fields e e1 complete h
    exact ⟨hh, hb⟩

theorem runCalls_notSolve (pow : F64 → F64 → F64) :
    ∀ (cs : List Call) (e e1 : AntColonyOptimization), (∀ c ∈ cs, c.notSolve = true) →
      runCalls pow e cs = some e1 → e1.history = e.history ∧ e1.best = e.best := by
  intro cs
  induction cs with
  | nil =>
    intro e e1 _ h
    simp [runCalls] at h
    subst h
    exact ⟨rfl, rfl⟩
  | cons c cs ih =>
    intro e e1 hall h
    simp only [runCalls] at h
    split at h
    · cases h
    · rename_i e2 h2
      obtain ⟨hh, hb⟩ := runCall_notSolve pow e e2 c (hall c (List.mem_cons_self _ _)) h2
      obtain ⟨hh1, hb1⟩ := ih e2 e1 (fun c1 hc1 => hall c1 (List.mem_cons_of_mem _ hc1)) h
      exact ⟨hh1.trans hh, hb1.trans hb⟩

end ACO

namespace ACO

/-- C14 (falsified as stated): `History` is never cleared.  With one iteration per
call on the triangle, a first `Solve` from the order `[1, 2]` records cost 6 and a
second `Solve` from the order `[2, 1]` appends cost 10: the costs 6, 10 of `History`
are not non-increasing. -/
theorem History_not_monotone_across_calls :
    (runCalls powNat (exEngine 1 exTriangle.DistanceMatrix)
        [.solve exTriangle id (fun _ => 1 / 2),
          .solve exTriangle List.reverse (fun _ => 1 / 2)]).map
      (fun e => (History e).map Solution.Cost) = some [6, 10] ∧
    ¬ ((10 : Int) ≤ 6) := by
  decide!

/-- C14 (as amended): the entries that one call of `Solve` appends to `History` have
non-increasing costs, each at most the cost of the entry appended before it by the
same call; this holds for `aco.go` and for `tsp/aco.go`. -/
theorem Solve_history_monotone_per_call (pow : F64 → F64 → F64)
    (self : AntColonyOptimization) (problem : TSP) (shuffle : Route → Route) (rnd : Nat → ℚ) :
    ((Solve pow self problem shuffle rnd).isSome = true →
      ∃ e1 sol seg, Solve pow self problem shuffle rnd = some (e1, sol) ∧
        History e1 = History self ++ seg ∧
        seg.Chain' (fun a b => b.Cost ≤ a.Cost)) ∧
    ((Tsp.Solve pow self problem shuffle rnd).isSome = true →
      ∃ e1 sol seg, Tsp.Solve pow self problem shuffle rnd = some (e1, sol) ∧
        History e1 = History self ++ seg ∧
        seg.Chain' (fun a b => b.Cost ≤ a.Cost)) := by
  constructor
  · intro h
    obtain ⟨r, hr⟩ := Option.isSome_iff_exists.mp h
    obtain ⟨e1, sol⟩ := r
    obtain ⟨depot, rest, ccost, e2, _, _, hl, he1⟩ := Solve_inv pow self e1 problem shuffle rnd
      sol hr
    obtain ⟨tr, seg, _, _, hhist, _, hchain, _, _⟩ :=
      solveLoop_trace pow rnd (shuffle rest) depot _ _ _ _ _ e2 sol hl rfl
    refine ⟨e1, sol, { Route := shuffle rest, Cost := ccost } :: seg, hr, ?_, hchain⟩
    rw [he1]
    show e2.history = self.history ++ _
    rw [hhist]
    simp
  · intro h
    obtain ⟨r, hr⟩ := Option.isSome_iff_exists.mp h
    obtain ⟨e1, sol⟩ := r
    obtain ⟨ph, depot, rest, ccost, e2, _, _, _, hl, he1⟩ :=
      tsp_Solve_inv pow self e1 problem shuffle rnd sol hr
    obtain ⟨tr, seg, _, _, hhist, _, hchain, _⟩ :=
      tsp_solveLoop_trace pow rnd (shuffle rest) depot _ _ _ _ _ e2 sol hl rfl
    refine ⟨e1, sol, { Route := shuffle rest, Cost := ccost } :: seg, hr, ?_, hchain⟩
    rw [he1]
    show e2.history = self.history ++ _
    rw [hhist]
    simp

theorem Solve_history_monotone_per_call_witness :
    ((Solve powNat (exEngine 1 exTriangle.DistanceMatrix) exTriangle List.reverse
        (fun _ => 9 / 10)).isSome = true ∧
      ∃ e1 sol seg, Solve powNat (exEngine 1 exTriangle.DistanceMatrix) exTriangle
          List.reverse (fun _ => 9 / 10) = some (e1, sol) ∧
        History e1 = History (exEngine 1 exTriangle.DistanceMatrix) ++ seg ∧
        seg.Chain' (fun a b => b.Cost ≤ a.Cost)) ∧
    ((Tsp.Solve powNat (exEngine 1 exTriangle.DistanceMatrix) exTriangle List.reverse
        (fun _ => 9 / 10)).isSome = true ∧
      ∃ e1 sol seg, Tsp.Solve powNat (exEngine 1 exTriangle.DistanceMatrix) exTriangle
          List.reverse (fun _ => 9 / 10) = some (e1, sol) ∧
        History e1 = History (exEngine 1 exTriangle.DistanceMatrix) ++ seg ∧
        seg.Chain' (fun a b => b.Cost ≤ a.Cost)) :=
  ⟨⟨by decide!,
      (Solve_history_monotone_per_call powNat (exEngine 1 exTriangle.DistanceMatrix)
        exTriangle List.reverse (fun _ => 9 / 10)).1 (by decide!)⟩,
    ⟨by decide!,
      (Solve_history_monotone_per_call powNat (exEngine 1 exTriangle.DistanceMatrix)
        exTriangle List.reverse (fun _ => 9 / 10)).2 (by decide!)⟩⟩

/-- C16: when `Solve` returns, the returned solution is the earliest of the initial
solution and the `era` candidates of the call, in the order they were built, that
has the least cost; its cost is the minimum of all these costs; and `Best` returns
it afterwards. -/
theorem Solve_returns_earliest_minimum (pow : F64 → F64 → F64)
    (self : AntColonyOptimization) (problem : TSP) (shuffle : Route → Route) (rnd : Nat → ℚ)
    (h : (Solve pow self problem shuffle rnd).isSome = true) :
    ∃ e1 sol depot rest ccost tr, Solve pow self problem shuffle rnd = some (e1, sol) ∧
      problem.nodes = depot :: rest ∧
      getCost (shuffle rest) depot self.dists = some ccost ∧
      SolveTrace pow self problem shuffle rnd = some tr ∧ tr.length = self.era.toNat ∧
      sol.Cost = (tr.map (fun t => t.2.Cost)).foldl min ccost ∧
      (∃ l1 l2, ({ Route := shuffle rest, Cost := ccost } : Solution) :: tr.map Prod.snd
          = l1 ++ sol :: l2 ∧
        (∀ c ∈ l1, sol.Cost < c.Cost) ∧ ∀ c ∈ l2, sol.Cost ≤ c.Cost) ∧
      Best e1 = sol := by
  obtain ⟨r, hr⟩ := Option.isSome_iff_exists.mp h
  obtain ⟨e1, sol⟩ := r
  obtain ⟨depot, rest, ccost, e2, hnodes, hc, hl, he1⟩ :=
    Solve_inv pow self e1 problem shuffle rnd sol hr
  obtain ⟨tr, seg, htr, hlen, _, _, _, hmin, hearly⟩ :=
    solveLoop_trace pow rnd (shuffle rest) depot _ _ _ _ _ e2 sol hl rfl
  refine ⟨e1, sol, depot, rest, ccost, tr, hr, hnodes, hc, ?_, hlen, hmin, ?_, by rw [he1]; rfl⟩
  · simp only [SolveTrace, hnodes, hc]
    exact htr
  · rcases hearly with ⟨hs, hall⟩ | ⟨l1, l2, hsplit, hlt, hl1, hl2⟩
    · refine ⟨[], tr.map Prod.snd, by rw [hs]; rfl, by simp, ?_⟩
      intro c hcm
      obtain ⟨t, ht, htc⟩ := List.mem_map.mp hcm
      rw [← htc, hs]
      exact hall t ht
    · refine ⟨{ Route := shuffle rest, Cost := ccost } :: l1, l2, by rw [hsplit]; rfl, ?_, hl2⟩
      intro c hcm
      rcases List.mem_cons.mp hcm with h3 | h3
      · rw [h3]; exact hlt
      · exact hl1 c h3

theorem Solve_returns_earliest_minimum_witness :
    (Solve powNat (exEngine 2 exTriangle.DistanceMatrix) exTriangle List.reverse
      (fun _ => 9 / 10)).isSome = true ∧
    ∃ e1 sol depot rest ccost tr,
      Solve powNat (exEngine 2 exTriangle.DistanceMatrix) exTriangle List.reverse
        (fun _ => 9 / 10) = some (e1, sol) ∧
      exTriangle.nodes = depot :: rest ∧
      getCost (List.reverse rest) depot (exEngine 2 exTriangle.DistanceMatrix).dists
        = some ccost ∧
      SolveTrace powNat (exEngine 2 exTriangle.DistanceMatrix) exTriangle List.reverse
        (fun _ => 9 / 10) = some tr ∧
      tr.length = (exEngine 2 exTriangle.DistanceMatrix).era.toNat ∧
      sol.Cost = (tr.map (fun t => t.2.Cost)).foldl min ccost ∧
      (∃ l1 l2, ({ Route := List.reverse rest, Cost := ccost } : Solution) :: tr.map Prod.snd
          = l1 ++ sol :: l2 ∧
        (∀ c ∈ l1, sol.Cost < c.Cost) ∧ ∀ c ∈ l2, sol.Cost ≤ c.Cost) ∧
      Best e1 = sol :=
  ⟨by decide!, Solve_returns_earliest_minimum powNat (exEngine 2 exTriangle.DistanceMatrix)
    exTriangle List.reverse (fun _ => 9 / 10) (by decide!)⟩

end ACO

namespace ACO

/-- C15: an engine built with `era = 0`, after `Warmup` and `Reset` calls only, on a
problem with a depot and at least one more node, all with valid ids.  `Solve` returns
the shuffled order of the non-depot nodes with the `getCost` of that order; no
iteration runs, so no candidate is built; the live pheromone matrix is unchanged;
`History` holds this solution and nothing else, and `Best` returns it. -/
theorem Solve_era_zero (pow : F64 → F64 → F64) (dists : List (List Int))
    (ro Q a b pherInit : F64) (calls : List Call) (problem : TSP) (shuffle : Route → Route)
    (rnd : Nat → ℚ) (N : Nat) (depot : Node) (rest : Route)
    (hcalls : ∀ c ∈ calls, c.notSolve = true)
    (hrun : (runCalls pow (NewACO 0 dists ro Q a b pherInit) calls).isSome = true)
    (hnodes : problem.nodes = depot :: rest) (hrest : rest ≠ [])
    (hperm : (shuffle rest).Perm rest)
    (hfull : Full N dists) (hdepot : depot.id < N) (hids : ∀ n ∈ rest, n.id < N) :
    ∃ e e1 c, runCalls pow (NewACO 0 dists ro Q a b pherInit) calls = some e ∧
      getCost (shuffle rest) depot dists = some c ∧
      Solve pow e problem shuffle rnd = some (e1, { Route := shuffle rest, Cost := c }) ∧
      SolveTrace pow e problem shuffle rnd = some [] ∧
      e1.pheromone = e.pheromone ∧
      History e1 = [{ Route := shuffle rest, Cost := c }] ∧
      Best e1 = { Route := shuffle rest, Cost := c } := by
  obtain ⟨e, he⟩ := Option.isSome_iff_exists.mp hrun
  obtain ⟨hf, _⟩ := runCalls_frame pow calls _ e he
  obtain ⟨hh, _⟩ := runCalls_notSolve pow calls _ e hcalls he
  have hd : e.dists = dists := hf.dists
  have hera : e.era = 0 := hf.era
  have hhist : e.history = [] := hh
  have hne : shuffle rest ≠ [] := by
    intro h
    rw [h] at hperm
    exact hrest (List.Perm.nil_eq hperm).symm
  obtain ⟨c, hc⟩ := getCost_some dists N hfull (shuffle rest) depot hne hdepot
    (fun n hn => hids n (hperm.mem_iff.mp hn))
  refine ⟨e, { e with history := e.history ++ [{ Route := shuffle rest, Cost := c }],
                      best := { Route := shuffle rest, Cost := c } }, c, he, hc, ?_, ?_, rfl, ?_,
    rfl⟩
  · simp only [Solve, hnodes, hd, hc, hera, Int.toNat_zero, solveLoop]
  · simp only [SolveTrace, hnodes, hd, hc, hera, Int.toNat_zero, solveTrace]
  · show e.history ++ [_] = [_]
    rw [hhist]
    rfl

theorem exTriangle_full : Full 3 exTriangle.DistanceMatrix := by
  intro a b ha hb
  interval_cases a <;> interval_cases b <;> decide!

theorem Solve_era_zero_witness :
    (∀ c ∈ [Call.warmup 1, Call.reset true], c.notSolve = true) ∧
    (runCalls powNat
      (NewACO 0 exTriangle.DistanceMatrix (.fin (9 / 10)) (.fin 100) (.fin 1) (.fin 2)
        (.fin (1 / 10))) [.warmup 1, .reset true]).isSome = true ∧
    exTriangle.nodes = { id := 0, x := 0, y := 0 } ::
      [{ id := 1, x := 3, y := 4 }, { id := 2, x := 3, y := 0 }] ∧
    ([{ id := 1, x := 3, y := 4 }, { id := 2, x := 3, y := 0 }] : Route) ≠ [] ∧
    (List.reverse ([{ id := 1, x := 3, y := 4 }, { id := 2, x := 3, y := 0 }] : Route)).Perm
      [{ id := 1, x := 3, y := 4 }, { id := 2, x := 3, y := 0 }] ∧
    Full 3 exTriangle.DistanceMatrix ∧
    ({ id := 0, x := 0, y := 0 } : Node).id < 3 ∧
    (∀ n ∈ ([{ id := 1, x := 3, y := 4 }, { id := 2, x := 3, y := 0 }] : Route), n.id < 3) ∧
    ∃ e e1 c, runCalls powNat
        (NewACO 0 exTriangle.DistanceMatrix (.fin (9 / 10)) (.fin 100) (.fin 1) (.fin 2)
          (.fin (1 / 10))) [.warmup 1, .reset true] = some e ∧
      getCost (List.reverse [{ id := 1, x := 3, y := 4 }, { id := 2, x := 3, y := 0 }])
        { id := 0, x := 0, y := 0 } exTriangle.DistanceMatrix = some c ∧
      Solve powNat e exTriangle List.reverse (fun _ => 1 / 2) = some (e1,
        { Route := List.reverse [{ id := 1, x := 3, y := 4 }, { id := 2, x := 3, y := 0 }],
          Cost := c }) ∧
      SolveTrace powNat e exTriangle List.reverse (fun _ => 1 / 2) = some [] ∧
      e1.pheromone = e.pheromone ∧
      History e1 =
        [{ Route := List.reverse [{ id := 1, x := 3, y := 4 }, { id := 2, x := 3, y := 0 }],
           Cost := c }] ∧
      Best e1 =
        { Route := List.reverse [{ id := 1, x := 3, y := 4 }, { id := 2, x := 3, y := 0 }],
          Cost := c } :=
  ⟨by simp [Call.notSolve], by decide!, rfl, by decide, List.reverse_perm _, exTriangle_full,
    by decide, by decide,
    Solve_era_zero powNat exTriangle.DistanceMatrix (.fin (9 / 10)) (.fin 100) (.fin 1)
      (.fin 2) (.fin (1 / 10)) [.warmup 1, .reset true] exTriangle List.reverse
      (fun _ => 1 / 2) 3 { id := 0, x := 0, y := 0 }
      [{ id := 1, x := 3, y := 4 }, { id := 2, x := 3, y := 0 }]
      (by simp [Call.notSolve]) (by decide!) rfl (by decide) (List.reverse_perm _)
      exTriangle_full (by decide) (by decide)⟩

end ACO

namespace ACO

/-- C20: one call of `Solve` that returns, with `era ≥ 0`.  In `tsp/aco.go` it runs
`era` iterations and appends `era + 1` entries to `History`; the `k`-th of them
(`k = 0..era`) costs the minimum of the initial cost and the costs of the first `k`
candidates.  In `aco.go` it runs `era` iterations too and appends one entry plus one
per iteration whose candidate is strictly below the best cost before it. -/
theorem Solve_history_entries (pow : F64 → F64 → F64) (self : AntColonyOptimization)
    (problem : TSP) (shuffle : Route → Route) (rnd : Nat → ℚ) (hera : 0 ≤ self.era) :
    ((Tsp.Solve pow self problem shuffle rnd).isSome = true →
      ∃ e1 sol depot rest ccost tr seg,
        Tsp.Solve pow self problem shuffle rnd = some (e1, sol) ∧
        problem.nodes = depot :: rest ∧
        getCost (shuffle rest) depot self.dists = some ccost ∧
        Tsp.SolveTrace pow self problem shuffle rnd = some tr ∧
        (tr.length : Int) = self.era ∧
        History e1 = History self ++ seg ∧ (seg.length : Int) = self.era + 1 ∧
        ∀ k, k ≤ tr.length → (seg[k]?).map Solution.Cost =
          some (((tr.take k).map (fun t => t.2.Cost)).foldl min ccost)) ∧
    ((Solve pow self problem shuffle rnd).isSome = true →
      ∃ e1 sol tr seg, Solve pow self problem shuffle rnd = some (e1, sol) ∧
        SolveTrace pow self problem shuffle rnd = some tr ∧
        (tr.length : Int) = self.era ∧
        History e1 = History self ++ seg ∧
        seg.length = 1 + (tr.filter (fun t => decide (t.2.Cost < t.1))).length) := by
  constructor
  · intro h
    obtain ⟨r, hr⟩ := Option.isSome_iff_exists.mp h
    obtain ⟨e1, sol⟩ := r
    obtain ⟨ph, depot, rest, ccost, e2, hph, hnodes, hc, hl, he1⟩ :=
      tsp_Solve_inv pow self e1 problem shuffle rnd sol hr
    obtain ⟨tr, seg, htr, hlen, hhist, hseg, _, hmin⟩ :=
      tsp_solveLoop_trace pow rnd (shuffle rest) depot _ _ _ _ _ e2 sol hl rfl
    refine ⟨e1, sol, depot, rest, ccost, tr, { Route := shuffle rest, Cost := ccost } :: seg,
      hr, hnodes, hc, ?_, ?_, ?_, ?_, ?_⟩
    · simp only [Tsp.SolveTrace, hph, hnodes, hc]
      exact htr
    · rw [hlen]
      exact Int.toNat_of_nonneg hera
    · rw [he1]
      show e2.history = self.history ++ _
      rw [hhist]
      simp
    · simp only [List.length_cons, hseg, Nat.cast_add, Nat.cast_one,
        Int.toNat_of_nonneg hera]
    · intro k hk
      cases k with
      | zero => simp
      | succ k =>
        have := hmin k (by omega)
        simpa using this
  · intro h
    obtain ⟨r, hr⟩ := Option.isSome_iff_exists.mp h
    obtain ⟨e1, sol⟩ := r
    obtain ⟨depot, rest, ccost, e2, hnodes, hc, hl, he1⟩ :=
      Solve_inv pow self e1 problem shuffle rnd sol hr
    obtain ⟨tr, seg, htr, hlen, hhist, hcount, _, _, _⟩ :=
      solveLoop_trace pow rnd (shuffle rest) depot _ _ _ _ _ e2 sol hl rfl
    refine ⟨e1, sol, tr, { Route := shuffle rest, Cost := ccost } :: seg, hr, ?_, ?_, ?_, ?_⟩
    · simp only [SolveTrace, hnodes, hc]
      exact htr
    · rw [hlen]
      exact Int.toNat_of_nonneg hera
    · rw [he1]
      show e2.history = self.history ++ _
      rw [hhist]
      simp
    · simp only [List.length_cons, hcount]
      omega

theorem Solve_history_entries_witness :
    (0 : Int) ≤ (exEngine 2 exTriangle.DistanceMatrix).era ∧
    ((Tsp.Solve powNat (exEngine 2 exTriangle.DistanceMatrix) exTriangle List.reverse
        (fun _ => 9 / 10)).isSome = true ∧
      ∃ e1 sol depot rest ccost tr seg,
        Tsp.Solve powNat (exEngine 2 exTriangle.DistanceMatrix) exTriangle List.reverse
          (fun _ => 9 / 10) = some (e1, sol) ∧
        exTriangle.nodes = depot :: rest ∧
        getCost (List.reverse rest) depot (exEngine 2 exTriangle.DistanceMatrix).dists
          = some ccost ∧
        Tsp.SolveTrace powNat (exEngine 2 exTriangle.DistanceMatrix) exTriangle List.reverse
          (fun _ => 9 / 10) = some tr ∧
        (tr.length : Int) = (exEngine 2 exTriangle.DistanceMatrix).era ∧
        History e1 = History (exEngine 2 exTriangle.DistanceMatrix) ++ seg ∧
        (seg.length : Int) = (exEngine 2 exTriangle.DistanceMatrix).era + 1 ∧
        ∀ k, k ≤ tr.length → (seg[k]?).map Solution.Cost =
          some (((tr.take k).map (fun t => t.2.Cost)).foldl min ccost)) ∧
    ((Solve powNat (exEngine 2 exTriangle.DistanceMatrix) exTriangle List.reverse
        (fun _ => 9 / 10)).isSome = true ∧
      ∃ e1 sol tr seg,
        Solve powNat (exEngine 2 exTriangle.DistanceMatrix) exTriangle List.reverse
          (fun _ => 9 / 10) = some (e1, sol) ∧
        SolveTrace powNat (exEngine 2 exTriangle.DistanceMatrix) exTriangle List.reverse
          (fun _ => 9 / 10) = some tr ∧
        (tr.length : Int) = (exEngine 2 exTriangle.DistanceMatrix).era ∧
        History e1 = History (exEngine 2 exTriangle.DistanceMatrix) ++ seg ∧
        seg.length = 1 + (tr.filter (fun t => decide (t.2.Cost < t.1))).length) :=
  ⟨by decide,
    ⟨by decide!,
      (Solve_history_entries powNat (exEngine 2 exTriangle.DistanceMatrix) exTriangle
        List.reverse (fun _ => 9 / 10) (by decide)).1 (by decide!)⟩,
    ⟨by decide!,
      (Solve_history_entries powNat (exEngine 2 exTriangle.DistanceMatrix) exTriangle
        List.reverse (fun _ => 9 / 10) (by decide)).2 (by decide!)⟩⟩

/-- C17 (code defect, the one of C10): with `pherInit = 0.1 > 0`, `Q = 100`,
`ro = 0.9`, `a = 1`, `b = 2` and the distance matrix of the triangle (zero diagonal,
positive elsewhere), one `Warmup(1)` leaves the diagonal entry `pheromone[0][0]`
non-finite: the test `pheromone[0][0] >= 0` is false in the state reached. -/
theorem Warmup_breaks_nonnegativity :
    (runCalls powNat (exEngine 1 exTriangle.DistanceMatrix) [.warmup 1]).map
      (fun e => (at2 e.pheromone 0 0, (at2 e.pheromone 0 0).map (fun x => fge x (.fin 0))))
      = some (some .nan, some false) ∧
    (runCalls powNat (exEngine 1 exTriangle.DistanceMatrix) []).map
      (fun e => (at2 e.pheromone 0 0).map (fun x => fge x (.fin 0))) = some (some true) := by
  decide!

/-- C18 (code defect, the one of C1): for a route of length 1, `getCost` skips the
only node and returns `dist[depot][depot]`.  Two distance matrices that differ on the
diagonal only give the costs 0 and 7 for the route `[1]` from the depot 0. -/
theorem getCost_reads_diagonal :
    getCost [{ id := 1, x := 3, y := 4 }] { id := 0, x := 0, y := 0 } [[0, 5], [5, 0]]
      = some 0 ∧
    getCost [{ id := 1, x := 3, y := 4 }] { id := 0, x := 0, y := 0 } [[7, 5], [5, 0]]
      = some 7 ∧
    (∀ i j, i ≠ j → at2 [[(0 : Int), 5], [5, 0]] i j = at2 [[(7 : Int), 5], [5, 0]] i j) := by
  refine ⟨by decide, by decide, ?_⟩
  intro i j hij
  match i, j with
  | 0, 0 => exact absurd rfl hij
  | 0, 1 => rfl
  | 0, j + 2 => rfl
  | 1, 0 => rfl
  | 1, 1 => exact absurd rfl hij
  | 1, j + 2 => rfl
  | i + 2, _ => rfl

end ACO

namespace ACO

/-- C19: an iteration of `Solve` whose candidate `route`, a non-empty list of
distinct valid non-depot nodes, strictly improves.  The iteration returns, the
candidate becomes the best solution, and reinforcement comes before evaporation:
each live entry `[a][b]` becomes `ro * (old + Q / dist[a][b])` when `(a, b)` is an
edge of the closed tour `0 -> route[0] -> ... -> route[last] -> 0` and `ro * old`
otherwise, so the fresh deposit is evaporated too. -/
theorem solveStep_reinforces_then_evaporates (pow : F64 → F64 → F64) (rnd : Nat → ℚ)
    (nodes : Route) (depot : Node) (k : Nat) (self : AntColonyOptimization) (ccost : Int)
    (csol : Solution) (route : Route) (cost : Int) (D : Nat → Nat → Int)
    (hroute : getRoute pow self rnd k nodes depot = some route)
    (hcost : getCost route depot self.dists = some cost) (hlt : cost < ccost)
    (hne : route ≠ []) (hnd : (route.map Node.id).Nodup)
    (hids : ∀ n ∈ route, 0 < n.id ∧ n.id < self.dists.length)
    (hD : ∀ a b, a < self.dists.length → b < self.dists.length →
      at2 self.dists a b = some (D a b))
    (hshape : shape self.pheromone = List.replicate self.dists.length self.dists.length) :
    ∃ e1, solveStep pow rnd nodes depot k self ccost csol
        = some (e1, cost, { Route := route, Cost := cost }, { Route := route, Cost := cost }) ∧
      ∀ a b, at2 e1.pheromone a b =
        (at2 self.pheromone a b).map (fun x =>
          fmul self.ro
            (if (a, b) ∈ tourEdges route then fadd x (fdiv self.Q (ofInt (D a b))) else x)) := by
  have hfull : Full self.dists.length self.pheromone :=
    fun i j hi hj => (shape_square self.pheromone _ hshape i j).mpr ⟨hi, hj⟩
  obtain ⟨eu, hu, hatu, _, _, hdu⟩ :=
    updatePheromone_at2 self route self.dists.length D hne hnd hids hD hfull
  obtain ⟨hfu, _, _, _⟩ := updatePheromone_frame self eu route hu
  have hshapeu : shape eu.pheromone = List.replicate eu.dists.length eu.dists.length := by
    rw [hfu.shapePheromone, hdu]
    exact hshape
  obtain ⟨ev, hv, hatv, _, _, _⟩ := evaporatePheromone_at2 eu hshapeu
  refine ⟨{ ev with history := ev.history ++ [{ Route := route, Cost := cost }] }, ?_, ?_⟩
  · simp only [solveStep, hroute, hcost, hlt, if_true, hu, hv]
  · intro a b
    show at2 ev.pheromone a b = _
    rw [hatv a b, hatu a b, hfu.ro]
    by_cases hm : (a, b) ∈ tourEdges route
    · simp only [hm, if_true, Option.map_map]
      rfl
    · simp only [hm, if_false]

theorem solveStep_reinforces_then_evaporates_witness :
    getRoute powNat (exEngine 1 exTriangle.DistanceMatrix) (fun _ => 9 / 10) 0
        [{ id := 2, x := 3, y := 0 }, { id := 1, x := 3, y := 4 }] { id := 0, x := 0, y := 0 }
      = some [{ id := 1, x := 3, y := 4 }, { id := 2, x := 3, y := 0 }] ∧
    getCost [{ id := 1, x := 3, y := 4 }, { id := 2, x := 3, y := 0 }]
        { id := 0, x := 0, y := 0 } (exEngine 1 exTriangle.DistanceMatrix).dists = some 6 ∧
    (6 : Int) < 10 ∧
    ([{ id := 1, x := 3, y := 4 }, { id := 2, x := 3, y := 0 }] : Route) ≠ [] ∧
    (([{ id := 1, x := 3, y := 4 }, { id := 2, x := 3, y := 0 }] : Route).map Node.id).Nodup ∧
    (∀ n ∈ ([{ id := 1, x := 3, y := 4 }, { id := 2, x := 3, y := 0 }] : Route),
      0 < n.id ∧ n.id < (exEngine 1 exTriangle.DistanceMatrix).dists.length) ∧
    (∀ a b, a < (exEngine 1 exTriangle.DistanceMatrix).dists.length →
      b < (exEngine 1 exTriangle.DistanceMatrix).dists.length →
      at2 (exEngine 1 exTriangle.DistanceMatrix).dists a b
        = some (distOf exTriangle.DistanceMatrix a b)) ∧
    shape (exEngine 1 exTriangle.DistanceMatrix).pheromone =
      List.replicate (exEngine 1 exTriangle.DistanceMatrix).dists.length
        (exEngine 1 exTriangle.DistanceMatrix).dists.length ∧
    ∃ e1, solveStep powNat (fun _ => 9 / 10)
        [{ id := 2, x := 3, y := 0 }, { id := 1, x := 3, y := 4 }] { id := 0, x := 0, y := 0 }
        0 (exEngine 1 exTriangle.DistanceMatrix) 10
        { Route := [{ id := 2, x := 3, y := 0 }, { id := 1, x := 3, y := 4 }], Cost := 10 }
        = some (e1, 6,
          { Route := [{ id := 1, x := 3, y := 4 }, { id := 2, x := 3, y := 0 }], Cost := 6 },
          { Route := [{ id := 1, x := 3, y := 4 }, { id := 2, x := 3, y := 0 }], Cost := 6 }) ∧
      ∀ a b, at2 e1.pheromone a b =
        (at2 (exEngine 1 exTriangle.DistanceMatrix).pheromone a b).map (fun x =>
          fmul (exEngine 1 exTriangle.DistanceMatrix).ro
            (if (a, b) ∈ tourEdges
                [{ id := 1, x := 3, y := 4 }, { id := 2, x := 3, y := 0 }] then
              fadd x (fdiv (exEngine 1 exTriangle.DistanceMatrix).Q
                (ofInt (distOf exTriangle.DistanceMatrix a b)))
            else x)) :=
  ⟨by decide!, by decide!, by decide, by decide, by decide, by decide, (exEngine_at2 1).1,
    by decide!,
    solveStep_reinforces_then_evaporates powNat (fun _ => 9 / 10)
      [{ id := 2, x := 3, y := 0 }, { id := 1, x := 3, y := 4 }] { id := 0, x := 0, y := 0 } 0
      (exEngine 1 exTriangle.DistanceMatrix) 10
      { Route := [{ id := 2, x := 3, y := 0 }, { id := 1, x := 3, y := 4 }], Cost := 10 }
      [{ id := 1, x := 3, y := 4 }, { id := 2, x := 3, y := 0 }] 6
      (distOf exTriangle.DistanceMatrix) (by decide!) (by decide!) (by decide) (by decide)
      (by decide) (by decide) (exEngine_at2 1).1 (by decide!)⟩

end ACO

namespace ACO

/-! ## Where the diagonal of the distance matrix is not read -/

theorem getCostLoop_offdiag (d1 d2 : List (List Int))
    (hagree : ∀ i j, i ≠ j → at2 d1 i j = at2 d2 i j) :
    ∀ (route : Route) (cost : Int) (cnode : Node), ((cnode :: route).map Node.id).Nodup →
      getCostLoop d1 route cost cnode = getCostLoop d2 route cost cnode ∧
      ∀ c last, getCostLoop d1 route cost cnode = some (c, last) →
        last ∈ cnode :: route ∧ (route ≠ [] → last ∈ route) := by
  intro route
  induction route with
  | nil =>
    intro cost cnode _
    refine ⟨rfl, ?_⟩
    intro c last h
    simp only [getCostLoop, Option.some.injEq, Prod.mk.injEq] at h
    exact ⟨by simp [h.2], fun hne => absurd rfl hne⟩
  | cons n rest ih =>
    intro cost cnode hnd
    have hne : cnode.id ≠ n.id := by
      intro h
      simp only [List.map_cons, List.nodup_cons, List.mem_cons, not_or] at hnd
      exact hnd.1.1 h
    have hnd1 : ((n :: rest).map Node.id).Nodup := by
      simp only [List.map_cons] at hnd
      exact (List.nodup_cons.mp hnd).2
    simp only [getCostLoop, hagree cnode.id n.id hne]
    cases hd : at2 d2 cnode.id n.id with
    | none => exact ⟨rfl, fun c last h => by cases h⟩
    | some d =>
      simp only
      obtain ⟨heq, hlast⟩ := ih (wrapInt (cost + d)) n hnd1
      refine ⟨heq, ?_⟩
      intro c last h
      have := (hlast c last h).1
      exact ⟨List.mem_cons_of_mem _ this, fun _ => this⟩

/-- For a route of at least two distinct non-depot nodes `getCost` reads off-diagonal
distances only. -/
theorem getCost_offdiag (d1 d2 : List (List Int))
    (hagree : ∀ i j, i ≠ j → at2 d1 i j = at2 d2 i j) (n m : Node) (rest : Route)
    (depot : Node) (hnd : ((depot :: m :: rest).map Node.id).Nodup) :
    getCost (n :: m :: rest) depot d1 = getCost (n :: m :: rest) depot d2 := by
  obtain ⟨heq, hlast⟩ := getCostLoop_offdiag d1 d2 hagree (m :: rest) 0 depot hnd
  simp only [getCost, ← heq]
  cases hl : getCostLoop d1 (m :: rest) 0 depot with
  | none => rfl
  | some r =>
    obtain ⟨c, last⟩ := r
    have hmem := (hlast c last hl).2 (List.cons_ne_nil _ _)
    have hne : last.id ≠ depot.id := by
      intro h
      simp only [List.map_cons, List.nodup_cons] at hnd
      have hm : last.id ∈ m.id :: rest.map Node.id := by
        have := List.mem_map_of_mem Node.id hmem
        simpa using this
      rw [h] at hm
      exact hnd.1 hm
    simp only [hagree last.id depot.id hne]

end ACO

namespace ACO

/-! ## Failure on an empty route -/

/-- C21: `getCost` returns for every non-empty route whose ids, like the id of the
depot, are valid indices of a full `N x N` distance matrix; it fails on the empty
route (`route[1:]` is out of range); so `Solve` fails, whatever the engine and its
`era`, on a problem whose only node is the depot, in `aco.go` and in `tsp/aco.go`. -/
theorem getCost_fails_on_empty_route (dists : List (List Int)) (N : Nat) (depot : Node) :
    (∀ route : Route, route ≠ [] → Full N dists → depot.id < N → (∀ n ∈ route, n.id < N) →
      ∃ c, getCost route depot dists = some c) ∧
    getCost [] depot dists = none ∧
    (∀ (pow : F64 → F64 → F64) (self : AntColonyOptimization) (problem : TSP)
      (shuffle : Route → Route) (rnd : Nat → ℚ), problem.nodes = [depot] → shuffle [] = [] →
      Solve pow self problem shuffle rnd = none ∧
      Tsp.Solve pow self problem shuffle rnd = none) := by
  refine ⟨?_, rfl, ?_⟩
  · intro route hne hfull hdepot hids
    exact getCost_some dists N hfull route depot hne hdepot hids
  · intro pow self problem shuffle rnd hnodes hsh
    constructor
    · simp only [Solve, hnodes, hsh, getCost]
    · simp only [Tsp.Solve, hnodes, hsh, getCost]
      cases Tsp.freshRows self.dists.length self.initialPheromon
          (List.range self.dists.length) with
      | none => rfl
      | some ph => rfl

theorem getCost_fails_on_empty_route_witness :
    (([{ id := 1, x := 3, y := 4 }] : Route) ≠ [] ∧ Full 3 exTriangle.DistanceMatrix ∧
      ({ id := 0, x := 0, y := 0 } : Node).id < 3 ∧
      (∀ n ∈ ([{ id := 1, x := 3, y := 4 }] : Route), n.id < 3) ∧
      ∃ c, getCost [{ id := 1, x := 3, y := 4 }] { id := 0, x := 0, y := 0 }
        exTriangle.DistanceMatrix = some c) ∧
    (({ space := 10, nodes := [{ id := 0, x := 0, y := 0 }] } : TSP).nodes
        = [{ id := 0, x := 0, y := 0 }] ∧
      (id : Route → Route) [] = [] ∧
      Solve powNat (exEngine 3 exTriangle.DistanceMatrix)
        { space := 10, nodes := [{ id := 0, x := 0, y := 0 }] } id (fun _ => 1 / 2) = none ∧
      Tsp.Solve powNat (exEngine 3 exTriangle.DistanceMatrix)
        { space := 10, nodes := [{ id := 0, x := 0, y := 0 }] } id (fun _ => 1 / 2) = none) :=
  ⟨⟨by decide, exTriangle_full, by decide, by decide,
      (getCost_fails_on_empty_route exTriangle.DistanceMatrix 3 { id := 0, x := 0, y := 0 }).1
        [{ id := 1, x := 3, y := 4 }] (by decide) exTriangle_full (by decide) (by decide)⟩,
    ⟨rfl, rfl,
      (getCost_fails_on_empty_route exTriangle.DistanceMatrix 3
        { id := 0, x := 0, y := 0 }).2.2 powNat (exEngine 3 exTriangle.DistanceMatrix)
        { space := 10, nodes := [{ id := 0, x := 0, y := 0 }] } id (fun _ => 1 / 2) rfl rfl⟩⟩

end ACO

namespace ACO

/-! ## Route construction: a pass without a selection -/

theorem selectLoop_none_iff (r totalGrade : F64) :
    ∀ (gs : List F64) (os : List Node) (j0 : Nat) (cum : F64), gs.length = os.length →
      (selectLoop r totalGrade gs os j0 cum = none ↔
        ∀ j, j < os.length →
          fge (((gs.take (j + 1)).map (fun g => fdiv g totalGrade)).foldl fadd cum) r
            = false) := by
  intro gs
  induction gs with
  | nil =>
    intro os j0 cum hlen
    cases os with
    | nil => simp [selectLoop]
    | cons o os => simp at hlen
  | cons g gs ih =>
    intro os j0 cum hlen
    cases os with
    | nil => simp at hlen
    | cons o os =>
      have hlen1 : gs.length = os.length := by simpa using hlen
      have hih := ih os (j0 + 1) (fadd cum (fdiv g totalGrade)) hlen1
      by_cases h0 : fge (fadd cum (fdiv g totalGrade)) r = true
      · simp only [selectLoop, h0, if_true]
        constructor
        · intro h; cases h
        · intro h
          have := h 0 (by simp)
          simp only [Nat.zero_add, List.take_succ_cons, List.take_zero, List.map_cons,
            List.map_nil, List.foldl_cons, List.foldl_nil] at this
          rw [this] at h0
          cases h0
      · have h0f : fge (fadd cum (fdiv g totalGrade)) r = false := by
          cases hv : fge (fadd cum (fdiv g totalGrade)) r with
          | true => exact absurd hv h0
          | false => rfl
        simp only [selectLoop, h0f, Bool.false_eq_true, if_false]
        rw [hih]
        constructor
        · intro h j hj
          cases j with
          | zero =>
            simp only [Nat.zero_add, List.take_succ_cons, List.take_zero, List.map_cons,
              List.map_nil, List.foldl_cons, List.foldl_nil]
            exact h0f
          | succ j =>
            have := h j (by simpa using hj)
            simpa only [List.take_succ_cons, List.map_cons, List.foldl_cons] using this
        · intro h j hj
          have := h (j + 1) (by simpa using hj)
          simpa only [List.take_succ_cons, List.map_cons, List.foldl_cons] using this

theorem selectLoop_some_mem (r totalGrade : F64) :
    ∀ (gs : List F64) (os : List Node) (j0 : Nat) (cum : F64) (o : Node) (j : Nat),
      selectLoop r totalGrade gs os j0 cum = some (o, j) →
      j0 ≤ j ∧ j - j0 < os.length ∧ o ∈ os := by
  intro gs
  induction gs with
  | nil =>
    intro os j0 cum o j h
    simp [selectLoop] at h
  | cons g gs ih =>
    intro os j0 cum o j h
    cases os with
    | nil => simp [selectLoop] at h
    | cons p os =>
      simp only [selectLoop] at h
      split at h
      · simp only [Option.some.injEq, Prod.mk.injEq] at h
        obtain ⟨h1, h2⟩ := h
        subst h1; subst h2
        simp
      · obtain ⟨h1, h2, h3⟩ := ih os (j0 + 1) _ o j h
        refine ⟨by omega, ?_, List.mem_cons_of_mem _ h3⟩
        simp only [List.length_cons]
        omega

theorem getRouteStep_stale (pow : F64 → F64 → F64) (e : AntColonyOptimization) (r : ℚ)
    (s : RouteState) (grades : List F64)
    (hgrades : s.options.map (fun o => grade pow e s.currentNode.id o.id) = grades.map some)
    (hnone : ∀ j, j < s.options.length →
      fge (cumulative (grades.foldl fadd (.fin 0)) grades j) (.fin r) = false) :
    getRouteStep pow e r s =
      if s.nextNodeId + 1 ≤ s.options.length then
        some { options := s.options.eraseIdx s.nextNodeId
               newRoute := s.newRoute ++ [s.nextNode]
               currentNode := s.nextNode
               nextNode := s.nextNode
               nextNodeId := s.nextNodeId }
      else none := by
  have hlen : grades.length = s.options.length := by
    have := congrArg List.length hgrades
    simpa using this.symm
  have hg := gradesLoop_eq pow e s.currentNode s.options grades [] (.fin 0) hgrades
  have hs : selectLoop (.fin r) (grades.foldl fadd (.fin 0)) grades s.options 0 (.fin 0)
      = none :=
    (selectLoop_none_iff (.fin r) _ grades s.options 0 (.fin 0) hlen).mpr hnone
  simp only [getRouteStep, hg, List.nil_append, hs]
  rw [List.eraseIdx_eq_take_drop_succ]

end ACO

namespace ACO

theorem getRouteStep_some (pow : F64 → F64 → F64) (e : AntColonyOptimization) (r : ℚ)
    (s s1 : RouteState) (h : getRouteStep pow e r s = some s1) :
    s1.newRoute = s.newRoute ++ [s1.nextNode] ∧ s1.currentNode = s1.nextNode ∧
      (s1.nextNode = s.nextNode ∨ s1.nextNode ∈ s.options) ∧
      (∀ o ∈ s1.options, o ∈ s.options) := by
  have hsub : ∀ (j : Nat) (o : Node), o ∈ s.options.take j ++ s.options.drop (j + 1) →
      o ∈ s.options := by
    intro j o ho
    rcases List.mem_append.mp ho with h1 | h1
    · exact List.mem_of_mem_take h1
    · exact List.mem_of_mem_drop h1
  unfold getRouteStep at h
  split at h
  · cases h
  · rename_i grades total hg
    split at h
    · rename_i o j hs
      split at h
      · cases h
        exact ⟨rfl, rfl, Or.inr (selectLoop_some_mem _ _ _ _ _ _ _ _ hs).2.2, hsub j⟩
      · cases h
    · split at h
      · cases h
        exact ⟨rfl, rfl, Or.inl rfl, hsub s.nextNodeId⟩
      · cases h

theorem getRouteStep_none (pow : F64 → F64 → F64) (e : AntColonyOptimization) (r : ℚ)
    (s : RouteState) (grades : List F64) (total : F64)
    (hg : gradesLoop pow e s.currentNode s.options [] (.fin 0) = some (grades, total))
    (h : getRouteStep pow e r s = none) :
    selectLoop (.fin r) total grades s.options 0 (.fin 0) = none ∧
      s.options.length < s.nextNodeId + 1 := by
  simp only [getRouteStep, hg] at h
  cases hs : selectLoop (.fin r) total grades s.options 0 (.fin 0) with
  | some p =>
    obtain ⟨o, j⟩ := p
    have hj := (selectLoop_some_mem _ _ _ _ _ _ _ _ hs).2.1
    have hle : j + 1 ≤ s.options.length := by omega
    simp [hs, hle] at h
  | none =>
    refine ⟨rfl, ?_⟩
    by_cases hle : s.nextNodeId + 1 ≤ s.options.length
    · simp [hs, hle] at h
    · omega

theorem grades_exist (pow : F64 → F64 → F64) (e : AntColonyOptimization) (N : Nat)
    (hfp : Full N e.pheromone) (hfd : Full N e.dists) (c : Node) (hc : c.id < N) :
    ∀ (options : List Node), (∀ o ∈ options, o.id < N) →
      ∃ gs : List F64, options.map (fun o => grade pow e c.id o.id) = gs.map some := by
  intro options
  induction options with
  | nil => intro _; exact ⟨[], rfl⟩
  | cons o os ih =>
    intro h
    obtain ⟨gs, hgs⟩ := ih (fun x hx => h x (List.mem_cons_of_mem _ hx))
    have ho := h o (List.mem_cons_self _ _)
    obtain ⟨p, hp⟩ := Option.isSome_iff_exists.mp (hfp c.id o.id hc ho)
    obtain ⟨d, hd⟩ := Option.isSome_iff_exists.mp (hfd c.id o.id hc ho)
    have hgr : grade pow e c.id o.id
        = some (fmul (pow p e.a) (fdiv (.fin 1) (pow (ofInt d) e.b))) := by
      simp only [grade, hp, hd]
    refine ⟨fmul (pow p e.a) (fdiv (.fin 1) (pow (ofInt d) e.b)) :: gs, ?_⟩
    simp only [List.map_cons, hgs, hgr]

theorem getRouteLoop_add (pow : F64 → F64 → F64) (e : AntColonyOptimization) (rnd : Nat → ℚ) :
    ∀ (i m k : Nat) (s : RouteState),
      getRouteLoop pow e rnd (i + m) k s =
        match getRouteLoop pow e rnd i k s with
        | none => none
        | some s1 => getRouteLoop pow e rnd m (k + i) s1 := by
  intro i
  induction i with
  | zero => intro m k s; simp [getRouteLoop]
  | succ i ih =>
    intro m k s
    have harith : i + 1 + m = (i + m) + 1 := by omega
    rw [harith]
    simp only [getRouteLoop]
    cases getRouteStep pow e (rnd k) s with
    | none => rfl
    | some s1 =>
      simp only
      rw [ih m (k + 1) s1]
      have h2 : k + 1 + i = k + (i + 1) := by omega
      rw [h2]

theorem getRouteLoop_inv (pow : F64 → F64 → F64) (e : AntColonyOptimization) (rnd : Nat → ℚ)
    (N : Nat) :
    ∀ (n k : Nat) (s s1 : RouteState), getRouteLoop pow e rnd n k s = some s1 →
      (∃ l, s1.newRoute = s.newRoute ++ l) ∧
      ((s.nextNode = { id := 0, x := 0, y := 0 } ∨ s.nextNode ∈ s.newRoute) →
        (s1.nextNode = { id := 0, x := 0, y := 0 } ∨ s1.nextNode ∈ s1.newRoute)) ∧
      ((s.currentNode.id < N ∧ s.nextNode.id < N ∧ ∀ o ∈ s.options, o.id < N) →
        (s1.currentNode.id < N ∧ s1.nextNode.id < N ∧ ∀ o ∈ s1.options, o.id < N)) := by
  intro n
  induction n with
  | zero =>
    intro k s s1 h
    simp only [getRouteLoop, Option.some.injEq] at h
    subst h
    exact ⟨⟨[], by simp⟩, id, id⟩
  | succ n ih =>
    intro k s s1 h
    simp only [getRouteLoop] at h
    split at h
    · cases h
    · rename_i s2 hstep
      obtain ⟨hnew, hcur, hnext, hopt⟩ := getRouteStep_some pow e (rnd k) s s2 hstep
      obtain ⟨⟨l, hl⟩, hJ, hV⟩ := ih (k + 1) s2 s1 h
      refine ⟨⟨[s2.nextNode] ++ l, by rw [hl, hnew]; simp⟩, ?_, ?_⟩
      · intro _
        exact hJ (Or.inr (by rw [hnew]; simp))
      · intro hv
        obtain ⟨_, hv2, hv3⟩ := hv
        have hn2 : s2.nextNode.id < N := by
          rcases hnext with h1 | h1
          · rw [h1]; exact hv2
          · exact hv3 _ h1
        exact hV ⟨by rw [hcur]; exact hn2, hn2, fun o ho => hv3 o (hopt o ho)⟩

theorem getRouteLoop_none_step (pow : F64 → F64 → F64) (e : AntColonyOptimization)
    (rnd : Nat → ℚ) :
    ∀ (n k : Nat) (s : RouteState), getRouteLoop pow e rnd n k s = none →
      ∃ j s1, j < n ∧ getRouteLoop pow e rnd j k s = some s1 ∧
        getRouteStep pow e (rnd (k + j)) s1 = none := by
  intro n
  induction n with
  | zero => intro k s h; simp [getRouteLoop] at h
  | succ n ih =>
    intro k s h
    cases hstep : getRouteStep pow e (rnd k) s with
    | none => exact ⟨0, s, Nat.succ_pos n, rfl, by simpa using hstep⟩
    | some s2 =>
      simp only [getRouteLoop, hstep] at h
      obtain ⟨j, s1, hj, hl, hn⟩ := ih (k + 1) s2 h
      refine ⟨j + 1, s1, Nat.succ_lt_succ hj, ?_, ?_⟩
      · simp only [getRouteLoop, hstep]
        exact hl
      · have h2 : k + (j + 1) = k + 1 + j := by omega
        rw [h2]
        exact hn

end ACO

namespace ACO

theorem getRoute_eq_loop (pow : F64 → F64 → F64) (e : AntColonyOptimization) (rnd : Nat → ℚ)
    (k : Nat) (nodes : Route) (depot : Node) :
    getRoute pow e rnd k nodes depot =
      match getRouteLoop pow e rnd nodes.length k (initialRouteState nodes depot) with
      | none => none
      | some s => some s.newRoute := rfl

theorem getRoute_stale_run (pow : F64 → F64 → F64) (e : AntColonyOptimization) (rnd : Nat → ℚ)
    (k : Nat) (nodes : Route) (depot : Node) (i : Nat) (s : RouteState) (grades : List F64)
    (hnd : nodes.Nodup) (hids : ∀ n ∈ nodes, n.id ≠ 0) (hi : i < nodes.length)
    (hreach : getRouteLoop pow e rnd i k (initialRouteState nodes depot) = some s)
    (hgrades : s.options.map (fun o => grade pow e s.currentNode.id o.id) = grades.map some)
    (hnone : ∀ j, j < s.options.length →
      fge (cumulative (grades.foldl fadd (.fin 0)) grades j) (.fin (rnd (k + i))) = false) :
    getRoute pow e rnd k nodes depot = none ∨
      ∃ route, getRoute pow e rnd k nodes depot = some route ∧ ¬ route.Perm nodes := by
  obtain ⟨m, hm⟩ : ∃ m, nodes.length = i + (m + 1) := ⟨nodes.length - i - 1, by omega⟩
  have hJ : s.nextNode = { id := 0, x := 0, y := 0 } ∨ s.nextNode ∈ s.newRoute :=
    (getRouteLoop_inv pow e rnd 0 i k _ s hreach).2.1 (Or.inl rfl)
  have hloop : getRouteLoop pow e rnd nodes.length k (initialRouteState nodes depot) =
      match getRouteStep pow e (rnd (k + i)) s with
      | none => none
      | some s1 => getRouteLoop pow e rnd m (k + i + 1) s1 := by
    rw [hm, getRouteLoop_add, hreach]
    simp only [getRouteLoop]
  rw [getRoute_eq_loop, hloop, getRouteStep_stale pow e (rnd (k + i)) s grades hgrades hnone]
  by_cases hb : s.nextNodeId + 1 ≤ s.options.length
  · simp only [hb, if_true]
    cases hl : getRouteLoop pow e rnd m (k + i + 1)
        { options := s.options.eraseIdx s.nextNodeId
          newRoute := s.newRoute ++ [s.nextNode]
          currentNode := s.nextNode
          nextNode := s.nextNode
          nextNodeId := s.nextNodeId } with
    | none => exact Or.inl rfl
    | some s2 =>
      right
      refine ⟨s2.newRoute, rfl, ?_⟩
      obtain ⟨l, hl2⟩ := (getRouteLoop_inv pow e rnd 0 m _ _ s2 hl).1
      simp only at hl2
      intro hperm
      rcases hJ with hz | hmem
      · have hin : ({ id := 0, x := 0, y := 0 } : Node) ∈ s2.newRoute := by
          rw [hl2, hz]; simp
        exact hids _ (hperm.mem_iff.mp hin) rfl
      · have hnodup : s2.newRoute.Nodup := hperm.nodup_iff.mpr hnd
        rw [hl2] at hnodup
        have h1 : (s.newRoute ++ [s.nextNode]).Nodup := (List.nodup_append.mp hnodup).1
        have h2 := (List.nodup_append.mp h1).2.2
        exact h2 hmem (by simp)
  · simp only [hb, if_false]
    exact Or.inl trivial

theorem getRoute_none_is_slice (pow : F64 → F64 → F64) (e : AntColonyOptimization)
    (rnd : Nat → ℚ) (N k : Nat) (nodes : Route) (depot : Node) (hN : 0 < N)
    (hfp : Full N e.pheromone) (hfd : Full N e.dists) (hdepot : depot.id < N)
    (hids : ∀ n ∈ nodes, n.id < N)
    (hfail : getRoute pow e rnd k nodes depot = none) :
    ∃ j s grades, j < nodes.length ∧
      getRouteLoop pow e rnd j k (initialRouteState nodes depot) = some s ∧
      s.options.map (fun o => grade pow e s.currentNode.id o.id) = grades.map some ∧
      (∀ i, i < s.options.length →
        fge (cumulative (grades.foldl fadd (.fin 0)) grades i) (.fin (rnd (k + j))) = false) ∧
      s.options.length < s.nextNodeId + 1 := by
  rw [getRoute_eq_loop] at hfail
  have hloop : getRouteLoop pow e rnd nodes.length k (initialRouteState nodes depot) = none := by
    cases h : getRouteLoop pow e rnd nodes.length k (initialRouteState nodes depot) with
    | none => rfl
    | some s => rw [h] at hfail; cases hfail
  obtain ⟨j, s, hj, hreach, hstep⟩ := getRouteLoop_none_step pow e rnd _ k _ hloop
  obtain ⟨hc, _, hopt⟩ := (getRouteLoop_inv pow e rnd N j k _ s hreach).2.2
    ⟨hdepot, hN, hids⟩
  obtain ⟨grades, hgrades⟩ := grades_exist pow e N hfp hfd s.currentNode hc s.options hopt
  have hlen : grades.length = s.options.length := by
    have := congrArg List.length hgrades
    simpa using this.symm
  have hg := gradesLoop_eq pow e s.currentNode s.options grades [] (.fin 0) hgrades
  rw [List.nil_append] at hg
  obtain ⟨hsel, hbound⟩ := getRouteStep_none pow e (rnd (k + j)) s grades _ hg hstep
  exact ⟨j, s, grades, hj, hreach, hgrades,
    (selectLoop_none_iff _ _ grades s.options 0 (.fin 0) hlen).mp hsel, hbound⟩

end ACO

namespace ACO

/-- C22: a pass of `getRoute` in which no candidate's cumulative normalized grade
reaches the draw.  (1) The pass selects nothing: it appends the stale `nextNode`
(the zero-valued node with id 0 before any selection), makes it current, and removes
the pool element at the stale index `nextNodeId` (0 before any selection), or fails
when that index is past the pool.  (2) If this happens at some pass on a
duplicate-free list of nodes with ids other than 0, `getRoute` fails or returns a
route that is not a permutation of the list.  (3) With full `N x N` matrices and valid
ids a failure of `getRoute` is such a pass whose stale index is out of range. -/
theorem getRoute_without_selection (pow : F64 → F64 → F64) (self : AntColonyOptimization)
    (rnd : Nat → ℚ) :
    (∀ (r : ℚ) (s : RouteState) (grades : List F64),
      s.options.map (fun o => grade pow self s.currentNode.id o.id) = grades.map some →
      (∀ j, j < s.options.length →
        fge (cumulative (grades.foldl fadd (.fin 0)) grades j) (.fin r) = false) →
      getRouteStep pow self r s =
        if s.nextNodeId + 1 ≤ s.options.length then
          some { options := s.options.eraseIdx s.nextNodeId
                 newRoute := s.newRoute ++ [s.nextNode]
                 currentNode := s.nextNode
                 nextNode := s.nextNode
                 nextNodeId := s.nextNodeId }
        else none) ∧
    (∀ (k : Nat) (nodes : Route) (depot : Node) (i : Nat) (s : RouteState)
      (grades : List F64), nodes.Nodup → (∀ n ∈ nodes, n.id ≠ 0) → i < nodes.length →
      getRouteLoop pow self rnd i k (initialRouteState nodes depot) = some s →
      s.options.map (fun o => grade pow self s.currentNode.id o.id) = grades.map some →
      (∀ j, j < s.options.length →
        fge (cumulative (grades.foldl fadd (.fin 0)) grades j) (.fin (rnd (k + i)))
          = false) →
      getRoute pow self rnd k nodes depot = none ∨
        ∃ route, getRoute pow self rnd k nodes depot = some route ∧ ¬ route.Perm nodes) ∧
    (∀ (N k : Nat) (nodes : Route) (depot : Node), 0 < N → Full N self.pheromone →
      Full N self.dists → depot.id < N → (∀ n ∈ nodes, n.id < N) →
      getRoute pow self rnd k nodes depot = none →
      ∃ j s grades, j < nodes.length ∧
        getRouteLoop pow self rnd j k (initialRouteState nodes depot) = some s ∧
        s.options.map (fun o => grade pow self s.currentNode.id o.id) = grades.map some ∧
        (∀ i, i < s.options.length →
          fge (cumulative (grades.foldl fadd (.fin 0)) grades i) (.fin (rnd (k + j)))
            = false) ∧
        s.options.length < s.nextNodeId + 1) :=
  ⟨fun r s grades hg hn => getRouteStep_stale pow self r s grades hg hn,
    fun k nodes depot i s grades hnd hids hi hreach hg hn =>
      getRoute_stale_run pow self rnd k nodes depot i s grades hnd hids hi hreach hg hn,
    fun N k nodes depot hN hfp hfd hdepot hids hfail =>
      getRoute_none_is_slice pow self rnd N k nodes depot hN hfp hfd hdepot hids hfail⟩

theorem exStaleEngine_full :
    Full 3 exStaleEngine.pheromone ∧ Full 3 exStaleEngine.dists := by
  constructor
  · intro a b ha hb
    interval_cases a <;> interval_cases b <;> decide!
  · intro a b ha hb
    interval_cases a <;> interval_cases b <;> decide!

theorem exZeroEngine_no_selection :
    ∀ j, j < (initialRouteState exTriangle.nodes.tail { id := 0, x := 0, y := 0 }).options.length →
      fge (cumulative ([F64.fin 0, F64.fin 0].foldl fadd (.fin 0)) [F64.fin 0, F64.fin 0] j)
        (.fin ((fun _ => (1 / 2 : ℚ)) (0 + 0))) = false := by
  intro j hj
  have hj2 : j < 2 := hj
  interval_cases j <;> decide!

theorem getRoute_without_selection_witness :
    ((initialRouteState exTriangle.nodes.tail { id := 0, x := 0, y := 0 }).options.map
        (fun o => grade powNat exZeroEngine
          (initialRouteState exTriangle.nodes.tail { id := 0, x := 0, y := 0 }).currentNode.id
          o.id) = [F64.fin 0, F64.fin 0].map some ∧
      getRouteStep powNat exZeroEngine (1 / 2)
          (initialRouteState exTriangle.nodes.tail { id := 0, x := 0, y := 0 }) =
        some { options := [{ id := 2, x := 3, y := 0 }]
               newRoute := [{ id := 0, x := 0, y := 0 }]
               currentNode := { id := 0, x := 0, y := 0 }
               nextNode := { id := 0, x := 0, y := 0 }
               nextNodeId := 0 }) ∧
    (exTriangle.nodes.tail.Nodup ∧ (∀ n ∈ exTriangle.nodes.tail, n.id ≠ 0) ∧
      0 < exTriangle.nodes.tail.length ∧
      getRouteLoop powNat exZeroEngine (fun _ => 1 / 2) 0 0
          (initialRouteState exTriangle.nodes.tail { id := 0, x := 0, y := 0 })
        = some (initialRouteState exTriangle.nodes.tail { id := 0, x := 0, y := 0 }) ∧
      (getRoute powNat exZeroEngine (fun _ => 1 / 2) 0 exTriangle.nodes.tail
          { id := 0, x := 0, y := 0 } = none ∨
        ∃ route, getRoute powNat exZeroEngine (fun _ => 1 / 2) 0 exTriangle.nodes.tail
            { id := 0, x := 0, y := 0 } = some route ∧
          ¬ route.Perm exTriangle.nodes.tail)) ∧
    (0 < 3 ∧ Full 3 exStaleEngine.pheromone ∧ Full 3 exStaleEngine.dists ∧
      ({ id := 0, x := 0, y := 0 } : Node).id < 3 ∧
      (∀ n ∈ exTriangle.nodes.tail, n.id < 3) ∧
      getRoute powNat exStaleEngine (fun _ => 1 / 2) 0 exTriangle.nodes.tail
        { id := 0, x := 0, y := 0 } = none ∧
      ∃ j s grades, j < exTriangle.nodes.tail.length ∧
        getRouteLoop powNat exStaleEngine (fun _ => 1 / 2) j 0
          (initialRouteState exTriangle.nodes.tail { id := 0, x := 0, y := 0 }) = some s ∧
        s.options.map (fun o => grade powNat exStaleEngine s.currentNode.id o.id)
          = grades.map some ∧
        (∀ i, i < s.options.length →
          fge (cumulative (grades.foldl fadd (.fin 0)) grades i)
            (.fin ((fun _ => (1 / 2 : ℚ)) (0 + j))) = false) ∧
        s.options.length < s.nextNodeId + 1) :=
  ⟨⟨by decide!,
      (getRoute_without_selection powNat exZeroEngine (fun _ => 1 / 2)).1 (1 / 2)
        (initialRouteState exTriangle.nodes.tail { id := 0, x := 0, y := 0 })
        [F64.fin 0, F64.fin 0] (by decide!) exZeroEngine_no_selection⟩,
    ⟨by decide, by decide, by decide, rfl,
      (getRoute_without_selection powNat exZeroEngine (fun _ => 1 / 2)).2.1 0
        exTriangle.nodes.tail { id := 0, x := 0, y := 0 } 0
        (initialRouteState exTriangle.nodes.tail { id := 0, x := 0, y := 0 })
        [F64.fin 0, F64.fin 0] (by decide) (by decide) (by decide) rfl (by decide!)
        exZeroEngine_no_selection⟩,
    ⟨by decide, exStaleEngine_full.1, exStaleEngine_full.2, by decide, by decide, by decide!,
      (getRoute_without_selection powNat exStaleEngine (fun _ => 1 / 2)).2.2 3 0
        exTriangle.nodes.tail { id := 0, x := 0, y := 0 } (by decide) exStaleEngine_full.1
        exStaleEngine_full.2 (by decide) (by decide) (by decide!)⟩⟩

/-- The route built on the triangle with initial pheromone 0: twice the zero-valued
node, and none of the two input nodes. -/
theorem getRoute_zero_pheromone :
    getRoute powNat exZeroEngine (fun _ => 1 / 2) 0 exTriangle.nodes.tail
      { id := 0, x := 0, y := 0 }
      = some [{ id := 0, x := 0, y := 0 }, { id := 0, x := 0, y := 0 }] := by
  decide!

end ACO

namespace ACO

/-! ## Route construction: the permutation is lost when a pass selects nothing -/

/-- C3 (code defect): the selection loop of `getRoute` has no fallback when it ends
without a `break`.  On the triangle with pheromone 0.1 everywhere, positive
off-diagonal distances and the exponent `a = 400`, `math.Pow(0.1, 400)` underflows
to 0: every grade is 0, the total is 0, each `grades[j] / totalGrade` is not finite
and no cumulative value is `>= r`.  For the duplicate-free input `[1, 2]`, depot 0
and the draws 0.5 in `[0,1)`, `getRoute` returns twice the zero-valued node, which
is not a permutation of the input. -/
theorem getRoute_not_permutation_on_underflow :
    exUnderflowEngine.pheromone = List.replicate 3 (List.replicate 3 (.fin (1 / 10))) ∧
    exUnderflowEngine.dists = [[0, 5, 3], [5, 0, 4], [3, 4, 0]] ∧
    exUnderflowEngine.a = .fin 400 ∧
    exTriangle.nodes.tail = [{ id := 1, x := 3, y := 4 }, { id := 2, x := 3, y := 0 }] ∧
    powUnderflow (.fin (1 / 10)) (.fin 400) = .fin 0 ∧
    grade powUnderflow exUnderflowEngine 0 1 = some (.fin 0) ∧
    grade powUnderflow exUnderflowEngine 0 2 = some (.fin 0) ∧
    getRoute powUnderflow exUnderflowEngine (fun _ => 1 / 2) 0 exTriangle.nodes.tail
        { id := 0, x := 0, y := 0 }
      = some [{ id := 0, x := 0, y := 0 }, { id := 0, x := 0, y := 0 }] ∧
    ¬ List.Perm ([{ id := 0, x := 0, y := 0 }, { id := 0, x := 0, y := 0 }] : Route)
      exTriangle.nodes.tail := by
  refine ⟨by decide!, by decide!, rfl, by decide, by decide!, by decide!, by decide!,
    by decide!, ?_⟩
  intro h
  have hmem : ({ id := 0, x := 0, y := 0 } : Node) ∈ exTriangle.nodes.tail :=
    h.mem_iff.mp (by simp)
  revert hmem
  decide

end ACO
